import Mathlib

/-!
Verification development for the plan-mode extension
(`src/shitty-extensions/plan-mode.ts`).

The TypeScript source is shallowly embedded at the level of pure data:

* strings are `String` / `List Char`;
* JavaScript numbers are modelled as `Int` where the data model declares
  integers (step ids) and as `Rat` where arbitrary JSON numerals can occur
  (settings values); floating-point behaviour is outside the model;
* the file system is an explicit state record threaded through the
  functions that the source performs I/O with;
* external builtins (`Date.parse`, `String.prototype.localeCompare`,
  regular-expression engines, session identity) are either parameters of
  the embedded functions or ordinal models, as noted at each definition.
-/

namespace PlanMode

/-! ## Data model (source lines 115-149) -/

/-- `PlanStep` from the source; `id` is an integer per the data model. -/
structure PlanStep where
  id : Int
  text : String
  done : Bool
deriving Repr, DecidableEq

/-- `PlanFrontMatter` from the source.  `status` is kept as a raw string
because `parseFrontMatter` accepts any string for it. -/
structure PlanFrontMatter where
  id : String
  title : String
  status : String
  created_at : String
  assigned_to_session : Option String
  steps : List PlanStep
deriving Repr, DecidableEq

/-- `PlanRecord` = front matter plus free-form body. -/
structure PlanRecord extends PlanFrontMatter where
  body : String
deriving Repr, DecidableEq

/-- `PlanSettings` from the source (`gc`, `gcDays`). -/
structure PlanSettings where
  gc : Bool
  gcDays : Int
deriving Repr, DecidableEq

/-- `DEFAULT_PLAN_SETTINGS = { gc: true, gcDays: 30 }`. -/
def DEFAULT_PLAN_SETTINGS : PlanSettings := { gc := true, gcDays := 30 }

/-- `LOCK_TTL_MS = 30 * 60 * 1000`. -/
def LOCK_TTL_MS : Int := 30 * 60 * 1000

/-! ## Character classes -/

/-- Whitespace accepted between JSON tokens by `JSON.parse`. -/
def isJsonWs (c : Char) : Bool :=
  c = ' ' || c = '\t' || c = '\n' || c = '\r'

/-- The JavaScript whitespace class used by `String.prototype.trim` and by
the `\s` regular-expression class (WhiteSpace plus LineTerminator). -/
def isJsSpace (c : Char) : Bool :=
  c = ' ' || c = '\t' || c = '\n' || c = '\r' || c = '\x0b' || c = '\x0c' ||
  c.toNat = 0xA0 || c.toNat = 0x1680 || (0x2000 ≤ c.toNat && c.toNat ≤ 0x200A) ||
  c.toNat = 0x2028 || c.toNat = 0x2029 || c.toNat = 0x202F || c.toNat = 0x205F ||
  c.toNat = 0x3000 || c.toNat = 0xFEFF

/-- `String.prototype.trim` on a character list. -/
def jsTrim (l : List Char) : List Char :=
  ((l.dropWhile isJsSpace).reverse.dropWhile isJsSpace).reverse

/-- `replace(/\s+$/, "")`: strip trailing JavaScript whitespace. -/
def stripTrailingWs (l : List Char) : List Char :=
  (l.reverse.dropWhile isJsSpace).reverse

def isAsciiDigit (c : Char) : Bool := '0' ≤ c && c ≤ '9'

/-! ## `findJsonObjectEnd` / `splitFrontMatter` (source lines 253-287) -/

/-- State machine of `findJsonObjectEnd`: index, brace depth (a JavaScript
number, hence `Int`), in-string flag, escaped flag. -/
def findJsonObjectEndAux : List Char → Nat → Int → Bool → Bool → Int
  | [], _, _, _, _ => -1
  | c :: cs, i, depth, inString, escaped =>
    if inString then
      if escaped then findJsonObjectEndAux cs (i + 1) depth true false
      else if c = '\\' then findJsonObjectEndAux cs (i + 1) depth true true
      else if c = '"' then findJsonObjectEndAux cs (i + 1) depth false false
      else findJsonObjectEndAux cs (i + 1) depth true false
    else if c = '"' then findJsonObjectEndAux cs (i + 1) depth true false
    else if c = '\x7b' then findJsonObjectEndAux cs (i + 1) (depth + 1) false false
    else if c = '\x7d' then
      (if depth - 1 = 0 then (i : Int)
       else findJsonObjectEndAux cs (i + 1) (depth - 1) false false)
    else findJsonObjectEndAux cs (i + 1) depth false false

/-- `findJsonObjectEnd(content)`: index of the brace closing the leading
JSON object, or `-1`. -/
def findJsonObjectEnd (content : List Char) : Int :=
  findJsonObjectEndAux content 0 0 false false

/-- `replace(/^\r?\n+/, "")` applied to the text after the front matter. -/
def stripBodyLead : List Char → List Char
  | '\r' :: '\n' :: rest => List.dropWhile (fun c => c = '\n') rest
  | '\n' :: rest => List.dropWhile (fun c => c = '\n') rest
  | l => l

/-- `splitFrontMatter(content)` returning `(frontMatter, body)`. -/
def splitFrontMatter (content : List Char) : List Char × List Char :=
  if content.head? = some '\x7b' then
    let e := findJsonObjectEnd content
    if e = -1 then ([], content)
    else (content.take (e.toNat + 1), stripBodyLead (content.drop (e.toNat + 1)))
  else ([], content)

/-! ## Serialization (source lines 332-349)

`serializePlan` calls `JSON.stringify(frontMatterObject, null, 2)`.  The
functions below spell out `JSON.stringify`'s output for exactly the object
shape the source builds (string fields, an optional string field dropped
when falsy, and an array of `{id, text, done}` objects), including its
two-space pretty printing and its string-escaping rules. -/

/-- Lowercase hexadecimal digit, as used by `JSON.stringify`'s `\u00XX`
escapes for control characters. -/
def hexDigitChar (n : Nat) : Char :=
  if n < 10 then Char.ofNat ('0'.toNat + n) else Char.ofNat ('a'.toNat + (n - 10))

/-- `JSON.stringify` escaping of one character inside a string literal. -/
def escChar (c : Char) : List Char :=
  if c = '"' then ['\\', '"']
  else if c = '\\' then ['\\', '\\']
  else if c = '\x08' then ['\\', 'b']
  else if c = '\x0c' then ['\\', 'f']
  else if c = '\n' then ['\\', 'n']
  else if c = '\r' then ['\\', 'r']
  else if c = '\t' then ['\\', 't']
  else if c.toNat < 0x20 then
    ['\\', 'u', '0', '0', hexDigitChar (c.toNat / 16), hexDigitChar (c.toNat % 16)]
  else [c]

def escStr : List Char → List Char
  | [] => []
  | c :: cs => escChar c ++ escStr cs

/-- A JSON string literal: quote, escaped content, quote. -/
def qstr (s : List Char) : List Char := '"' :: (escStr s ++ ['"'])

/-- Decimal digits of a natural number (most significant first). -/
def natChars (n : Nat) : List Char :=
  if _h : n < 10 then [Char.ofNat ('0'.toNat + n)]
  else natChars (n / 10) ++ [Char.ofNat ('0'.toNat + n % 10)]
decreasing_by exact Nat.div_lt_self (by omega) (by omega)

/-- Decimal notation of an integer as emitted by `JSON.stringify`. -/
def intChars (n : Int) : List Char :=
  if n < 0 then '-' :: natChars n.natAbs else natChars n.toNat

/-- One element of the `steps` array, rendered at array nesting depth 2
(member lines indented six spaces, closing brace four). -/
def stepChars (s : PlanStep) : List Char :=
  "\x7b\n      \"id\": ".data ++ intChars s.id ++
  ",\n      \"text\": ".data ++ qstr s.text.data ++
  ",\n      \"done\": ".data ++ (if s.done then "true".data else "false".data) ++
  "\n    \x7d".data

/-- The elements of a non-empty `steps` array joined by `",\n    "`. -/
def stepsJoin : List PlanStep → List Char
  | [] => []
  | [s] => stepChars s
  | s :: rest => stepChars s ++ ",\n    ".data ++ stepsJoin rest

/-- The `steps` array value as pretty-printed by `JSON.stringify`. -/
def stepsArrayChars (steps : List PlanStep) : List Char :=
  match steps with
  | [] => "[]".data
  | _ => "[\n    ".data ++ stepsJoin steps ++ "\n  ]".data

/-- `JSON.stringify(frontMatterObject, null, 2)` for the object literal the
source builds: keys in insertion order `id`, `title`, `status`,
`created_at`, `assigned_to_session` (omitted when the field is `undefined`
or the empty string, mirroring `plan.assigned_to_session || undefined`),
`steps`. -/
def stringifyPlan (p : PlanRecord) : List Char :=
  "\x7b\n  \"id\": ".data ++ qstr p.id.data ++
  ",\n  \"title\": ".data ++ qstr p.title.data ++
  ",\n  \"status\": ".data ++ qstr p.status.data ++
  ",\n  \"created_at\": ".data ++ qstr p.created_at.data ++
  (match p.assigned_to_session with
   | some a => if a = "" then [] else ",\n  \"assigned_to_session\": ".data ++ qstr a.data
   | none => []) ++
  ",\n  \"steps\": ".data ++ stepsArrayChars p.steps ++
  "\n\x7d".data

/-- The body after `replace(/^\n+/, "").replace(/\s+$/, "")`. -/
def bodyTrim (body : List Char) : List Char :=
  stripTrailingWs (body.dropWhile (fun c => c = '\n'))

/-- `serializePlan(plan)` (source lines 332-349). -/
def serializePlan (p : PlanRecord) : String :=
  let fm := stringifyPlan p
  let tb := bodyTrim p.body.data
  if tb = [] then String.mk (fm ++ ['\n'])
  else String.mk (fm ++ '\n' :: '\n' :: (tb ++ ['\n']))

/-! ## `JSON.parse` model

`parseFrontMatter` (source lines 289-324) and `readPlanSettings` (source
lines 551-564) call the builtin `JSON.parse`.  It is modelled below as a
fuel-indexed recursive-descent parser over the JSON grammar.  Two
deliberate restrictions of the model, both outside every claim's inputs:
`\uXXXX` escapes denoting lone UTF-16 surrogates fail (Lean characters are
scalar values), and numerals are evaluated exactly into `Rat` (JavaScript
would round to binary floating point). -/

inductive Json where
  | null
  | bool (b : Bool)
  | num (q : Rat)
  | str (s : String)
  | arr (elems : List Json)
  | obj (members : List (String × Json))
deriving Repr

/-- Skip JSON inter-token whitespace. -/
def skipWs : List Char → List Char
  | c :: cs => if isJsonWs c then skipWs cs else c :: cs
  | [] => []

def parseHexDigit (c : Char) : Option Nat :=
  let n := c.toNat
  if 48 ≤ n ∧ n ≤ 57 then some (n - 48)
  else if 97 ≤ n ∧ n ≤ 102 then some (n - 87)
  else if 65 ≤ n ∧ n ≤ 70 then some (n - 55)
  else none

def mapCons (c : Char) : Option (List Char × List Char) → Option (List Char × List Char)
  | some (s, r) => some (c :: s, r)
  | none => none

/-- Parse the remainder of a JSON string literal (after the opening
quote), returning its contents and the input after the closing quote. -/
def parseStrBody : List Char → Option (List Char × List Char)
  | [] => none
  | c :: cs =>
    if c = '"' then some ([], cs)
    else if c = '\\' then
      match cs with
      | [] => none
      | e :: cs' =>
        if e = '"' then mapCons '"' (parseStrBody cs')
        else if e = '\\' then mapCons '\\' (parseStrBody cs')
        else if e = '/' then mapCons '/' (parseStrBody cs')
        else if e = 'b' then mapCons '\x08' (parseStrBody cs')
        else if e = 'f' then mapCons '\x0c' (parseStrBody cs')
        else if e = 'n' then mapCons '\n' (parseStrBody cs')
        else if e = 'r' then mapCons '\r' (parseStrBody cs')
        else if e = 't' then mapCons '\t' (parseStrBody cs')
        else if e = 'u' then
          match cs' with
          | h1 :: h2 :: h3 :: h4 :: cs'' =>
            match parseHexDigit h1, parseHexDigit h2, parseHexDigit h3, parseHexDigit h4 with
            | some d1, some d2, some d3, some d4 =>
              let code := ((d1 * 16 + d2) * 16 + d3) * 16 + d4
              if code < 0xD800 || 0xDFFF < code then
                mapCons (Char.ofNat code) (parseStrBody cs'')
              else none
            | _, _, _, _ => none
          | _ => none
        else none
    else if c.toNat < 0x20 then none
    else mapCons c (parseStrBody cs)

/-- Greedy span of ASCII digits. -/
def takeDigits : List Char → List Char × List Char
  | [] => ([], [])
  | c :: cs =>
    if isAsciiDigit c then
      let (ds, r) := takeDigits cs
      (c :: ds, r)
    else ([], c :: cs)

def digitsVal (ds : List Char) : Nat :=
  ds.foldl (fun a c => 10 * a + (c.toNat - '0'.toNat)) 0

/-- Optional `.digits` fraction part. -/
def parseFrac : List Char → Option (List Char × List Char)
  | '.' :: r =>
    (match takeDigits r with
     | ([], _) => none
     | (ds, r') => some (ds, r'))
  | l => some ([], l)

/-- Optional `e`/`E` exponent part (0 when absent). -/
def parseExp : List Char → Option (Int × List Char)
  | [] => some (0, [])
  | c :: r =>
    if c = 'e' || c = 'E' then
      let (sgn, r1) : Int × List Char :=
        match r with
        | '+' :: t => (1, t)
        | '-' :: t => (-1, t)
        | t => (1, t)
      match takeDigits r1 with
      | ([], _) => none
      | (ds, r') => some (sgn * (digitsVal ds : Int), r')
    else some (0, c :: r)

/-- A JSON numeral (no leading zeros, optional fraction and exponent),
evaluated exactly into `Rat`. -/
def parseNumber (cs : List Char) : Option (Rat × List Char) :=
  let (neg, cs1) : Bool × List Char :=
    match cs with
    | '-' :: r => (true, r)
    | _ => (false, cs)
  match takeDigits cs1 with
  | ([], _) => none
  | (ds, r1) =>
    if 1 < ds.length && ds.head? = some '0' then none
    else
      match parseFrac r1 with
      | none => none
      | some (fds, r2) =>
        match parseExp r2 with
        | none => none
        | some (e, r3) =>
          let mant : Int := ((digitsVal ds * 10 ^ fds.length + digitsVal fds : Nat) : Int)
          let mant : Int := if neg then -mant else mant
          let e2 : Int := e - (fds.length : Int)
          if e2 = 0 then some ((mant : Rat), r3)
          else if 0 ≤ e2 then some (((mant * 10 ^ e2.toNat : Int) : Rat), r3)
          else some (mkRat mant (10 ^ (-e2).toNat), r3)

mutual

/-- One JSON value (leading whitespace allowed). -/
def parseValue : Nat → List Char → Option (Json × List Char)
  | 0, _ => none
  | f + 1, cs =>
    match skipWs cs with
    | 'n' :: 'u' :: 'l' :: 'l' :: r => some (.null, r)
    | 't' :: 'r' :: 'u' :: 'e' :: r => some (.bool true, r)
    | 'f' :: 'a' :: 'l' :: 's' :: 'e' :: r => some (.bool false, r)
    | '"' :: r =>
      (match parseStrBody r with
       | some (s, r') => some (.str (String.mk s), r')
       | none => none)
    | '\x7b' :: r =>
      (match skipWs r with
       | '\x7d' :: r' => some (.obj [], r')
       | cs' =>
         match parseMembers f cs' with
         | some (ms, r') => some (.obj ms, r')
         | none => none)
    | '[' :: r =>
      (match skipWs r with
       | ']' :: r' => some (.arr [], r')
       | cs' =>
         match parseElems f cs' with
         | some (es, r') => some (.arr es, r')
         | none => none)
    | cs' =>
      match parseNumber cs' with
      | some (q, r) => some (.num q, r)
      | none => none

/-- Members of a JSON object, positioned at the first key's quote. -/
def parseMembers : Nat → List Char → Option (List (String × Json) × List Char)
  | 0, _ => none
  | f + 1, cs =>
    match cs with
    | '"' :: r =>
      (match parseStrBody r with
       | none => none
       | some (k, r1) =>
         match skipWs r1 with
         | ':' :: r2 =>
           (match parseValue f r2 with
            | none => none
            | some (v, r3) =>
              match skipWs r3 with
              | ',' :: r4 =>
                (match parseMembers f (skipWs r4) with
                 | some (ms, r5) => some ((String.mk k, v) :: ms, r5)
                 | none => none)
              | '\x7d' :: r4 => some ([(String.mk k, v)], r4)
              | _ => none)
         | _ => none)
    | _ => none

/-- Elements of a JSON array, positioned at the first element. -/
def parseElems : Nat → List Char → Option (List Json × List Char)
  | 0, _ => none
  | f + 1, cs =>
    match parseValue f cs with
    | none => none
    | some (v, r1) =>
      match skipWs r1 with
      | ',' :: r2 =>
        (match parseElems f r2 with
         | some (es, r3) => some (v :: es, r3)
         | none => none)
      | ']' :: r2 => some ([v], r2)
      | _ => none

end

/-- `JSON.parse`: parse one value and require only whitespace after it.
`none` models a thrown `SyntaxError`. -/
def jsonParse (s : String) : Option Json :=
  match parseValue (s.data.length + 1) s.data with
  | some (v, rest) => if skipWs rest = [] then some v else none
  | none => none

/-! ## `parseFrontMatter` / `parsePlanContent` (source lines 289-330) -/

/-- The all-defaults front matter (source lines 290-297). -/
def defaultFrontMatter (idFallback : String) : PlanFrontMatter :=
  { id := idFallback, title := "", status := "draft", created_at := "",
    assigned_to_session := none, steps := [] }

/-- Property lookup on a parsed JSON object; with duplicate keys
`JSON.parse` keeps the last occurrence. -/
def jLookup (kvs : List (String × Json)) (k : String) : Option Json :=
  kvs.foldl (fun acc kv => if kv.1 = k then some kv.2 else acc) none

/-- The steps filter of `parseFrontMatter` (source lines 313-318): keep an
entry iff it is an object with `id` a number, `text` a string and `done` a
boolean.  Integral ids only, per the `Int` specialization. -/
def stepOfJson : Json → Option PlanStep
  | .obj kvs =>
    (match jLookup kvs "id", jLookup kvs "text", jLookup kvs "done" with
     | some (.num q), some (.str t), some (.bool d) =>
       if q.den = 1 then some { id := q.num, text := t, done := d } else none
     | _, _, _ => none)
  | _ => none

/-- `parseFrontMatter(text, idFallback)` (source lines 289-324). -/
def parseFrontMatter (text : List Char) (idFallback : String) : PlanFrontMatter :=
  let data := defaultFrontMatter idFallback
  let trimmed := jsTrim text
  if trimmed = [] then data
  else
    match jsonParse (String.mk trimmed) with
    | some (.obj kvs) =>
      let data :=
        match jLookup kvs "id" with
        | some (.str s) => if s = "" then data else { data with id := s }
        | _ => data
      let data :=
        match jLookup kvs "title" with
        | some (.str s) => { data with title := s }
        | _ => data
      let data :=
        match jLookup kvs "status" with
        | some (.str s) => { data with status := s }
        | _ => data
      let data :=
        match jLookup kvs "created_at" with
        | some (.str s) => { data with created_at := s }
        | _ => data
      let data :=
        match jLookup kvs "assigned_to_session" with
        | some (.str s) =>
          if jsTrim s.data = [] then data else { data with assigned_to_session := some s }
        | _ => data
      let data :=
        match jLookup kvs "steps" with
        | some (.arr es) => { data with steps := es.filterMap stepOfJson }
        | _ => data
      data
    | _ => data

/-- `parsePlanContent(content, idFallback)` (source lines 326-330). -/
def parsePlanContent (content : String) (idFallback : String) : PlanRecord :=
  let split := splitFrontMatter content.data
  let parsed := parseFrontMatter split.1 idFallback
  { toPlanFrontMatter := parsed, body := String.mk split.2 }

/-! ## `readPlanSettings` (source lines 551-564) -/

/-- JavaScript truthiness of a JSON value (`data.gc` is only ever consumed
through `!settings.gc`, so only its truthiness is observable). -/
def jsTruthy : Json → Bool
  | .null => false
  | .bool b => b
  | .num q => q ≠ 0
  | .str s => s ≠ ""
  | .arr _ => true
  | .obj _ => true

/-- `readPlanSettings`; `raw = none` models an unreadable settings file,
and a `JSON.parse` failure likewise falls back to `{}` (source lines
551-564).  JSON numbers are always finite, so `Number.isFinite(data.gcDays)`
holds exactly when `gcDays` is present as a number. -/
def readPlanSettings (raw : Option String) : PlanSettings :=
  let data : Option Json :=
    match raw with
    | none => none
    | some s => jsonParse s
  match data with
  | some (.obj kvs) =>
    { gc :=
        match jLookup kvs "gc" with
        | none => DEFAULT_PLAN_SETTINGS.gc
        | some .null => DEFAULT_PLAN_SETTINGS.gc
        | some v => jsTruthy v
      gcDays :=
        match jLookup kvs "gcDays" with
        | some (.num q) => max 0 q.floor
        | _ => DEFAULT_PLAN_SETTINGS.gcDays }
  | _ => DEFAULT_PLAN_SETTINGS

/-! ## Plan id utilities (source lines 195-222) -/

/-- ASCII case mapping (ids and statuses are ASCII; `toLowerCase` /
`toUpperCase` agree with the ASCII mapping there). -/
def asciiLower (c : Char) : Char :=
  if 'A' ≤ c && c ≤ 'Z' then Char.ofNat (c.toNat + 32) else c

def asciiUpper (c : Char) : Char :=
  if 'a' ≤ c && c ≤ 'z' then Char.ofNat (c.toNat - 32) else c

def strLower (s : String) : String := String.mk (s.data.map asciiLower)

/-- `formatPlanId` -/
def formatPlanId (id : String) : String := "PLAN-" ++ id

/-- `normalizePlanId` (source lines 199-206): trim, strip a leading `#`,
strip a case-insensitive leading `PLAN-`. -/
def normalizePlanId (id : String) : String :=
  let t := jsTrim id.data
  let t := match t with
    | '#' :: r => r
    | l => l
  if (t.map asciiUpper).take 5 = "PLAN-".data then String.mk (t.drop 5)
  else String.mk t

def isHexDigitChar (c : Char) : Bool :=
  isAsciiDigit c || ('a' ≤ c && c ≤ 'f') || ('A' ≤ c && c ≤ 'F')

/-- `PLAN_ID_PATTERN = /^[a-f0-9]{8}$/i` -/
def planIdPattern (s : List Char) : Bool :=
  s.length = 8 && s.all isHexDigitChar

/-- `validatePlanId` (source lines 208-214). -/
def validatePlanId (id : String) : Except String String :=
  let normalized := normalizePlanId id
  if normalized = "" || !planIdPattern normalized.data then
    .error "Invalid plan id. Expected PLAN-<hex>."
  else .ok (strLower normalized)

/-- `displayPlanId` -/
def displayPlanId (id : String) : String := formatPlanId (normalizePlanId id)

/-- `isPlanCompleted` (source lines 220-222). -/
def isPlanCompleted (status : String) : Bool :=
  strLower status = "completed" || strLower status = "archived"

/-! ## `sortPlans` (source lines 497-510) -/

/-- Three-way lexicographic comparison by code point: the ordinal model of
`String.prototype.localeCompare`, with which it agrees on the ASCII
ISO-8601 timestamps being compared. -/
def lexCmp : List Char → List Char → Int
  | [], [] => 0
  | [], _ :: _ => -1
  | _ :: _, [] => 1
  | a :: as, b :: bs =>
    if a.toNat < b.toNat then -1
    else if b.toNat < a.toNat then 1
    else lexCmp as bs

def localeCompare (a b : String) : Int := lexCmp a.data b.data

/-- `Boolean(plan.assigned_to_session)`. -/
def assignedTruthy (p : PlanFrontMatter) : Bool :=
  match p.assigned_to_session with
  | some s => s != ""
  | none => false

/-- The comparator passed to `sort` by `sortPlans` (source lines 498-509). -/
def planCmp (a b : PlanFrontMatter) : Int :=
  let aC := isPlanCompleted a.status
  let bC := isPlanCompleted b.status
  if aC != bC then (if aC then 1 else -1)
  else if a.status = "active" && !(b.status = "active") then -1
  else if b.status = "active" && !(a.status = "active") then 1
  else
    let aA := !aC && assignedTruthy a
    let bA := !bC && assignedTruthy b
    if aA != bA then (if aA then -1 else 1)
    else localeCompare b.created_at a.created_at

/-- `sortPlans`: `Array.prototype.sort` is a stable comparison sort, here
realized by insertion sort on the non-strict relation `planCmp a b ≤ 0`. -/
def sortPlans (plans : List PlanFrontMatter) : List PlanFrontMatter :=
  plans.insertionSort (fun a b => planCmp a b ≤ 0)

/-! ## `garbageCollectPlans` (source lines 566-595) -/

/-- `entry.endsWith(".md")`. -/
def endsWithMd (s : String) : Bool := s.data.reverse.take 3 = ['d', 'm', '.']

/-- `entry.slice(0, -3)`: the id under which the sweep parses a record
file, its name minus the final three characters. -/
def gcEntryId (name : String) : String :=
  String.mk (name.data.take (name.data.length - 3))

/-- The front matter the sweep parses for a directory entry (name,
content): `parseFrontMatter(splitFrontMatter(content).frontMatter, id)`. -/
def gcParsed (e : String × String) : PlanFrontMatter :=
  parseFrontMatter (splitFrontMatter e.2.data).1 (gcEntryId e.1)

/-- The per-file body of the sweep (source lines 578-592): parse the
header only, never delete non-terminal statuses, never delete records
whose `created_at` does not parse (`dateParse` abstracts the builtin
`Date.parse`, with `none` for `NaN`), and otherwise delete exactly when
the timestamp is strictly older than the cutoff. -/
def gcShouldDelete (settings : PlanSettings) (dateParse : String → Option Int)
    (now : Int) (e : String × String) : Bool :=
  let parsed := gcParsed e
  if !isPlanCompleted parsed.status then false
  else
    match dateParse parsed.created_at with
    | none => false
    | some createdAt => createdAt < now - settings.gcDays * 24 * 60 * 60 * 1000

/-- `garbageCollectPlans` over an explicit directory listing (file name
paired with content), returning the surviving files.  The per-file sweeps
of the source's `Promise.all` are independent — each touches only its own
file and swallows its own errors — so a single pass is an exact model
(source lines 566-595). -/
def garbageCollectPlans (settings : PlanSettings) (dateParse : String → Option Int)
    (now : Int) (entries : List (String × String)) : List (String × String) :=
  if !settings.gc then entries
  else
    entries.foldr
      (fun e acc =>
        if endsWithMd e.1 && gcShouldDelete settings dateParse now e then acc
        else e :: acc)
      []

/-! ## `isSafeCommand` (source lines 183-193) -/

/-- `isSafeCommand`, parameterized by the two pattern lists; each regular
expression's `test` is abstracted as a Boolean predicate on the command
string (the regex engine is a builtin, and the spec treats the concrete
lists as an external classifier).  The early returns of the source
compile to the conditional chain below. -/
def isSafeCommand (safeCommands destructivePatterns : List (String → Bool))
    (command : String) : Bool :=
  let safeAny := safeCommands.any (fun p => p command)
  let destrAny := destructivePatterns.any (fun p => p command)
  if safeAny && !destrAny then true
  else if destrAny then false
  else true

/-! ## File-system world, lock manager and action engine

The mutating actions are modelled over an explicit store state.  Record
files appear as parsed `PlanRecord`s keyed by id (`readPlanFile` /
`writePlanFile` are the codec composed with file I/O; codec fidelity is
settled separately by the round-trip theorem).  JavaScript exceptions are
`Except.error` with the message as payload. -/

/-- Content of a lock file (`LockInfo`, source lines 134-139) plus the
file's modification time, which `acquireLock` reads via `fs.stat`. -/
structure LockFile where
  pid : Int
  session : Option String
  created_at : String
  mtimeMs : Int
deriving Repr, DecidableEq

/-- The plan store directory: record files, lock files, and the stream of
ids that successive `crypto.randomBytes(4).toString("hex")` calls would
return (`idSupply` consumed from position `idIdx`). -/
structure FsWorld where
  plans : List (String × PlanRecord)
  locks : List (String × LockFile)
  idSupply : Nat → String
  idIdx : Nat

/-- Ambient context: clock, UI availability, the answer the user would
give to the steal-lock confirmation, the opaque session identifiers, and
the process id. -/
structure Ctx where
  nowMs : Int
  nowIso : String
  hasUI : Bool
  confirmSteal : Bool
  sessionId : String
  sessionFile : String
  pid : Int

/-- Association-list get (first match; keys are unique in a directory). -/
def alGet {α : Type} (l : List (String × α)) (k : String) : Option α :=
  (l.find? (fun e => e.1 = k)).map (fun e => e.2)

/-- Association-list set (overwrite or append). -/
def alSet {α : Type} : List (String × α) → String → α → List (String × α)
  | [], k, v => [(k, v)]
  | e :: rest, k, v => if e.1 = k then (k, v) :: rest else e :: alSet rest k v

/-- Association-list removal. -/
def alRemove {α : Type} : List (String × α) → String → List (String × α)
  | [], _ => []
  | e :: rest, k => if e.1 = k then alRemove rest k else e :: alRemove rest k

def setPlan (w : FsWorld) (id : String) (p : PlanRecord) : FsWorld :=
  { w with plans := alSet w.plans id p }

inductive AcqResult where
  | ok
  | err (msg : String)
deriving Repr, DecidableEq

/-- The attempt loop of `acquireLock` (source lines 392-426).  Creating
the lock file with flag `wx` succeeds exactly when no lock file exists;
on `EEXIST` the stale/steal conflict path runs.  The lock file was
written by this same code path, so `readLockInfo` yields its content. -/
def acquireAttempts : Nat → FsWorld → String → Ctx → AcqResult × FsWorld
  | 0, w, id, _ =>
    (.err ("Failed to acquire lock for plan " ++ displayPlanId id ++ "."), w)
  | n + 1, w, id, ctx =>
    match alGet w.locks id with
    | none =>
      let info : LockFile :=
        { pid := ctx.pid, session := some ctx.sessionFile,
          created_at := ctx.nowIso, mtimeMs := ctx.nowMs }
      (.ok, { w with locks := alSet w.locks id info })
    | some lock =>
      let lockAge := ctx.nowMs - lock.mtimeMs
      if lockAge ≤ LOCK_TTL_MS then
        let owner :=
          match lock.session with
          | some s => if s = "" then "" else " (session " ++ s ++ ")"
          | none => ""
        (.err ("Plan " ++ displayPlanId id ++ " is locked" ++ owner ++ ". Try again later."), w)
      else if !ctx.hasUI then
        (.err ("Plan " ++ displayPlanId id ++ " lock is stale; rerun in interactive mode to steal it."), w)
      else if !ctx.confirmSteal then
        (.err ("Plan " ++ displayPlanId id ++ " remains locked."), w)
      else
        acquireAttempts n { w with locks := alRemove w.locks id } id ctx

/-- `acquireLock` (source lines 383-428): at most two attempts. -/
def acquireLock (w : FsWorld) (id : String) (ctx : Ctx) : AcqResult × FsWorld :=
  acquireAttempts 2 w id ctx

/-- The release callback returned by `acquireLock` (source lines 403-405):
`try { await fs.unlink(lockPath) } catch { /* ignore */ }` — `fs.unlink`
rejects when the file is already gone and the rejection is swallowed. -/
def releaseLock (w : FsWorld) (id : String) : FsWorld :=
  match alGet w.locks id with
  | some _ => { w with locks := alRemove w.locks id }
  | none => w

/-- `withPlanLock` (source lines 430-443): on lock failure the structured
error is returned (inner `Except.error`); otherwise `fn` runs and the
lock is released in `finally`, whether `fn` returned or threw (outer
`Except.error`). -/
def withPlanLock {α : Type} (w : FsWorld) (id : String) (ctx : Ctx)
    (fn : FsWorld → Except String α × FsWorld) :
    Except String (Except String α) × FsWorld :=
  match acquireLock w id ctx with
  | (.err msg, w1) => (Except.ok (Except.error msg), w1)
  | (.ok, w1) =>
    match fn w1 with
    | (Except.ok v, w2) => (Except.ok (Except.ok v), releaseLock w2 id)
    | (Except.error e, w2) => (Except.error e, releaseLock w2 id)

/-! ## The `plan` tool (source lines 1151-1476) -/

inductive PlanAction where
  | list
  | get
  | create
  | update
  | addStep
  | completeStep
  | del
  | claim
  | release
  | execute
deriving Repr, DecidableEq

/-- The tool parameters (source lines 167-180); every field but `action`
is optional. -/
structure PlanParams where
  action : PlanAction
  id : Option String := none
  title : Option String := none
  status : Option String := none
  body : Option String := none
  steps : Option (List String) := none
  step_text : Option String := none
  step_id : Option Int := none
  force : Option Bool := none

/-- The `details` side channel of a tool result (source lines 163-165);
the `content` text is a rendering of the same data. -/
inductive ToolDetails where
  | list (plans : List PlanFrontMatter) (currentSessionId : String)
  | plan (action : PlanAction) (p : PlanRecord)
  | err (action : PlanAction) (msg : String)
deriving Repr, DecidableEq

/-- JavaScript truthiness of an optional string parameter (`!params.id`
is true for both `undefined` and `""`). -/
def strParam : Option String → Option String
  | some s => if s = "" then none else some s
  | none => none

/-- `params.force` consumed as a truthy test. -/
def forceParam (p : PlanParams) : Bool := p.force = some true

/-- `listPlans` at store level (source lines 445-469): every record file
parses to its stored front matter, then `sortPlans`. -/
def listPlansW (w : FsWorld) : List PlanFrontMatter :=
  sortPlans (w.plans.map (fun e => e.2.toPlanFrontMatter))

/-- `(params.steps ?? []).map((text, i) => ({id: i + 1, text, done: false}))`
(source lines 1191-1195). -/
def buildStepsFrom (i : Int) : List String → List PlanStep
  | [] => []
  | t :: ts => { id := i, text := t, done := false } :: buildStepsFrom (i + 1) ts

def buildSteps (texts : List String) : List PlanStep := buildStepsFrom 1 texts

/-- `generatePlanId` (source lines 365-372): up to 10 draws from the
random-id stream; `existsSync` of the record path is the collision test;
after 10 collisions the `Error` is thrown. -/
def generatePlanIdAux : Nat → FsWorld → Except String String × FsWorld
  | 0, w => (Except.error "Failed to generate unique plan id", w)
  | n + 1, w =>
    let id := w.idSupply w.idIdx
    let w1 := { w with idIdx := w.idIdx + 1 }
    if (alGet w1.plans id).isSome then generatePlanIdAux n w1
    else (Except.ok id, w1)

def generatePlanId (w : FsWorld) : Except String String × FsWorld :=
  generatePlanIdAux 10 w

/-- `fs.readFile` failure message for a missing record (only reachable if
the file disappears between `existsSync` and the locked read, which the
sequential model excludes). -/
def enoent : String := "ENOENT: no such file or directory"

/-- Uniform result mapping at each mutating call site: lock errors and
`fn`-returned `{error}` values become error details, thrown errors
propagate (source pattern `if ("error" in result) ... else success`). -/
def mapLocked (a : PlanAction) :
    Except String (Except String (Except String PlanRecord)) × FsWorld →
    Except String ToolDetails × FsWorld
  | (Except.ok (Except.error lockMsg), w) => (Except.ok (.err a lockMsg), w)
  | (Except.ok (Except.ok (Except.error m)), w) => (Except.ok (.err a m), w)
  | (Except.ok (Except.ok (Except.ok p)), w) => (Except.ok (.plan a p), w)
  | (Except.error e, w) => (Except.error e, w)

/-- The common prelude of the id-taking actions: `id` required (truthy),
validated, and the record file must exist. -/
def requireId (a : PlanAction) (params : PlanParams) (w : FsWorld)
    (k : String → Except String ToolDetails × FsWorld) :
    Except String ToolDetails × FsWorld :=
  match strParam params.id with
  | none => (Except.ok (.err a "id required"), w)
  | some raw =>
    match validatePlanId raw with
    | .error e => (Except.ok (.err a e), w)
    | .ok vid =>
      if (alGet w.plans vid).isSome then k vid
      else (Except.ok (.err a "not found"), w)

/-- `existing.steps.reduce((max, s) => Math.max(max, s.id), 0)` — the
running maximum `add-step` computes (source line 1264). -/
def maxStepId (steps : List PlanStep) : Int :=
  steps.foldl (fun m s => max m s.id) 0

/-- `complete-step`'s in-place mutation `step.done = true` of the first
step `find` returns (source lines 1300-1304). -/
def setStepDone : List PlanStep → Int → List PlanStep
  | [], _ => []
  | s :: rest, sid =>
    if s.id = sid then { s with done := true } :: rest
    else s :: setStepDone rest sid

/-- The `plan` tool's `execute` dispatcher (source lines 1151-1476),
returning the `details` payload; `Except.error` is a JavaScript exception
escaping the handler. -/
def planToolExecute (params : PlanParams) (ctx : Ctx) (w : FsWorld) :
    Except String ToolDetails × FsWorld :=
  match params.action with
  | .list =>
    (Except.ok (.list (listPlansW w) ctx.sessionId), w)
  | .get =>
    requireId .get params w (fun vid =>
      match alGet w.plans vid with
      | none => (Except.ok (.err .get "not found"), w)
      | some p => (Except.ok (.plan .get p), w))
  | .create =>
    (match strParam params.title with
     | none => (Except.ok (.err .create "title required"), w)
     | some title =>
       match generatePlanId w with
       | (Except.error e, w1) => (Except.error e, w1)
       | (Except.ok id, w1) =>
         let plan : PlanRecord :=
           { id := id, title := title, status := params.status.getD "draft",
             created_at := ctx.nowIso, assigned_to_session := none,
             steps := buildSteps (params.steps.getD []), body := params.body.getD "" }
         mapLocked .create (withPlanLock w1 id ctx (fun wi =>
           (Except.ok (Except.ok plan), setPlan wi id plan))))
  | .update =>
    requireId .update params w (fun vid =>
      mapLocked .update (withPlanLock w vid ctx (fun wi =>
        match alGet wi.plans vid with
        | none => (Except.error enoent, wi)
        | some existing =>
          let e1 := match params.title with
            | some t => { existing with title := t }
            | none => existing
          let e2 := match params.status with
            | some s => { e1 with status := s }
            | none => e1
          let e3 := match params.body with
            | some b => { e2 with body := b }
            | none => e2
          (Except.ok (Except.ok e3), setPlan wi vid e3))))
  | .addStep =>
    (match strParam params.id with
     | none => (Except.ok (.err .addStep "id required"), w)
     | some _ =>
       match strParam params.step_text with
       | none => (Except.ok (.err .addStep "step_text required"), w)
       | some stepText =>
         requireId .addStep params w (fun vid =>
           mapLocked .addStep (withPlanLock w vid ctx (fun wi =>
             match alGet wi.plans vid with
             | none => (Except.error enoent, wi)
             | some existing =>
               let maxId := maxStepId existing.steps
               let upd := { existing with
                 steps := existing.steps ++ [{ id := maxId + 1, text := stepText, done := false }] }
               (Except.ok (Except.ok upd), setPlan wi vid upd)))))
  | .completeStep =>
    (match strParam params.id with
     | none => (Except.ok (.err .completeStep "id required"), w)
     | some _ =>
       match params.step_id with
       | none => (Except.ok (.err .completeStep "step_id required"), w)
       | some stepId =>
         requireId .completeStep params w (fun vid =>
           mapLocked .completeStep (withPlanLock w vid ctx (fun wi =>
             match alGet wi.plans vid with
             | none => (Except.error enoent, wi)
             | some existing =>
               match existing.steps.find? (fun s => s.id = stepId) with
               | none =>
                 (Except.ok (Except.error
                   ("Step " ++ toString stepId ++ " not found in plan " ++ displayPlanId vid)), wi)
               | some _ =>
                 let upd := { existing with steps := setStepDone existing.steps stepId }
                 (Except.ok (Except.ok upd), setPlan wi vid upd)))))
  | .claim =>
    requireId .claim params w (fun vid =>
      mapLocked .claim (withPlanLock w vid ctx (fun wi =>
        match alGet wi.plans vid with
        | none => (Except.error enoent, wi)
        | some existing =>
          if isPlanCompleted existing.status then
            (Except.ok (Except.error
              ("Plan " ++ displayPlanId vid ++ " is " ++ existing.status)), wi)
          else
            match strParam existing.assigned_to_session with
            | some a =>
              if a ≠ ctx.sessionId && !(forceParam params) then
                (Except.ok (Except.error
                  ("Plan " ++ displayPlanId vid ++ " is already assigned to session " ++ a ++
                   ". Use force to override.")), wi)
              else
                let upd := { existing with assigned_to_session := some ctx.sessionId }
                (Except.ok (Except.ok upd), setPlan wi vid upd)
            | none =>
              let upd := { existing with assigned_to_session := some ctx.sessionId }
              (Except.ok (Except.ok upd), setPlan wi vid upd))))
  | .release =>
    requireId .release params w (fun vid =>
      mapLocked .release (withPlanLock w vid ctx (fun wi =>
        match alGet wi.plans vid with
        | none => (Except.error enoent, wi)
        | some existing =>
          match strParam existing.assigned_to_session with
          | none => (Except.ok (Except.ok existing), wi)
          | some a =>
            if a ≠ ctx.sessionId && !(forceParam params) then
              (Except.ok (Except.error
                ("Plan " ++ displayPlanId vid ++ " is assigned to session " ++ a ++
                 ". Use force to release.")), wi)
            else
              let upd := { existing with assigned_to_session := none }
              (Except.ok (Except.ok upd), setPlan wi vid upd))))
  | .execute =>
    requireId .execute params w (fun vid =>
      mapLocked .execute (withPlanLock w vid ctx (fun wi =>
        match alGet wi.plans vid with
        | none => (Except.error enoent, wi)
        | some existing =>
          if isPlanCompleted existing.status then
            (Except.ok (Except.error
              ("Plan " ++ displayPlanId vid ++ " is " ++ existing.status)), wi)
          else
            match strParam existing.assigned_to_session with
            | none =>
              let upd := { existing with
                assigned_to_session := some ctx.sessionId, status := "active" }
              (Except.ok (Except.ok upd), setPlan wi vid upd)
            | some a =>
              if a ≠ ctx.sessionId && !(forceParam params) then
                (Except.ok (Except.error
                  ("Plan " ++ displayPlanId vid ++ " is assigned to session " ++ a ++
                   ". Use force to override.")), wi)
              else
                let upd := { existing with status := "active" }
                (Except.ok (Except.ok upd), setPlan wi vid upd))))
  | .del =>
    requireId .del params w (fun vid =>
      mapLocked .del (withPlanLock w vid ctx (fun wi =>
        match alGet wi.plans vid with
        | none => (Except.error enoent, wi)
        | some existing =>
          (Except.ok (Except.ok existing), { wi with plans := alRemove wi.plans vid }))))

/-- The `execute` branch of the interactive menu's `applyPlanAction`
(source lines 1669-1690): claim for the current session and set status
`active`, with no terminal-status check; the `withPlanLock` result is
discarded by the caller. -/
def applyPlanActionExecute (record : PlanRecord) (ctx : Ctx) (w : FsWorld) :
    Except String Unit × FsWorld :=
  match withPlanLock w record.id ctx (fun wi =>
    match alGet wi.plans record.id with
    | none => (Except.error enoent, wi)
    | some existing =>
      let upd := { existing with
        assigned_to_session := some ctx.sessionId, status := "active" }
      (Except.ok (), setPlan wi record.id upd)) with
  | (Except.ok _, w2) => (Except.ok (), w2)
  | (Except.error e, w2) => (Except.error e, w2)

/-! ## Association-list lemmas -/

theorem alGet_alSet_self {α : Type} (l : List (String × α)) (k : String) (v : α) :
    alGet (alSet l k v) k = some v := by
  induction l with
  | nil => simp [alSet, alGet]
  | cons e rest ih =>
    by_cases h : e.1 = k
    · simp [alSet, h, alGet, List.find?]
    · simpa [alSet, h, alGet, List.find?] using ih

theorem alGet_alRemove_self {α : Type} (l : List (String × α)) (k : String) :
    alGet (alRemove l k) k = none := by
  induction l with
  | nil => simp [alRemove, alGet]
  | cons e rest ih =>
    by_cases h : e.1 = k
    · simpa [alRemove, h] using ih
    · simpa [alRemove, h, alGet, List.find?] using ih

theorem alGet_cons {α : Type} (e : String × α) (rest : List (String × α)) (k : String) :
    alGet (e :: rest) k = if e.1 = k then some e.2 else alGet rest k := by
  by_cases h : e.1 = k <;> simp [alGet, List.find?, h]

theorem alRemove_of_none {α : Type} (l : List (String × α)) (k : String)
    (h : alGet l k = none) : alRemove l k = l := by
  induction l with
  | nil => simp [alRemove]
  | cons e rest ih =>
    rw [alGet_cons] at h
    by_cases he : e.1 = k
    · simp [he] at h
    · rw [if_neg he] at h
      simp [alRemove, he, ih h]

theorem alRemove_alSet_of_none {α : Type} (l : List (String × α)) (k : String) (v : α)
    (h : alGet l k = none) : alRemove (alSet l k v) k = l := by
  induction l with
  | nil => simp [alSet, alRemove]
  | cons e rest ih =>
    rw [alGet_cons] at h
    by_cases he : e.1 = k
    · simp [he] at h
    · rw [if_neg he] at h
      simp [alSet, alRemove, he, ih h]

theorem mem_alSet {α : Type} (l : List (String × α)) (k : String) (v : α) (e : String × α)
    (h : e ∈ alSet l k v) : e ∈ l ∨ e = (k, v) := by
  induction l with
  | nil => simpa [alSet] using h
  | cons e' rest ih =>
    by_cases he : e'.1 = k
    · simp [alSet, he] at h
      rcases h with h | h
      · right; simp [h]
      · left; simp [h]
    · simp [alSet, he] at h
      rcases h with h | h
      · left; simp [h]
      · rcases ih h with h' | h'
        · left; simp [h']
        · right; exact h'

theorem mem_alRemove {α : Type} (l : List (String × α)) (k : String) (e : String × α)
    (h : e ∈ alRemove l k) : e ∈ l := by
  induction l with
  | nil => simp [alRemove] at h
  | cons e' rest ih =>
    by_cases he : e'.1 = k
    · simp [alRemove, he] at h
      exact List.mem_cons_of_mem _ (ih h)
    · simp [alRemove, he] at h
      rcases h with h | h
      · simp [h]
      · exact List.mem_cons_of_mem _ (ih h)

/-- `acquireAttempts` only ever touches the lock files. -/
theorem acquireAttempts_plans (n : Nat) (w : FsWorld) (id : String) (ctx : Ctx) :
    (acquireAttempts n w id ctx).2.plans = w.plans ∧
    (acquireAttempts n w id ctx).2.idSupply = w.idSupply ∧
    (acquireAttempts n w id ctx).2.idIdx = w.idIdx := by
  induction n generalizing w with
  | zero => simp [acquireAttempts]
  | succ n ih =>
    unfold acquireAttempts
    cases h : alGet w.locks id with
    | none => simp
    | some lock =>
      by_cases h1 : ctx.nowMs - lock.mtimeMs ≤ LOCK_TTL_MS
      · simp [h1]
      · by_cases h2 : ctx.hasUI
        · by_cases h3 : ctx.confirmSteal
          · simpa [h1, h2, h3] using ih { w with locks := alRemove w.locks id }
          · simp [h1, h2, h3]
        · simp [h1, h2]

/-- `releaseLock` only ever touches the lock files. -/
theorem releaseLock_plans (w : FsWorld) (id : String) :
    (releaseLock w id).plans = w.plans ∧
    (releaseLock w id).idSupply = w.idSupply ∧
    (releaseLock w id).idIdx = w.idIdx := by
  unfold releaseLock
  cases h : alGet w.locks id <;> simp

/-- After `releaseLock` the lock file for `id` is gone, whether or not it
was present (the `unlink` rejection for an already-missing file is
swallowed). -/
theorem releaseLock_clears (w : FsWorld) (id : String) :
    alGet (releaseLock w id).locks id = none := by
  unfold releaseLock
  cases h : alGet w.locks id with
  | none => simpa using h
  | some _ => simp [alGet_alRemove_self]

/-! ## C9 — safe-command classifier precedence -/

/-- C9: for every command, a destructive-pattern match forces `false`
even when a safe prefix also matches; a safe match with no destructive
match yields `true`; and matching neither list yields `true`
(allow-by-default). -/
theorem isSafeCommand_precedence (safe destr : List (String → Bool)) (cmd : String) :
    (destr.any (fun p => p cmd) = true → isSafeCommand safe destr cmd = false) ∧
    (safe.any (fun p => p cmd) = true → destr.any (fun p => p cmd) = false →
      isSafeCommand safe destr cmd = true) ∧
    (safe.any (fun p => p cmd) = false → destr.any (fun p => p cmd) = false →
      isSafeCommand safe destr cmd = true) := by
  refine ⟨fun hd => ?_, fun hs hd => ?_, fun hs hd => ?_⟩ <;>
    simp [isSafeCommand, hd]

/-- Witness for C9 at a two-pattern classifier and three commands. -/
theorem isSafeCommand_precedence_witness :
    isSafeCommand [fun c => c = "git status"] [fun c => c = "rm -rf /"] "rm -rf /" = false ∧
    isSafeCommand [fun c => c = "git status"] [fun c => c = "rm -rf /"] "git status" = true ∧
    isSafeCommand [fun c => c = "git status"] [fun c => c = "rm -rf /"] "pwd" = true :=
  ⟨(isSafeCommand_precedence _ _ _).1 rfl,
   (isSafeCommand_precedence _ _ _).2.1 rfl rfl,
   (isSafeCommand_precedence _ _ _).2.2 rfl rfl⟩

/-! ## C4 — scoped lock release in `withPlanLock` -/

/-- C4: whenever `withPlanLock`'s lock acquisition succeeds, the lock file
is gone after the call — both when the wrapped function returns normally
and when it throws (`fn` ranges over both, and the released world is
reached on the `Except.ok` and the `Except.error` path alike); unlink
errors during release are swallowed (`releaseLock` never fails), so no
lock created by the call outlives it. -/
theorem withPlanLock_no_orphan_lock {α : Type} (w : FsWorld) (id : String) (ctx : Ctx)
    (fn : FsWorld → Except String α × FsWorld)
    (hacq : (acquireLock w id ctx).1 = AcqResult.ok) :
    alGet (withPlanLock w id ctx fn).2.locks id = none := by
  unfold withPlanLock
  cases h : acquireLock w id ctx with
  | mk res w1 =>
    cases res with
    | err msg => rw [h] at hacq; simp at hacq
    | ok =>
      cases hfn : fn w1 with
      | mk r w2 => cases r <;> simp [hfn, releaseLock_clears]

/-- Witness for C4, exercising the throwing path of the wrapped function
on a lock-free store. -/
theorem withPlanLock_no_orphan_lock_witness :
    alGet (withPlanLock
      { plans := [], locks := [], idSupply := fun _ => "aaaaaaaa", idIdx := 0 }
      "cafecafe"
      { nowMs := 0, nowIso := "t", hasUI := false, confirmSteal := false,
        sessionId := "s", sessionFile := "s.json", pid := 1 }
      (fun w => ((Except.error "boom" : Except String Unit), w))).2.locks "cafecafe" = none :=
  withPlanLock_no_orphan_lock _ _ _ _ (by decide)

/-! ## C3 — stale-lock handling in `acquireLock` -/

/-- C3 (amended): when the existing lock file's age exceeds the 30-minute
TTL, a non-interactive context does not discard it — acquisition fails
with the "rerun in interactive mode" error and the store is untouched; in
an interactive context the user is asked to confirm stealing, and after
confirmation plus the single retry the acquisition succeeds, leaving the
caller's fresh lock file; declining leaves the lock in place and fails. -/
theorem acquireLock_stale (w : FsWorld) (id : String) (ctx : Ctx) (lock : LockFile)
    (hlock : alGet w.locks id = some lock)
    (hstale : LOCK_TTL_MS < ctx.nowMs - lock.mtimeMs) :
    (ctx.hasUI = false →
      acquireLock w id ctx =
        (AcqResult.err ("Plan " ++ displayPlanId id ++
          " lock is stale; rerun in interactive mode to steal it."), w)) ∧
    (ctx.hasUI = true → ctx.confirmSteal = true →
      (acquireLock w id ctx).1 = AcqResult.ok ∧
      alGet (acquireLock w id ctx).2.locks id =
        some { pid := ctx.pid, session := some ctx.sessionFile,
               created_at := ctx.nowIso, mtimeMs := ctx.nowMs }) ∧
    (ctx.hasUI = true → ctx.confirmSteal = false →
      acquireLock w id ctx =
        (AcqResult.err ("Plan " ++ displayPlanId id ++ " remains locked."), w)) := by
  have hns : ¬ (ctx.nowMs - lock.mtimeMs ≤ LOCK_TTL_MS) := by omega
  refine ⟨fun hui => ?_, fun hui hc => ?_, fun hui hc => ?_⟩
  · simp [acquireLock, acquireAttempts, hlock, hns, hui]
  · simp [acquireLock, acquireAttempts, hlock, hns, hui, hc,
      alGet_alRemove_self, alGet_alSet_self]
  · simp [acquireLock, acquireAttempts, hlock, hns, hui, hc]

/-- A store with a lock two hours old. -/
def staleLockWorld : FsWorld :=
  { plans := [],
    locks := [("cafecafe",
      { pid := 7, session := some "other.json", created_at := "t0", mtimeMs := 0 })],
    idSupply := fun _ => "aaaaaaaa", idIdx := 0 }

def staleCtxNoUI : Ctx :=
  { nowMs := 7200000, nowIso := "t1", hasUI := false, confirmSteal := false,
    sessionId := "me", sessionFile := "me.json", pid := 9 }

def staleCtxUI : Ctx := { staleCtxNoUI with hasUI := true, confirmSteal := true }

/-- C3 counterexample: on a stale lock in a non-interactive context the
code does not discard the lock and proceed — it fails and leaves the lock
file untouched. -/
theorem acquireLock_stale_counterexample :
    (acquireLock staleLockWorld "cafecafe" staleCtxNoUI).1 ≠ AcqResult.ok ∧
    (acquireLock staleLockWorld "cafecafe" staleCtxNoUI).2.locks = staleLockWorld.locks := by
  decide

/-- Witness for the amended C3: interactive confirmation steals and
succeeds; non-interactive fails with the stale-lock error. -/
theorem acquireLock_stale_witness :
    (acquireLock staleLockWorld "cafecafe" staleCtxUI).1 = AcqResult.ok ∧
    acquireLock staleLockWorld "cafecafe" staleCtxNoUI =
      (AcqResult.err ("Plan " ++ displayPlanId "cafecafe" ++
        " lock is stale; rerun in interactive mode to steal it."), staleLockWorld) :=
  ⟨((acquireLock_stale staleLockWorld "cafecafe" staleCtxUI
      { pid := 7, session := some "other.json", created_at := "t0", mtimeMs := 0 }
      (by decide) (by decide)).2.1 rfl rfl).1,
   (acquireLock_stale staleLockWorld "cafecafe" staleCtxNoUI
      { pid := 7, session := some "other.json", created_at := "t0", mtimeMs := 0 }
      (by decide) (by decide)).1 rfl⟩

/-- Decidable equality for `Except`, used to evaluate concrete action
results in witnesses. -/
def exceptDecEq {ε α : Type} [DecidableEq ε] [DecidableEq α] :
    (x y : Except ε α) → Decidable (x = y)
  | .ok a, .ok b =>
    match decEq a b with
    | isTrue h => isTrue (h ▸ rfl)
    | isFalse h => isFalse (fun he => h (by cases he; rfl))
  | .error a, .error b =>
    match decEq a b with
    | isTrue h => isTrue (h ▸ rfl)
    | isFalse h => isFalse (fun he => h (by cases he; rfl))
  | .ok _, .error _ => isFalse (fun he => by cases he)
  | .error _, .ok _ => isFalse (fun he => by cases he)

instance {ε α : Type} [DecidableEq ε] [DecidableEq α] : DecidableEq (Except ε α) :=
  exceptDecEq

/-! ## C2 — terminal-status protection on execute/claim -/

/-- C2 (amended): through the `plan` tool, `execute` and `claim` on a plan
whose stored status is `completed` or `archived` fail with the
terminal-status error and write nothing to the record files (stated for a
store with no pre-existing lock file on the plan, so that the failure is
the terminal check rather than a lock conflict); and `claim` followed by
`execute` on a `draft`, unassigned plan succeeds, leaving
`status = "active"` and `assigned_to_session` = the caller's session id.
The interactive menu's `execute` action is not covered: it performs no
terminal-status check (see the counterexample). -/
theorem planTool_terminal_and_claim_execute
    (ctx : Ctx) (w : FsWorld) (rawId vid : String) (p : PlanRecord) (force : Option Bool)
    (hraw : rawId ≠ "")
    (hval : validatePlanId rawId = Except.ok vid)
    (hplan : alGet w.plans vid = some p)
    (hnolock : alGet w.locks vid = none) :
    (isPlanCompleted p.status = true →
      (planToolExecute { action := .execute, id := some rawId, force := force } ctx w).1 =
        Except.ok (.err .execute ("Plan " ++ displayPlanId vid ++ " is " ++ p.status)) ∧
      (planToolExecute { action := .execute, id := some rawId, force := force } ctx w).2.plans
        = w.plans ∧
      (planToolExecute { action := .claim, id := some rawId, force := force } ctx w).1 =
        Except.ok (.err .claim ("Plan " ++ displayPlanId vid ++ " is " ++ p.status)) ∧
      (planToolExecute { action := .claim, id := some rawId, force := force } ctx w).2.plans
        = w.plans) ∧
    (p.status = "draft" → p.assigned_to_session = none →
      (planToolExecute { action := .claim, id := some rawId } ctx w).1 =
        Except.ok (.plan .claim { p with assigned_to_session := some ctx.sessionId }) ∧
      (planToolExecute { action := .execute, id := some rawId } ctx
          (planToolExecute { action := .claim, id := some rawId } ctx w).2).1 =
        Except.ok (.plan .execute
          { p with assigned_to_session := some ctx.sessionId, status := "active" }) ∧
      alGet (planToolExecute { action := .execute, id := some rawId } ctx
          (planToolExecute { action := .claim, id := some rawId } ctx w).2).2.plans vid =
        some { p with assigned_to_session := some ctx.sessionId, status := "active" }) := by
  constructor
  · intro hcomp
    refine ⟨?_, ?_, ?_, ?_⟩ <;>
      simp [planToolExecute, requireId, strParam, hraw, hval, hplan, hnolock, hcomp,
        withPlanLock, acquireLock, acquireAttempts, mapLocked, releaseLock,
        alGet_alSet_self, alRemove_alSet_of_none]
  · intro hst hassign
    have hnc : isPlanCompleted p.status = false := by rw [hst]; decide
    have hact : p.status ≠ "active" := by rw [hst]; decide
    set pc : PlanRecord := { p with assigned_to_session := some ctx.sessionId } with hpc
    have hclaim :
        planToolExecute { action := .claim, id := some rawId } ctx w =
          (Except.ok (.plan .claim pc), { w with plans := alSet w.plans vid pc }) := by
      simp [planToolExecute, requireId, strParam, hraw, hval, hplan, hnolock, hnc, hassign,
        withPlanLock, acquireLock, acquireAttempts, mapLocked, releaseLock, setPlan,
        alGet_alSet_self, alRemove_alSet_of_none]
    rw [hclaim]
    by_cases hsid : ctx.sessionId = "" <;>
      simp [planToolExecute, requireId, strParam, hraw, hval, hnolock, hnc, hsid,
        withPlanLock, acquireLock, acquireAttempts, mapLocked, releaseLock, setPlan,
        alGet_alSet_self, alRemove_alSet_of_none]

/-- A completed plan record. -/
def donePlan : PlanRecord :=
  { id := "cafecafe", title := "done", status := "completed",
    created_at := "2026-01-01T00:00:00.000Z", assigned_to_session := none,
    steps := [], body := "" }

/-- A store holding only `donePlan`, with no locks. -/
def doneWorld : FsWorld :=
  { plans := [("cafecafe", donePlan)], locks := [],
    idSupply := fun _ => "aaaaaaaa", idIdx := 0 }

def menuCtx : Ctx :=
  { nowMs := 0, nowIso := "t", hasUI := true, confirmSteal := true,
    sessionId := "sessA", sessionFile := "sessA.json", pid := 1 }

/-- C2 counterexample: the interactive plan menu's `execute` action on a
plan whose stored status is `completed` does not fail with a
terminal-status error — it writes the record file, setting the status to
`active` and assigning the plan to the caller's session. -/
theorem menu_execute_ignores_terminal_counterexample :
    alGet (applyPlanActionExecute donePlan menuCtx doneWorld).2.plans "cafecafe" =
      some { donePlan with status := "active", assigned_to_session := some "sessA" } ∧
    (applyPlanActionExecute donePlan menuCtx doneWorld).2.plans ≠ doneWorld.plans := by
  decide

/-- A draft, unassigned plan record and its store. -/
def draftPlan : PlanRecord :=
  { id := "beefbeef", title := "T", status := "draft", created_at := "c",
    assigned_to_session := none, steps := [], body := "" }

def draftWorld : FsWorld :=
  { plans := [("beefbeef", draftPlan)], locks := [],
    idSupply := fun _ => "aaaaaaaa", idIdx := 0 }

/-- Witness for the amended C2: tool `execute` on the completed plan
reports the terminal-status error; tool `claim` on the draft plan
succeeds with the caller's assignment. -/
theorem planTool_terminal_witness :
    (planToolExecute { action := .execute, id := some "cafecafe" } menuCtx doneWorld).1 =
      Except.ok (.err .execute ("Plan " ++ displayPlanId "cafecafe" ++ " is " ++ "completed")) ∧
    (planToolExecute { action := .claim, id := some "beefbeef" } menuCtx draftWorld).1 =
      Except.ok (.plan .claim { draftPlan with assigned_to_session := some "sessA" }) := by
  refine ⟨?_, ?_⟩
  · exact ((planTool_terminal_and_claim_execute menuCtx doneWorld "cafecafe" "cafecafe"
      donePlan none (by decide) (by decide) (by decide) (by decide)).1 (by decide)).1
  · exact ((planTool_terminal_and_claim_execute menuCtx draftWorld "beefbeef" "beefbeef"
      draftPlan none (by decide) (by decide) (by decide) (by decide)).2 rfl rfl).1

/-! ## C5 — structured errors versus the id-generation throw -/

/-- The one throwing configuration: a `create` with a truthy title whose
10 id draws all collide. -/
def createIdExhausted (params : PlanParams) (w : FsWorld) : Prop :=
  params.action = .create ∧ strParam params.title ≠ none ∧
    (generatePlanId w).1.isOk = false

theorem withPlanLock_ok_of {α : Type} (w : FsWorld) (id : String) (ctx : Ctx)
    (fn : FsWorld → Except String α × FsWorld)
    (hfn : ∀ w', w'.plans = w.plans → ∃ v, (fn w').1 = Except.ok v) :
    ∃ r, (withPlanLock w id ctx fn).1 = Except.ok r := by
  unfold withPlanLock
  cases hacq : acquireLock w id ctx with
  | mk res w1 =>
    cases res with
    | err m => exact ⟨Except.error m, rfl⟩
    | ok =>
      have hw1 : w1.plans = w.plans := by
        have h2 := (acquireAttempts_plans 2 w id ctx).1
        unfold acquireLock at hacq
        rw [hacq] at h2
        exact h2
      obtain ⟨v, hv⟩ := hfn w1 hw1
      rcases hfw : fn w1 with ⟨r, w2⟩
      rw [hfw] at hv
      simp only at hv
      subst hv
      refine ⟨Except.ok v, ?_⟩
      dsimp only
      rw [hfw]

theorem mapLocked_ok (a : PlanAction)
    (x : Except String (Except String (Except String PlanRecord)) × FsWorld)
    (hx : ∃ r, x.1 = Except.ok r) : ∃ d, (mapLocked a x).1 = Except.ok d := by
  obtain ⟨r, hr⟩ := hx
  cases x with
  | mk x1 w =>
    simp only at hr
    subst hr
    cases r with
    | error m => exact ⟨_, rfl⟩
    | ok r' =>
      cases r' with
      | error m => exact ⟨_, rfl⟩
      | ok p => exact ⟨_, rfl⟩

theorem requireId_ok (a : PlanAction) (params : PlanParams) (w : FsWorld)
    (k : String → Except String ToolDetails × FsWorld)
    (hk : ∀ vid p, alGet w.plans vid = some p → ∃ d, (k vid).1 = Except.ok d) :
    ∃ d, (requireId a params w k).1 = Except.ok d := by
  unfold requireId
  cases hpid : strParam params.id with
  | none => exact ⟨_, rfl⟩
  | some raw =>
    dsimp only
    cases hval : validatePlanId raw with
    | error e => exact ⟨_, rfl⟩
    | ok vid =>
      dsimp only
      cases hget : alGet w.plans vid with
      | none => simp [hget]
      | some p =>
        simp only [hget, Option.isSome_some, if_true]
        exact hk vid p hget

/-- C5 (amended): every plan action reports its failure inside the
structured result it returns — except `create` when id generation
exhausts its 10 collision-retry attempts against a pre-populated
directory, in which case the `Error` thrown by `generatePlanId`
propagates out of the action uncaught (see the counterexample). -/
theorem planTool_no_throw (params : PlanParams) (ctx : Ctx) (w : FsWorld)
    (h : ¬ createIdExhausted params w) :
    ∃ d, (planToolExecute params ctx w).1 = Except.ok d := by
  cases hact : params.action with
  | list =>
    unfold planToolExecute
    rw [hact]
    exact ⟨_, rfl⟩
  | get =>
    unfold planToolExecute
    rw [hact]
    refine requireId_ok _ _ _ _ (fun vid p hp => ?_)
    simp [hp]
  | create =>
    unfold planToolExecute
    rw [hact]
    cases htitle : strParam params.title with
    | none => exact ⟨_, rfl⟩
    | some title =>
      cases hgen : generatePlanId w with
      | mk res w1 =>
        cases res with
        | error e =>
          exfalso
          refine h ⟨hact, by simp [htitle], ?_⟩
          rw [hgen]
          rfl
        | ok id =>
          simp only
          refine mapLocked_ok _ _ (withPlanLock_ok_of _ _ _ _ (fun w' _ => ⟨_, rfl⟩))
  | update =>
    unfold planToolExecute
    rw [hact]
    refine requireId_ok _ _ _ _ (fun vid p hp => ?_)
    refine mapLocked_ok _ _ (withPlanLock_ok_of _ _ _ _ (fun w' hw' => ?_))
    rw [hw', hp]
    exact ⟨_, rfl⟩
  | addStep =>
    unfold planToolExecute
    rw [hact]
    cases hid : strParam params.id with
    | none => exact ⟨_, rfl⟩
    | some raw =>
      cases htext : strParam params.step_text with
      | none => exact ⟨_, rfl⟩
      | some stepText =>
        refine requireId_ok _ _ _ _ (fun vid p hp => ?_)
        refine mapLocked_ok _ _ (withPlanLock_ok_of _ _ _ _ (fun w' hw' => ?_))
        rw [hw', hp]
        exact ⟨_, rfl⟩
  | completeStep =>
    unfold planToolExecute
    rw [hact]
    cases hid : strParam params.id with
    | none => exact ⟨_, rfl⟩
    | some raw =>
      cases hsid : params.step_id with
      | none => exact ⟨_, rfl⟩
      | some stepId =>
        refine requireId_ok _ _ _ _ (fun vid p hp => ?_)
        refine mapLocked_ok _ _ (withPlanLock_ok_of _ _ _ _ (fun w' hw' => ?_))
        rw [hw', hp]
        simp only
        cases hfind : p.steps.find? (fun s => s.id = stepId) with
        | none => exact ⟨_, rfl⟩
        | some s => exact ⟨_, rfl⟩
  | claim =>
    unfold planToolExecute
    rw [hact]
    refine requireId_ok _ _ _ _ (fun vid p hp => ?_)
    refine mapLocked_ok _ _ (withPlanLock_ok_of _ _ _ _ (fun w' hw' => ?_))
    rw [hw', hp]
    simp only
    by_cases hcomp : isPlanCompleted p.status
    · simp [hcomp]
    · simp only [hcomp, Bool.false_eq_true, if_false]
      cases hass : strParam p.assigned_to_session with
      | none => exact ⟨_, rfl⟩
      | some a =>
        by_cases h1 : a = ctx.sessionId <;> by_cases h2 : forceParam params <;>
          simp [h1, h2]
  | release =>
    unfold planToolExecute
    rw [hact]
    refine requireId_ok _ _ _ _ (fun vid p hp => ?_)
    refine mapLocked_ok _ _ (withPlanLock_ok_of _ _ _ _ (fun w' hw' => ?_))
    rw [hw', hp]
    simp only
    cases hass : strParam p.assigned_to_session with
    | none => exact ⟨_, rfl⟩
    | some a =>
      by_cases h1 : a = ctx.sessionId <;> by_cases h2 : forceParam params <;>
        simp [h1, h2]
  | execute =>
    unfold planToolExecute
    rw [hact]
    refine requireId_ok _ _ _ _ (fun vid p hp => ?_)
    refine mapLocked_ok _ _ (withPlanLock_ok_of _ _ _ _ (fun w' hw' => ?_))
    rw [hw', hp]
    simp only
    by_cases hcomp : isPlanCompleted p.status
    · simp [hcomp]
    · simp only [hcomp, Bool.false_eq_true, if_false]
      cases hass : strParam p.assigned_to_session with
      | none => exact ⟨_, rfl⟩
      | some a =>
        by_cases h1 : a = ctx.sessionId <;> by_cases h2 : forceParam params <;>
          simp [h1, h2]
  | del =>
    unfold planToolExecute
    rw [hact]
    refine requireId_ok _ _ _ _ (fun vid p hp => ?_)
    refine mapLocked_ok _ _ (withPlanLock_ok_of _ _ _ _ (fun w' hw' => ?_))
    rw [hw', hp]
    exact ⟨_, rfl⟩

/-- A store whose record files occupy every id the random stream will
propose: all 10 draws collide. -/
def exhaustedWorld : FsWorld :=
  { plans := [("aaaaaaaa", donePlan)], locks := [],
    idSupply := fun _ => "aaaaaaaa", idIdx := 0 }

/-- C5 counterexample: on the exhausted store, `create` does not report
the failure as a structured error — the `Error` thrown by
`generatePlanId` escapes the action. -/
theorem planTool_create_throws_counterexample :
    (planToolExecute { action := .create, title := some "T" } menuCtx exhaustedWorld).1 =
      Except.error "Failed to generate unique plan id" := by
  decide

/-- Witness for the amended C5: a `create` whose first draw is fresh
returns a structured success, via the no-throw theorem. -/
theorem planTool_no_throw_witness :
    ∃ d, (planToolExecute { action := .create, title := some "T" } menuCtx draftWorld).1 =
      Except.ok d :=
  planTool_no_throw _ menuCtx draftWorld (by
    intro hx
    exact absurd hx.2.2 (by decide))

/-! ## C6 — garbage collection deletes exactly the old terminal records -/

/-- The claim's deletion condition: a `.md` record file whose parsed
status is terminal and whose `created_at` parses to a finite timestamp
strictly older than `now - gcDays` days. -/
def gcEligible (settings : PlanSettings) (dateParse : String → Option Int)
    (now : Int) (e : String × String) : Prop :=
  endsWithMd e.1 = true ∧ isPlanCompleted (gcParsed e).status = true ∧
    ∃ t, dateParse (gcParsed e).created_at = some t ∧
      t < now - settings.gcDays * 24 * 60 * 60 * 1000

theorem gcShouldDelete_iff (settings : PlanSettings) (dp : String → Option Int)
    (now : Int) (e : String × String) :
    (endsWithMd e.1 && gcShouldDelete settings dp now e) = true ↔
      gcEligible settings dp now e := by
  unfold gcShouldDelete gcEligible
  by_cases hmd : endsWithMd e.1
  · simp only [hmd, Bool.true_and, true_and]
    by_cases hc : isPlanCompleted (gcParsed e).status
    · simp only [hc, Bool.not_true, Bool.false_eq_true, if_false, true_and]
      cases hdp : dp (gcParsed e).created_at with
      | none => simp [hdp]
      | some t => simp [hdp]
    · simp [hc]
  · simp [hmd]

/-- C6: for every directory listing, every settings value, every clock
value and every behaviour of the `Date.parse` builtin, the sweep deletes
exactly the record files meeting the claim's condition; it deletes
nothing when `settings.gc` is false; and it never deletes an entry with a
non-terminal parsed status, nor one whose `created_at` does not parse,
regardless of age. -/
theorem garbageCollect_exact (settings : PlanSettings) (dp : String → Option Int)
    (now : Int) (entries : List (String × String)) :
    (settings.gc = false → garbageCollectPlans settings dp now entries = entries) ∧
    (settings.gc = true →
      ∀ e, e ∈ garbageCollectPlans settings dp now entries ↔
        (e ∈ entries ∧ ¬ gcEligible settings dp now e)) ∧
    (∀ e ∈ entries, isPlanCompleted (gcParsed e).status = false →
      e ∈ garbageCollectPlans settings dp now entries) ∧
    (∀ e ∈ entries, dp (gcParsed e).created_at = none →
      e ∈ garbageCollectPlans settings dp now entries) := by
  have hfilter : settings.gc = true →
      garbageCollectPlans settings dp now entries =
        entries.filter (fun e => !(endsWithMd e.1 && gcShouldDelete settings dp now e)) := by
    intro hgc
    unfold garbageCollectPlans
    rw [hgc]
    simp only [Bool.not_true, Bool.false_eq_true, if_false]
    induction entries with
    | nil => rfl
    | cons e rest ih =>
      cases he : endsWithMd e.1 && gcShouldDelete settings dp now e with
      | false =>
        rw [List.foldr_cons, if_neg (by simp [he]), ih,
          List.filter_cons_of_pos (by simp [he])]
      | true =>
        rw [List.foldr_cons, if_pos (by simp [he]), ih,
          List.filter_cons_of_neg (by simp [he])]
  have hmain : ∀ e, settings.gc = true →
      (e ∈ garbageCollectPlans settings dp now entries ↔
        (e ∈ entries ∧ ¬ gcEligible settings dp now e)) := by
    intro e hgc
    rw [hfilter hgc, List.mem_filter, ← gcShouldDelete_iff settings dp now e]
    cases hm : endsWithMd e.1 <;> cases hd : gcShouldDelete settings dp now e <;>
      simp [hm, hd]
  refine ⟨fun hgc => ?_, fun hgc e => hmain e hgc, ?_, ?_⟩
  · unfold garbageCollectPlans
    rw [hgc]
    rfl
  · intro e he hstatus
    cases hgc : settings.gc with
    | false =>
      unfold garbageCollectPlans
      rw [hgc]
      simpa using he
    | true =>
      rw [hmain e hgc]
      refine ⟨he, fun hel => ?_⟩
      rw [hel.2.1] at hstatus
      cases hstatus
  · intro e he hdp
    cases hgc : settings.gc with
    | false =>
      unfold garbageCollectPlans
      rw [hgc]
      simpa using he
    | true =>
      rw [hmain e hgc]
      refine ⟨he, fun hel => ?_⟩
      obtain ⟨t, ht, _⟩ := hel.2.2
      rw [hdp] at ht
      cases ht

/-- The clock for the GC witness is 0; `Date.parse` results 31 and 29
days in the past. -/
def gcDp : String → Option Int := fun s =>
  if s = "OLD" then some (-2678400000)
  else if s = "NEW" then some (-2505600000)
  else none

def gcSet : PlanSettings := { gc := true, gcDays := 30 }

def entryOld : String × String :=
  ("a.md", "\x7b \"status\": \"completed\", \"created_at\": \"OLD\" \x7d")

def entryNew : String × String :=
  ("b.md", "\x7b \"status\": \"completed\", \"created_at\": \"NEW\" \x7d")

def entryDraft : String × String :=
  ("c.md", "\x7b \"status\": \"draft\", \"created_at\": \"OLD\" \x7d")

def gcEntries : List (String × String) := [entryOld, entryNew, entryDraft]

/-- Witness for C6, realizing the spec's example: with `gcDays = 30` a
completed record 31 days old is deleted, a completed record 29 days old
is retained, and a draft record 31 days old is retained. -/
theorem garbageCollect_exact_witness :
    entryOld ∉ garbageCollectPlans gcSet gcDp 0 gcEntries ∧
    entryNew ∈ garbageCollectPlans gcSet gcDp 0 gcEntries ∧
    entryDraft ∈ garbageCollectPlans gcSet gcDp 0 gcEntries := by
  refine ⟨?_, ?_, ?_⟩
  · intro hmem
    have h := ((garbageCollect_exact gcSet gcDp 0 gcEntries).2.1 rfl entryOld).mp hmem
    exact h.2 ⟨by decide, by decide, ⟨-2678400000, by decide, by decide⟩⟩
  · refine ((garbageCollect_exact gcSet gcDp 0 gcEntries).2.1 rfl entryNew).mpr
      ⟨by decide, ?_⟩
    rintro ⟨-, -, t, ht, hlt⟩
    have ht' : gcDp "NEW" = some t := ht
    have : t = -2505600000 := by
      simp [gcDp] at ht'
      omega
    subst this
    exact absurd hlt (by decide)
  · exact (garbageCollect_exact gcSet gcDp 0 gcEntries).2.2.1 entryDraft
      (by decide) (by decide)

/-! ## C10 — `gcDays` clamping in `readPlanSettings` -/

/-- C10: `readPlanSettings` clamps any numeric `gcDays` to a non-negative
integer via floor and `max 0` rather than rejecting it — a negative value
(e.g. `-5`) yields `gcDays = 0`, not the 30-day default — and with
`gcDays = 0` every completed/archived record whose `created_at` parses to
a timestamp strictly before `now` is immediately eligible for garbage
collection; only a missing or non-numeric `gcDays` falls back to the
default of 30 (JSON numerals are always finite, so `Number.isFinite`
holds exactly for present numeric values). -/
theorem readPlanSettings_gcDays_clamp (raw : String) (kvs : List (String × Json)) :
    (jsonParse raw = some (Json.obj kvs) →
      (∀ q : Rat, jLookup kvs "gcDays" = some (Json.num q) →
        (readPlanSettings (some raw)).gcDays = max 0 q.floor ∧
        (q < 0 → (readPlanSettings (some raw)).gcDays = 0)) ∧
      ((∀ q : Rat, jLookup kvs "gcDays" ≠ some (Json.num q)) →
        (readPlanSettings (some raw)).gcDays = 30)) ∧
    (jsonParse raw = none → (readPlanSettings (some raw)).gcDays = 30) ∧
    (readPlanSettings none).gcDays = 30 ∧
    (∀ (s : PlanSettings) (dp : String → Option Int) (now : Int)
        (entries : List (String × String)) (e : String × String) (t : Int),
      s.gc = true → s.gcDays = 0 → e ∈ entries → endsWithMd e.1 = true →
      isPlanCompleted (gcParsed e).status = true →
      dp (gcParsed e).created_at = some t → t < now →
      e ∉ garbageCollectPlans s dp now entries) := by
  refine ⟨fun hparse => ⟨fun q hq => ⟨?_, fun hneg => ?_⟩, fun hnone => ?_⟩,
    fun hparse => ?_, rfl, ?_⟩
  · simp [readPlanSettings, hparse, hq]
  · have hfl : q.floor < 0 := by
      by_contra hge
      push_neg at hge
      have h0 : ((0 : Int) : Rat) ≤ q := Rat.le_floor.mp hge
      rw [Int.cast_zero] at h0
      exact absurd h0 (not_le.mpr hneg)
    simp [readPlanSettings, hparse, hq]
    omega
  · cases hlook : jLookup kvs "gcDays" with
    | none => simp [readPlanSettings, hparse, hlook, DEFAULT_PLAN_SETTINGS]
    | some v =>
      cases v with
      | num q => exact absurd hlook (hnone q)
      | null => simp [readPlanSettings, hparse, hlook, DEFAULT_PLAN_SETTINGS]
      | bool b => simp [readPlanSettings, hparse, hlook, DEFAULT_PLAN_SETTINGS]
      | str s => simp [readPlanSettings, hparse, hlook, DEFAULT_PLAN_SETTINGS]
      | arr es => simp [readPlanSettings, hparse, hlook, DEFAULT_PLAN_SETTINGS]
      | obj ms => simp [readPlanSettings, hparse, hlook, DEFAULT_PLAN_SETTINGS]
  · simp [readPlanSettings, hparse, DEFAULT_PLAN_SETTINGS]
  · intro s dp now entries e t hgc hdays hmem hmd hstatus hdp hlt hin
    have h := ((garbageCollect_exact s dp now entries).2.1 hgc e).mp hin
    refine h.2 ⟨hmd, hstatus, ⟨t, hdp, ?_⟩⟩
    rw [hdays]
    simpa using hlt

/-- Witness for C10: `settings.json` content `{"gcDays": -5}` yields
`gcDays = 0`, and with it the 31-day-old completed record of the GC
witness store is deleted even though it would survive the default
30-day window. -/
theorem readPlanSettings_gcDays_clamp_witness :
    (readPlanSettings (some "\x7b\"gcDays\": -5\x7d")).gcDays = 0 ∧
    entryOld ∉ garbageCollectPlans
      (readPlanSettings (some "\x7b\"gcDays\": -5\x7d")) gcDp 0 gcEntries := by
  have h0 : (readPlanSettings (some "\x7b\"gcDays\": -5\x7d")).gcDays = 0 :=
    ((readPlanSettings_gcDays_clamp "\x7b\"gcDays\": -5\x7d" [("gcDays", Json.num (-5))]).1
      (by rfl)).1 (-5) (by rfl) |>.2 (by norm_num)
  refine ⟨h0, ?_⟩
  exact (readPlanSettings_gcDays_clamp "x" []).2.2.2
    (readPlanSettings (some "\x7b\"gcDays\": -5\x7d")) gcDp 0 gcEntries entryOld
    (-2678400000) (by decide) h0 (by decide) (by decide) (by decide) (by decide) (by decide)

/-! ## C8 — step-id uniqueness and monotonicity -/

/-- Strictly increasing step ids (which implies uniqueness). -/
def stepsStrictMono (steps : List PlanStep) : Prop :=
  steps.Pairwise (fun a b => a.id < b.id)

/-- Every record file in a plans listing has strictly increasing step
ids. -/
def plansOK (plans : List (String × PlanRecord)) : Prop :=
  ∀ e ∈ plans, stepsStrictMono e.2.steps

/-- Every record file in the store has strictly increasing step ids. -/
def worldStepsOK (w : FsWorld) : Prop := plansOK w.plans

theorem foldl_max_le_init (steps : List PlanStep) (a : Int) :
    a ≤ steps.foldl (fun m s => max m s.id) a := by
  induction steps generalizing a with
  | nil => simp
  | cons e tl ih =>
    calc a ≤ max a e.id := le_max_left _ _
    _ ≤ tl.foldl (fun m s => max m s.id) (max a e.id) := ih _

theorem le_foldl_max_of_mem (steps : List PlanStep) (a : Int) (s : PlanStep)
    (h : s ∈ steps) : s.id ≤ steps.foldl (fun m s => max m s.id) a := by
  induction steps generalizing a with
  | nil => cases h
  | cons e tl ih =>
    rcases List.mem_cons.mp h with rfl | hmem
    · calc s.id ≤ max a s.id := le_max_right _ _
      _ ≤ tl.foldl (fun m s => max m s.id) (max a s.id) := foldl_max_le_init _ _
    · exact ih _ hmem

theorem le_maxStepId_of_mem (steps : List PlanStep) (s : PlanStep) (h : s ∈ steps) :
    s.id ≤ maxStepId steps :=
  le_foldl_max_of_mem steps 0 s h

/-- Appending the `max + 1` step preserves strict monotonicity. -/
theorem stepsStrictMono_append_max (steps : List PlanStep) (t : String)
    (h : stepsStrictMono steps) :
    stepsStrictMono
      (steps ++ [{ id := maxStepId steps + 1, text := t, done := false }]) := by
  unfold stepsStrictMono at h ⊢
  rw [List.pairwise_append]
  refine ⟨h, List.pairwise_singleton _ _, ?_⟩
  intro a ha b hb
  rw [List.mem_singleton] at hb
  subst hb
  have := le_maxStepId_of_mem steps a ha
  simp only
  omega

theorem mem_setStepDone (steps : List PlanStep) (sid : Int) (b : PlanStep)
    (h : b ∈ setStepDone steps sid) : ∃ b' ∈ steps, b.id = b'.id := by
  induction steps with
  | nil => cases h
  | cons s tl ih =>
    unfold setStepDone at h
    by_cases hs : s.id = sid
    · rw [if_pos hs] at h
      rcases List.mem_cons.mp h with rfl | hmem
      · exact ⟨s, List.mem_cons_self _ _, rfl⟩
      · exact ⟨b, List.mem_cons_of_mem _ hmem, rfl⟩
    · rw [if_neg hs] at h
      rcases List.mem_cons.mp h with rfl | hmem
      · exact ⟨b, List.mem_cons_self _ _, rfl⟩
      · obtain ⟨b', hb', hid⟩ := ih hmem
        exact ⟨b', List.mem_cons_of_mem _ hb', hid⟩

/-- Marking a step done never changes the id sequence. -/
theorem setStepDone_pairwise (steps : List PlanStep) (sid : Int)
    (h : stepsStrictMono steps) : stepsStrictMono (setStepDone steps sid) := by
  induction steps with
  | nil => exact h
  | cons s tl ih =>
    unfold stepsStrictMono at h
    rw [List.pairwise_cons] at h
    unfold setStepDone
    by_cases hs : s.id = sid
    · rw [if_pos hs]
      unfold stepsStrictMono
      rw [List.pairwise_cons]
      exact ⟨fun b hb => h.1 b hb, h.2⟩
    · rw [if_neg hs]
      unfold stepsStrictMono
      rw [List.pairwise_cons]
      refine ⟨fun b hb => ?_, ih h.2⟩
      obtain ⟨b', hb', hid⟩ := mem_setStepDone tl sid b hb
      rw [hid]
      exact h.1 b' hb'

theorem mem_buildStepsFrom_le (ts : List String) (i : Int) (s : PlanStep)
    (h : s ∈ buildStepsFrom i ts) : i ≤ s.id := by
  induction ts generalizing i with
  | nil => cases h
  | cons t tl ih =>
    unfold buildStepsFrom at h
    rcases List.mem_cons.mp h with rfl | hmem
    · simp
    · have := ih (i + 1) hmem
      omega

theorem buildStepsFrom_pairwise (ts : List String) (i : Int) :
    stepsStrictMono (buildStepsFrom i ts) := by
  induction ts generalizing i with
  | nil => exact List.Pairwise.nil
  | cons t tl ih =>
    unfold buildStepsFrom stepsStrictMono
    rw [List.pairwise_cons]
    refine ⟨fun b hb => ?_, ih (i + 1)⟩
    have := mem_buildStepsFrom_le tl (i + 1) b hb
    simp only
    omega

theorem buildStepsFrom_ids (ts : List String) (i : Int) :
    (buildStepsFrom i ts).map (fun s => s.id) =
      (List.range ts.length).map (fun (k : Nat) => i + (k : Int)) := by
  induction ts generalizing i with
  | nil => rfl
  | cons t tl ih =>
    unfold buildStepsFrom
    rw [List.map_cons, ih (i + 1), List.length_cons, List.range_succ_eq_map,
      List.map_cons, List.map_map]
    congr 1
    · simp
    · refine List.map_congr_left (fun k _ => ?_)
      simp only [Function.comp_apply, Nat.succ_eq_add_one]
      push_cast
      ring

theorem requireId_world (a : PlanAction) (params : PlanParams) (w : FsWorld)
    (k : String → Except String ToolDetails × FsWorld)
    (P : List (String × PlanRecord) → Prop)
    (hw : P w.plans)
    (hk : ∀ vid p, alGet w.plans vid = some p → P (k vid).2.plans) :
    P (requireId a params w k).2.plans := by
  unfold requireId
  cases hpid : strParam params.id with
  | none => exact hw
  | some raw =>
    dsimp only
    cases hval : validatePlanId raw with
    | error e => exact hw
    | ok vid =>
      dsimp only
      cases hget : alGet w.plans vid with
      | none => simp only [hget, Option.isSome_none, Bool.false_eq_true, if_false]; exact hw
      | some p =>
        simp only [hget, Option.isSome_some, if_true]
        exact hk vid p hget

theorem withPlanLock_world {α : Type} (w : FsWorld) (id : String) (ctx : Ctx)
    (fn : FsWorld → Except String α × FsWorld)
    (P : List (String × PlanRecord) → Prop)
    (hw : P w.plans)
    (hfn : ∀ w', w'.plans = w.plans → P (fn w').2.plans) :
    P (withPlanLock w id ctx fn).2.plans := by
  unfold withPlanLock
  cases hacq : acquireLock w id ctx with
  | mk res w1 =>
    have hw1 : w1.plans = w.plans := by
      have h2 := (acquireAttempts_plans 2 w id ctx).1
      unfold acquireLock at hacq
      rw [hacq] at h2
      exact h2
    cases res with
    | err m =>
      dsimp only
      rw [hw1]
      exact hw
    | ok =>
      rcases hfw : fn w1 with ⟨r, w2⟩
      have h2 : P w2.plans := by
        have := hfn w1 hw1
        rw [hfw] at this
        exact this
      cases r <;>
        (dsimp only; rw [hfw]; dsimp only; rw [(releaseLock_plans w2 id).1]; exact h2)

theorem mapLocked_world (a : PlanAction)
    (x : Except String (Except String (Except String PlanRecord)) × FsWorld) :
    (mapLocked a x).2 = x.2 := by
  rcases x with ⟨x1, w⟩
  cases x1 with
  | error e => rfl
  | ok x2 =>
    cases x2 with
    | error e => rfl
    | ok x3 => cases x3 <;> rfl

theorem alGet_mem {α : Type} (l : List (String × α)) (k : String) (v : α)
    (h : alGet l k = some v) : (k, v) ∈ l := by
  induction l with
  | nil => cases h
  | cons e rest ih =>
    rw [alGet_cons] at h
    by_cases he : e.1 = k
    · rw [if_pos he] at h
      have he2 : e.2 = v := Option.some.inj h
      have : e = (k, v) := Prod.ext he he2
      rw [← this]
      exact List.mem_cons_self _ _
    · rw [if_neg he] at h
      exact List.mem_cons_of_mem _ (ih h)

/-- One action preserves the strictly-increasing-ids invariant of every
record file in the store, whatever its parameters. -/
theorem planTool_preserves_stepsOK (params : PlanParams) (ctx : Ctx) (w : FsWorld)
    (hw : worldStepsOK w) : worldStepsOK (planToolExecute params ctx w).2 := by
  have hw' : plansOK w.plans := hw
  have hset : ∀ (vid : String) (upd : PlanRecord) (plans : List (String × PlanRecord)),
      plansOK plans → stepsStrictMono upd.steps → plansOK (alSet plans vid upd) := by
    intro vid upd plans hp hupd e he
    rcases mem_alSet plans vid upd e he with h | h
    · exact hp e h
    · rw [h]
      exact hupd
  show plansOK (planToolExecute params ctx w).2.plans
  cases hact : params.action with
  | list =>
    unfold planToolExecute
    rw [hact]
    exact hw'
  | get =>
    unfold planToolExecute
    rw [hact]
    refine requireId_world _ _ _ _ plansOK hw' (fun vid p hp => ?_)
    cases hget : alGet w.plans vid <;> exact hw'
  | create =>
    unfold planToolExecute
    rw [hact]
    cases htitle : strParam params.title with
    | none => exact hw'
    | some title =>
      dsimp only
      cases hgen : generatePlanId w with
      | mk res w1 =>
        have hw1 : w1.plans = w.plans := by
          have haux : ∀ (n : Nat) (w0 : FsWorld),
              (generatePlanIdAux n w0).2.plans = w0.plans := by
            intro n
            induction n with
            | zero => intro w0; rfl
            | succ n ih =>
              intro w0
              unfold generatePlanIdAux
              by_cases hex :
                  (alGet ({ w0 with idIdx := w0.idIdx + 1 } : FsWorld).plans
                    (w0.idSupply w0.idIdx)).isSome
              · rw [if_pos hex]
                exact ih _
              · rw [if_neg hex]
          have h2 := haux 10 w
          unfold generatePlanId at hgen
          rw [hgen] at h2
          exact h2
        cases res with
        | error e =>
          dsimp only
          rw [hw1]
          exact hw'
        | ok id =>
          dsimp only
          rw [mapLocked_world]
          refine withPlanLock_world _ _ _ _ plansOK (by rw [hw1]; exact hw')
            (fun wi hwi => ?_)
          refine hset _ _ _ (by rw [hwi, hw1]; exact hw') ?_
          exact buildStepsFrom_pairwise _ _
  | update =>
    unfold planToolExecute
    rw [hact]
    refine requireId_world _ _ _ _ plansOK hw' (fun vid p hp => ?_)
    rw [mapLocked_world]
    refine withPlanLock_world _ _ _ _ plansOK hw' (fun wi hwi => ?_)
    dsimp only
    cases hget : alGet wi.plans vid with
    | none => rw [hwi]; exact hw'
    | some existing =>
      dsimp only
      have hmono := hw' _ (alGet_mem _ _ _ (hwi ▸ hget))
      cases params.title <;> cases params.status <;> cases params.body <;>
        exact hset vid _ wi.plans (by rw [hwi]; exact hw') hmono
  | addStep =>
    unfold planToolExecute
    rw [hact]
    cases strParam params.id with
    | none => exact hw'
    | some raw =>
      dsimp only
      cases strParam params.step_text with
      | none => exact hw'
      | some stepText =>
        refine requireId_world _ _ _ _ plansOK hw' (fun vid p hp => ?_)
        rw [mapLocked_world]
        refine withPlanLock_world _ _ _ _ plansOK hw' (fun wi hwi => ?_)
        dsimp only
        cases hget : alGet wi.plans vid with
        | none => rw [hwi]; exact hw'
        | some existing =>
          dsimp only
          have hmono := hw' _ (alGet_mem _ _ _ (hwi ▸ hget))
          exact hset vid _ wi.plans (by rw [hwi]; exact hw')
            (stepsStrictMono_append_max existing.steps stepText hmono)
  | completeStep =>
    unfold planToolExecute
    rw [hact]
    cases strParam params.id with
    | none => exact hw'
    | some raw =>
      dsimp only
      cases params.step_id with
      | none => exact hw'
      | some stepId =>
        refine requireId_world _ _ _ _ plansOK hw' (fun vid p hp => ?_)
        rw [mapLocked_world]
        refine withPlanLock_world _ _ _ _ plansOK hw' (fun wi hwi => ?_)
        dsimp only
        cases hget : alGet wi.plans vid with
        | none => rw [hwi]; exact hw'
        | some existing =>
          dsimp only
          have hmono := hw' _ (alGet_mem _ _ _ (hwi ▸ hget))
          cases hfind : existing.steps.find? (fun s => s.id = stepId) with
          | none => rw [hwi]; exact hw'
          | some s =>
            exact hset vid _ wi.plans (by rw [hwi]; exact hw')
              (setStepDone_pairwise existing.steps stepId hmono)
  | claim =>
    unfold planToolExecute
    rw [hact]
    refine requireId_world _ _ _ _ plansOK hw' (fun vid p hp => ?_)
    rw [mapLocked_world]
    refine withPlanLock_world _ _ _ _ plansOK hw' (fun wi hwi => ?_)
    dsimp only
    cases hget : alGet wi.plans vid with
    | none => rw [hwi]; exact hw'
    | some existing =>
      dsimp only
      have hmono := hw' _ (alGet_mem _ _ _ (hwi ▸ hget))
      by_cases hcomp : isPlanCompleted existing.status
      · simp only [hcomp, if_true]
        rw [hwi]; exact hw'
      · simp only [hcomp, Bool.false_eq_true, if_false]
        cases strParam existing.assigned_to_session with
        | none => exact hset vid _ wi.plans (by rw [hwi]; exact hw') hmono
        | some a =>
          by_cases hcond : (a ≠ ctx.sessionId && !forceParam params) = true
          · simp only [hcond, if_true]
            rw [hwi]; exact hw'
          · simp only [hcond, if_false]
            exact hset vid _ wi.plans (by rw [hwi]; exact hw') hmono
  | release =>
    unfold planToolExecute
    rw [hact]
    refine requireId_world _ _ _ _ plansOK hw' (fun vid p hp => ?_)
    rw [mapLocked_world]
    refine withPlanLock_world _ _ _ _ plansOK hw' (fun wi hwi => ?_)
    dsimp only
    cases hget : alGet wi.plans vid with
    | none => rw [hwi]; exact hw'
    | some existing =>
      dsimp only
      have hmono := hw' _ (alGet_mem _ _ _ (hwi ▸ hget))
      cases strParam existing.assigned_to_session with
      | none => rw [hwi]; exact hw'
      | some a =>
        by_cases hcond : (a ≠ ctx.sessionId && !forceParam params) = true
        · simp only [hcond, if_true]
          rw [hwi]; exact hw'
        · simp only [hcond, if_false]
          exact hset vid _ wi.plans (by rw [hwi]; exact hw') hmono
  | execute =>
    unfold planToolExecute
    rw [hact]
    refine requireId_world _ _ _ _ plansOK hw' (fun vid p hp => ?_)
    rw [mapLocked_world]
    refine withPlanLock_world _ _ _ _ plansOK hw' (fun wi hwi => ?_)
    dsimp only
    cases hget : alGet wi.plans vid with
    | none => rw [hwi]; exact hw'
    | some existing =>
      dsimp only
      have hmono := hw' _ (alGet_mem _ _ _ (hwi ▸ hget))
      by_cases hcomp : isPlanCompleted existing.status
      · simp only [hcomp, if_true]
        rw [hwi]; exact hw'
      · simp only [hcomp, Bool.false_eq_true, if_false]
        cases strParam existing.assigned_to_session with
        | none => exact hset vid _ wi.plans (by rw [hwi]; exact hw') hmono
        | some a =>
          by_cases hcond : (a ≠ ctx.sessionId && !forceParam params) = true
          · simp only [hcond, if_true]
            rw [hwi]; exact hw'
          · simp only [hcond, if_false]
            exact hset vid _ wi.plans (by rw [hwi]; exact hw') hmono
  | del =>
    unfold planToolExecute
    rw [hact]
    refine requireId_world _ _ _ _ plansOK hw' (fun vid p hp => ?_)
    rw [mapLocked_world]
    refine withPlanLock_world _ _ _ _ plansOK hw' (fun wi hwi => ?_)
    dsimp only
    cases hget : alGet wi.plans vid with
    | none => rw [hwi]; exact hw'
    | some existing =>
      dsimp only
      intro e he
      exact hw' e (hwi ▸ mem_alRemove wi.plans vid e he)

/-- The record `add-step` writes: the supplied text appended with id
`max existing id + 1` (1 on a plan with no steps) and `done = false`. -/
def addStepResult (p : PlanRecord) (text : String) : PlanRecord :=
  { p with steps :=
      p.steps ++ [{ id := maxStepId p.steps + 1, text := text, done := false }] }

theorem planTool_addStep_result (ctx : Ctx) (w : FsWorld) (rawId vid : String)
    (p : PlanRecord) (text : String)
    (hraw : rawId ≠ "") (htext : text ≠ "")
    (hval : validatePlanId rawId = Except.ok vid)
    (hplan : alGet w.plans vid = some p)
    (hnolock : alGet w.locks vid = none) :
    planToolExecute { action := .addStep, id := some rawId, step_text := some text } ctx w =
      (Except.ok (.plan .addStep (addStepResult p text)),
       { w with plans := alSet w.plans vid (addStepResult p text) }) := by
  simp [planToolExecute, requireId, strParam, hraw, htext, hval, hplan, hnolock,
    withPlanLock, acquireLock, acquireAttempts, mapLocked, releaseLock, setPlan,
    addStepResult, alGet_alSet_self, alRemove_alSet_of_none]

theorem planTool_three_addSteps (ctx : Ctx) (w : FsWorld) (rawId vid : String)
    (p : PlanRecord) (t1 t2 t3 : String)
    (hraw : rawId ≠ "") (ht1 : t1 ≠ "") (ht2 : t2 ≠ "") (ht3 : t3 ≠ "")
    (hval : validatePlanId rawId = Except.ok vid)
    (hplan : alGet w.plans vid = some p) (hempty : p.steps = [])
    (hnolock : alGet w.locks vid = none) :
    (planToolExecute { action := .addStep, id := some rawId, step_text := some t3 } ctx
      (planToolExecute { action := .addStep, id := some rawId, step_text := some t2 } ctx
        (planToolExecute { action := .addStep, id := some rawId, step_text := some t1 } ctx
          w).2).2).1 =
      Except.ok (.plan .addStep { p with steps :=
        [{ id := 1, text := t1, done := false }, { id := 2, text := t2, done := false },
         { id := 3, text := t3, done := false }] }) := by
  have e1 : addStepResult p t1 =
      { p with steps := [{ id := 1, text := t1, done := false }] } := by
    simp [addStepResult, hempty, maxStepId]
  rw [planTool_addStep_result ctx w rawId vid p t1 hraw ht1 hval hplan hnolock, e1]
  dsimp only
  set q1 : PlanRecord := { p with steps := [{ id := 1, text := t1, done := false }] } with hq1
  have e2 : addStepResult q1 t2 =
      { p with steps := [{ id := 1, text := t1, done := false }, { id := 2, text := t2, done := false }] } := by
    rw [hq1]
    simp [addStepResult, maxStepId]
  rw [planTool_addStep_result ctx { w with plans := alSet w.plans vid q1 } rawId vid q1 t2
    hraw ht2 hval (alGet_alSet_self _ _ _) hnolock, e2]
  dsimp only
  set q2 : PlanRecord := { p with steps := [{ id := 1, text := t1, done := false }, { id := 2, text := t2, done := false }] } with hq2
  have e3 : addStepResult q2 t3 =
      { p with steps := [{ id := 1, text := t1, done := false }, { id := 2, text := t2, done := false }, { id := 3, text := t3, done := false }] } := by
    rw [hq2]
    simp [addStepResult, maxStepId]
  rw [planTool_addStep_result ctx
    { w with plans := alSet (alSet w.plans vid q1) vid q2 } rawId vid q2 t3
    hraw ht3 hval (alGet_alSet_self _ _ _) hnolock, e3]

/-- C8: (1) every action preserves strictly-increasing (hence unique)
step ids in every record file of the store; (2) `add-step` appends a step
whose id is the maximum existing step id plus one with `done = false`;
(3) three sequential `add-step` calls on a plan with no steps yield steps
with ids 1, 2, 3 in order, whatever the step texts; and (4) `create`
numbers its supplied steps `1..N` in order. -/
theorem step_ids_strictly_increasing :
    (∀ (params : PlanParams) (ctx : Ctx) (w : FsWorld),
      worldStepsOK w → worldStepsOK (planToolExecute params ctx w).2) ∧
    (∀ (ctx : Ctx) (w : FsWorld) (rawId vid : String) (p : PlanRecord) (text : String),
      rawId ≠ "" → text ≠ "" → validatePlanId rawId = Except.ok vid →
      alGet w.plans vid = some p → alGet w.locks vid = none →
      planToolExecute { action := .addStep, id := some rawId, step_text := some text } ctx w =
        (Except.ok (.plan .addStep (addStepResult p text)),
         { w with plans := alSet w.plans vid (addStepResult p text) })) ∧
    (∀ (ctx : Ctx) (w : FsWorld) (rawId vid : String) (p : PlanRecord) (t1 t2 t3 : String),
      rawId ≠ "" → t1 ≠ "" → t2 ≠ "" → t3 ≠ "" →
      validatePlanId rawId = Except.ok vid →
      alGet w.plans vid = some p → p.steps = [] → alGet w.locks vid = none →
      (planToolExecute { action := .addStep, id := some rawId, step_text := some t3 } ctx
        (planToolExecute { action := .addStep, id := some rawId, step_text := some t2 } ctx
          (planToolExecute { action := .addStep, id := some rawId, step_text := some t1 } ctx
            w).2).2).1 =
        Except.ok (.plan .addStep { p with steps :=
          [{ id := 1, text := t1, done := false }, { id := 2, text := t2, done := false },
           { id := 3, text := t3, done := false }] })) ∧
    (∀ texts : List String,
      (buildSteps texts).map (fun s => s.id) =
        (List.range texts.length).map (fun (k : Nat) => (k : Int) + 1)) := by
  refine ⟨planTool_preserves_stepsOK,
    fun ctx w rawId vid p text h1 h2 h3 h4 h5 =>
      planTool_addStep_result ctx w rawId vid p text h1 h2 h3 h4 h5,
    fun ctx w rawId vid p t1 t2 t3 h1 h2 h3 h4 h5 h6 h7 h8 =>
      planTool_three_addSteps ctx w rawId vid p t1 t2 t3 h1 h2 h3 h4 h5 h6 h7 h8,
    fun texts => ?_⟩
  rw [buildSteps, buildStepsFrom_ids]
  exact List.map_congr_left (fun k _ => by omega)

/-- Witness for C8 on the singleton draft store: the invariant holds
after an `add-step`, and three sequential `add-step` calls yield step
ids 1, 2, 3. -/
theorem step_ids_strictly_increasing_witness :
    worldStepsOK (planToolExecute
      { action := .addStep, id := some "beefbeef", step_text := some "s" }
      menuCtx draftWorld).2 ∧
    (planToolExecute { action := .addStep, id := some "beefbeef", step_text := some "c" } menuCtx
      (planToolExecute { action := .addStep, id := some "beefbeef", step_text := some "b" } menuCtx
        (planToolExecute { action := .addStep, id := some "beefbeef", step_text := some "a" } menuCtx
          draftWorld).2).2).1 =
      Except.ok (.plan .addStep { draftPlan with steps :=
        [{ id := 1, text := "a", done := false }, { id := 2, text := "b", done := false },
         { id := 3, text := "c", done := false }] }) :=
  ⟨step_ids_strictly_increasing.1 _ menuCtx draftWorld
     (by unfold worldStepsOK plansOK stepsStrictMono; decide),
   step_ids_strictly_increasing.2.2.1 menuCtx draftWorld "beefbeef" "beefbeef" draftPlan
     "a" "b" "c" (by decide) (by decide) (by decide) (by decide) (by decide) (by decide)
     (by decide) (by decide)⟩

/-! ## C7 — the composite sort order of `sortPlans` -/

theorem lexCmp_cons_le (a b : Char) (as bs : List Char) :
    lexCmp (a :: as) (b :: bs) ≤ 0 ↔
      (a.toNat < b.toNat ∨ (a.toNat = b.toNat ∧ lexCmp as bs ≤ 0)) := by
  have hdef : lexCmp (a :: as) (b :: bs) =
      (if a.toNat < b.toNat then -1 else if b.toNat < a.toNat then 1 else lexCmp as bs) := rfl
  rw [hdef]
  by_cases h1 : a.toNat < b.toNat
  · simp [h1]
  · by_cases h2 : b.toNat < a.toNat
    · simp [h1, h2]
      omega
    · have h3 : a.toNat = b.toNat := by omega
      simp [h1, h2, h3]

theorem lexCmp_nil_le (b : List Char) : lexCmp [] b ≤ 0 := by
  cases b <;> simp [lexCmp]

theorem lexCmp_total (a b : List Char) : lexCmp a b ≤ 0 ∨ lexCmp b a ≤ 0 := by
  induction a generalizing b with
  | nil => exact Or.inl (lexCmp_nil_le b)
  | cons x xs ih =>
    cases b with
    | nil => exact Or.inr (lexCmp_nil_le _)
    | cons y ys =>
      rw [lexCmp_cons_le, lexCmp_cons_le]
      rcases Nat.lt_trichotomy x.toNat y.toNat with h | h | h
      · exact Or.inl (Or.inl h)
      · rcases ih ys with h' | h'
        · exact Or.inl (Or.inr ⟨h, h'⟩)
        · exact Or.inr (Or.inr ⟨h.symm, h'⟩)
      · exact Or.inr (Or.inl h)

theorem lexCmp_trans (a b c : List Char)
    (hab : lexCmp a b ≤ 0) (hbc : lexCmp b c ≤ 0) : lexCmp a c ≤ 0 := by
  induction a generalizing b c with
  | nil => exact lexCmp_nil_le c
  | cons x xs ih =>
    cases b with
    | nil => simp [lexCmp] at hab
    | cons y ys =>
      cases c with
      | nil => simp [lexCmp] at hbc
      | cons z zs =>
        rw [lexCmp_cons_le] at hab hbc ⊢
        rcases hab with h1 | ⟨h1, h1'⟩ <;> rcases hbc with h2 | ⟨h2, h2'⟩
        · exact Or.inl (by omega)
        · exact Or.inl (by omega)
        · exact Or.inl (by omega)
        · exact Or.inr ⟨by omega, ih ys zs h1' h2'⟩

/-- The composite rank realized by the comparator's first three tiers:
completed plans after incomplete ones, `active` before other statuses,
assigned before unassigned among incomplete plans. -/
def planRank (p : PlanFrontMatter) : Nat :=
  (if isPlanCompleted p.status then 4 else 0) +
  (if p.status = "active" then 0 else 2) +
  (if !isPlanCompleted p.status && assignedTruthy p then 0 else 1)

theorem isPlanCompleted_active : isPlanCompleted "active" = false := by decide

theorem completed_active_absurd {s : String} (h1 : isPlanCompleted s = true)
    (h2 : s = "active") : False := by
  rw [h2] at h1
  exact absurd h1 (by decide)

theorem planCmp_le_iff (a b : PlanFrontMatter) :
    planCmp a b ≤ 0 ↔
      (planRank a < planRank b ∨
        (planRank a = planRank b ∧ lexCmp b.created_at.data a.created_at.data ≤ 0)) := by
  by_cases hca : isPlanCompleted a.status <;>
    by_cases hcb : isPlanCompleted b.status <;>
      by_cases haa : a.status = "active" <;>
        by_cases hab : b.status = "active" <;>
          first
            | exact (completed_active_absurd hca haa).elim
            | exact (completed_active_absurd hcb hab).elim
            | (by_cases hsa : assignedTruthy a <;> by_cases hsb : assignedTruthy b <;>
                (simp [planCmp, planRank, localeCompare, isPlanCompleted_active,
                   hca, hcb, haa, hab, hsa, hsb]
                 <;> omega))

theorem planCmp_le_total (a b : PlanFrontMatter) :
    planCmp a b ≤ 0 ∨ planCmp b a ≤ 0 := by
  rw [planCmp_le_iff, planCmp_le_iff]
  rcases Nat.lt_trichotomy (planRank a) (planRank b) with h | h | h
  · exact Or.inl (Or.inl h)
  · rcases lexCmp_total b.created_at.data a.created_at.data with h' | h'
    · exact Or.inl (Or.inr ⟨h, h'⟩)
    · exact Or.inr (Or.inr ⟨h.symm, h'⟩)
  · exact Or.inr (Or.inl h)

theorem planCmp_le_trans (a b c : PlanFrontMatter)
    (hab : planCmp a b ≤ 0) (hbc : planCmp b c ≤ 0) : planCmp a c ≤ 0 := by
  rw [planCmp_le_iff] at hab hbc ⊢
  rcases hab with h1 | ⟨h1, h1'⟩ <;> rcases hbc with h2 | ⟨h2, h2'⟩
  · exact Or.inl (by omega)
  · exact Or.inl (by omega)
  · exact Or.inl (by omega)
  · exact Or.inr ⟨by omega, lexCmp_trans _ _ _ h2' h1'⟩

/-- The order the claim describes, pairwise: non-completed before
completed; within equal completion class `active` before any other
status; within not-completed plans assigned before unassigned; and for
full ties descending `created_at` under lexicographic comparison. -/
def claimOrder (a b : PlanFrontMatter) : Prop :=
  (isPlanCompleted a.status = true → isPlanCompleted b.status = true) ∧
  (isPlanCompleted a.status = isPlanCompleted b.status →
    (b.status = "active" → a.status = "active")) ∧
  ((isPlanCompleted a.status = false ∧ isPlanCompleted b.status = false ∧
      (a.status = "active" ↔ b.status = "active")) →
    (assignedTruthy b = true → assignedTruthy a = true)) ∧
  ((isPlanCompleted a.status = isPlanCompleted b.status ∧
      (a.status = "active" ↔ b.status = "active") ∧
      (!isPlanCompleted a.status && assignedTruthy a) =
        (!isPlanCompleted b.status && assignedTruthy b)) →
    lexCmp b.created_at.data a.created_at.data ≤ 0)

theorem planCmp_le_claimOrder (a b : PlanFrontMatter)
    (h : planCmp a b ≤ 0) : claimOrder a b := by
  rw [planCmp_le_iff] at h
  unfold claimOrder
  by_cases hca : isPlanCompleted a.status <;>
    by_cases hcb : isPlanCompleted b.status <;>
      by_cases haa : a.status = "active" <;>
        by_cases hab : b.status = "active" <;>
          first
            | exact (completed_active_absurd hca haa).elim
            | exact (completed_active_absurd hcb hab).elim
            | (by_cases hsa : assignedTruthy a <;> by_cases hsb : assignedTruthy b <;>
                (try simp [planRank, isPlanCompleted_active, hca, hcb, haa, hab,
                   hsa, hsb] at h
                 try simp [isPlanCompleted_active, hca, hcb, haa, hab, hsa, hsb]
                 try exact h))

/-- C7: `sortPlans` returns a permutation of its input in which every
earlier/later pair respects the composite key the claim describes. -/
theorem sortPlans_order (plans : List PlanFrontMatter) :
    (sortPlans plans).Perm plans ∧ List.Pairwise claimOrder (sortPlans plans) := by
  constructor
  · exact List.perm_insertionSort _ _
  · have hs : List.Pairwise (fun a b => planCmp a b ≤ 0) (sortPlans plans) := by
      haveI ht : IsTotal PlanFrontMatter (fun a b => planCmp a b ≤ 0) := ⟨planCmp_le_total⟩
      haveI htr : IsTrans PlanFrontMatter (fun a b => planCmp a b ≤ 0) := ⟨planCmp_le_trans⟩
      exact List.sorted_insertionSort _ plans
    exact hs.imp (fun h => planCmp_le_claimOrder _ _ h)

/-! ## C1: the serialize/parse round trip

Phase one: the brace scanner `findJsonObjectEnd`.  A chunk is *neutral*
when the scanner walks straight through it — starting outside a string at
positive depth — without returning and without changing the depth or the
string state. -/

/-- Chunks the brace scanner passes through without effect. -/
def ScanNeutral (chunk : List Char) : Prop :=
  ∀ (rest : List Char) (i : Nat) (d : Int), 1 ≤ d →
    findJsonObjectEndAux (chunk ++ rest) i d false false =
      findJsonObjectEndAux rest (i + chunk.length) d false false

theorem scanNeutral_nil : ScanNeutral [] := by
  intro rest i d _
  simp

theorem scanNeutral_append {a b : List Char} (ha : ScanNeutral a) (hb : ScanNeutral b) :
    ScanNeutral (a ++ b) := by
  intro rest i d hd
  rw [List.append_assoc, ha (b ++ rest) i d hd, hb rest (i + a.length) d hd]
  simp [Nat.add_assoc]

theorem scanNeutral_safe_char (c : Char) (hq : c ≠ '"') (hb : c ≠ '\x7b')
    (hk : c ≠ '\x7d') : ScanNeutral [c] := by
  intro rest i d _
  simp [findJsonObjectEndAux, hq, hb, hk]

theorem scanNeutral_of_safe (l : List Char)
    (h : ∀ c ∈ l, c ≠ '"' ∧ c ≠ '\x7b' ∧ c ≠ '\x7d') : ScanNeutral l := by
  induction l with
  | nil => exact scanNeutral_nil
  | cons c t ih =>
    have hc := h c (by simp)
    exact scanNeutral_append (a := [c]) (b := t)
      (scanNeutral_safe_char c hc.1 hc.2.1 hc.2.2)
      (ih (fun x hx => h x (by simp [hx])))

theorem scan_esc2 (x : Char) (t : List Char) (i : Nat) (d : Int) :
    findJsonObjectEndAux ('\\' :: x :: t) i d true false =
      findJsonObjectEndAux t (i + 2) d true false := by
  simp [findJsonObjectEndAux]

theorem scan_plain (x : Char) (hq : x ≠ '"') (hb : x ≠ '\\') (t : List Char)
    (i : Nat) (d : Int) :
    findJsonObjectEndAux (x :: t) i d true false =
      findJsonObjectEndAux t (i + 1) d true false := by
  simp [findJsonObjectEndAux, hq, hb]

theorem hexDigitChar_plain : ∀ n < 16, hexDigitChar n ≠ '"' ∧ hexDigitChar n ≠ '\\' := by
  decide

theorem scan_esc2_chunk (cs rest : List Char) (i : Nat) (d : Int) (y : Char)
    (ih : ∀ (rest : List Char) (i : Nat) (d : Int),
      findJsonObjectEndAux (escStr cs ++ '"' :: rest) i d true false =
        findJsonObjectEndAux rest (i + (escStr cs).length + 1) d false false) :
    findJsonObjectEndAux (['\\', y] ++ (escStr cs ++ '"' :: rest)) i d true false =
      findJsonObjectEndAux rest
        (i + ((['\\', y] : List Char).length + (escStr cs).length) + 1) d false false := by
  rw [show (['\\', y] ++ (escStr cs ++ '"' :: rest)) =
        '\\' :: y :: (escStr cs ++ '"' :: rest) from rfl,
      scan_esc2, ih]
  congr 1
  simp
  omega

theorem scan_escU_chunk (cs rest : List Char) (i : Nat) (d : Int) (h1 h2 : Char)
    (hh1 : h1 ≠ '"' ∧ h1 ≠ '\\') (hh2 : h2 ≠ '"' ∧ h2 ≠ '\\')
    (ih : ∀ (rest : List Char) (i : Nat) (d : Int),
      findJsonObjectEndAux (escStr cs ++ '"' :: rest) i d true false =
        findJsonObjectEndAux rest (i + (escStr cs).length + 1) d false false) :
    findJsonObjectEndAux (['\\', 'u', '0', '0', h1, h2] ++ (escStr cs ++ '"' :: rest))
        i d true false =
      findJsonObjectEndAux rest
        (i + ((['\\', 'u', '0', '0', h1, h2] : List Char).length + (escStr cs).length) + 1)
        d false false := by
  rw [show (['\\', 'u', '0', '0', h1, h2] ++ (escStr cs ++ '"' :: rest)) =
        '\\' :: 'u' :: '0' :: '0' :: h1 :: h2 :: (escStr cs ++ '"' :: rest) from rfl,
      scan_esc2,
      scan_plain '0' (by decide) (by decide),
      scan_plain '0' (by decide) (by decide),
      scan_plain h1 hh1.1 hh1.2,
      scan_plain h2 hh2.1 hh2.2, ih]
  congr 1
  simp
  omega

theorem scan_escStr (s : List Char) : ∀ (rest : List Char) (i : Nat) (d : Int),
    findJsonObjectEndAux (escStr s ++ '"' :: rest) i d true false =
      findJsonObjectEndAux rest (i + (escStr s).length + 1) d false false := by
  induction s with
  | nil =>
    intro rest i d
    simp [escStr, findJsonObjectEndAux]
  | cons c cs ih =>
    intro rest i d
    have hsplit : escStr (c :: cs) ++ '"' :: rest =
        escChar c ++ (escStr cs ++ '"' :: rest) := by
      simp [escStr]
    have hlen : (escStr (c :: cs)).length = (escChar c).length + (escStr cs).length := by
      simp [escStr]
    rw [hsplit, hlen]
    by_cases h1 : c = '"'
    · rw [show escChar c = ['\\', '"'] from by rw [h1]; rfl]
      exact scan_esc2_chunk cs rest i d '"' ih
    by_cases h2 : c = '\\'
    · rw [show escChar c = ['\\', '\\'] from by rw [h2]; rfl]
      exact scan_esc2_chunk cs rest i d '\\' ih
    by_cases h3 : c = '\x08'
    · rw [show escChar c = ['\\', 'b'] from by rw [h3]; rfl]
      exact scan_esc2_chunk cs rest i d 'b' ih
    by_cases h4 : c = '\x0c'
    · rw [show escChar c = ['\\', 'f'] from by rw [h4]; rfl]
      exact scan_esc2_chunk cs rest i d 'f' ih
    by_cases h5 : c = '\n'
    · rw [show escChar c = ['\\', 'n'] from by rw [h5]; rfl]
      exact scan_esc2_chunk cs rest i d 'n' ih
    by_cases h6 : c = '\r'
    · rw [show escChar c = ['\\', 'r'] from by rw [h6]; rfl]
      exact scan_esc2_chunk cs rest i d 'r' ih
    by_cases h7 : c = '\t'
    · rw [show escChar c = ['\\', 't'] from by rw [h7]; rfl]
      exact scan_esc2_chunk cs rest i d 't' ih
    by_cases h8 : c.toNat < 0x20
    · rw [show escChar c = ['\\', 'u', '0', '0', hexDigitChar (c.toNat / 16),
            hexDigitChar (c.toNat % 16)] from by
          simp [escChar, h1, h2, h3, h4, h5, h6, h7, h8]]
      exact scan_escU_chunk cs rest i d _ _
        (hexDigitChar_plain (c.toNat / 16) (by omega))
        (hexDigitChar_plain (c.toNat % 16) (by omega)) ih
    · rw [show escChar c = [c] from by simp [escChar, h1, h2, h3, h4, h5, h6, h7, h8]]
      rw [show ([c] ++ (escStr cs ++ '"' :: rest)) = c :: (escStr cs ++ '"' :: rest) from rfl,
          scan_plain c h1 h2, ih]
      congr 1
      simp
      omega

theorem scanNeutral_qstr (s : List Char) : ScanNeutral (qstr s) := by
  intro rest i d _
  have hsplit : qstr s ++ rest = '"' :: (escStr s ++ '"' :: rest) := by simp [qstr]
  rw [hsplit]
  have h1 : findJsonObjectEndAux ('"' :: (escStr s ++ '"' :: rest)) i d false false =
      findJsonObjectEndAux (escStr s ++ '"' :: rest) (i + 1) d true false := by
    simp [findJsonObjectEndAux]
  rw [h1, scan_escStr s rest (i + 1) d]
  have hidx : (i + 1) + (escStr s).length + 1 = i + (qstr s).length := by
    simp only [qstr, List.length_cons, List.length_append, List.length_nil]
    omega
  rw [hidx]

theorem scanNeutral_braces (inner : List Char) (h : ScanNeutral inner) :
    ScanNeutral ('\x7b' :: (inner ++ ['\x7d'])) := by
  intro rest i d hd
  have hsplit : ('\x7b' :: (inner ++ ['\x7d'])) ++ rest =
      '\x7b' :: (inner ++ ('\x7d' :: rest)) := by simp
  rw [hsplit]
  have h1 : findJsonObjectEndAux ('\x7b' :: (inner ++ '\x7d' :: rest)) i d false false =
      findJsonObjectEndAux (inner ++ '\x7d' :: rest) (i + 1) (d + 1) false false := by
    simp [findJsonObjectEndAux]
  rw [h1, h ('\x7d' :: rest) (i + 1) (d + 1) (by omega)]
  have h2 : findJsonObjectEndAux ('\x7d' :: rest) (i + 1 + inner.length) (d + 1) false false =
      findJsonObjectEndAux rest (i + 1 + inner.length + 1) d false false := by
    have hne : ¬(d = 0) := by omega
    simp [findJsonObjectEndAux, hne]
  rw [h2]
  have hidx : i + 1 + inner.length + 1 = i + ('\x7b' :: (inner ++ ['\x7d'])).length := by
    simp only [List.length_cons, List.length_append, List.length_nil]
    omega
  rw [hidx]

theorem natChars_digits (n : Nat) : ∀ c ∈ natChars n, isAsciiDigit c = true := by
  induction n using Nat.strong_induction_on with
  | _ n ih =>
    by_cases h : n < 10
    · rw [natChars, dif_pos h]
      intro c hc
      rw [List.mem_singleton] at hc
      subst hc
      interval_cases n <;> decide
    · rw [natChars, dif_neg h]
      intro c hc
      rcases List.mem_append.mp hc with h1 | h1
      · exact ih (n / 10) (Nat.div_lt_self (by omega) (by omega)) c h1
      · rw [List.mem_singleton] at h1
        subst h1
        have hm : n % 10 < 10 := Nat.mod_lt _ (by omega)
        generalize hg : n % 10 = m
        rw [hg] at hm
        interval_cases m <;> decide

theorem digit_safe (c : Char) (h : isAsciiDigit c = true) :
    c ≠ '"' ∧ c ≠ '\x7b' ∧ c ≠ '\x7d' := by
  refine ⟨?_, ?_, ?_⟩ <;> (rintro rfl; revert h; decide)

theorem intChars_chars (n : Int) : ∀ c ∈ intChars n, c = '-' ∨ isAsciiDigit c = true := by
  intro c hc
  unfold intChars at hc
  split at hc
  · rcases List.mem_cons.mp hc with h | h
    · exact Or.inl h
    · exact Or.inr (natChars_digits _ c h)
  · exact Or.inr (natChars_digits _ c hc)

theorem scanNeutral_intChars (n : Int) : ScanNeutral (intChars n) := by
  apply scanNeutral_of_safe
  intro c hc
  rcases intChars_chars n c hc with rfl | h
  · exact ⟨by decide, by decide, by decide⟩
  · exact digit_safe c h

theorem scanNeutral_decomp (l a b c : List Char) (he : l = a ++ (qstr b ++ c))
    (ha : ∀ x ∈ a, x ≠ '"' ∧ x ≠ '\x7b' ∧ x ≠ '\x7d')
    (hc : ScanNeutral c) : ScanNeutral l := by
  rw [he]
  exact scanNeutral_append (scanNeutral_of_safe a ha)
    (scanNeutral_append (scanNeutral_qstr b) hc)

theorem scanNeutral_boolLit (b : Bool) :
    ScanNeutral (if b then "true".data else "false".data) := by
  cases b <;> exact scanNeutral_of_safe _ (by decide)

theorem stepChars_shape (s : PlanStep) :
    stepChars s = '\x7b' :: (("\n      \"id\": ".data ++ intChars s.id ++
      ",\n      \"text\": ".data ++ qstr s.text.data ++
      ",\n      \"done\": ".data ++ (if s.done then "true".data else "false".data) ++
      "\n    ".data) ++ ['\x7d']) := by
  unfold stepChars
  rw [show "\x7b\n      \"id\": ".data = '\x7b' :: "\n      \"id\": ".data from rfl,
      show "\n    \x7d".data = "\n    ".data ++ ['\x7d'] from rfl]
  simp [List.append_assoc]

theorem scanNeutral_stepChars (s : PlanStep) : ScanNeutral (stepChars s) := by
  rw [stepChars_shape]
  apply scanNeutral_braces
  refine scanNeutral_append (scanNeutral_append (scanNeutral_append (scanNeutral_append
    (scanNeutral_append (scanNeutral_append ?_ (scanNeutral_intChars s.id)) ?_)
    (scanNeutral_qstr s.text.data)) ?_) (scanNeutral_boolLit s.done)) ?_
  · exact scanNeutral_decomp _ "\n      ".data "id".data ": ".data rfl
      (by decide) (scanNeutral_of_safe _ (by decide))
  · exact scanNeutral_decomp _ ",\n      ".data "text".data ": ".data rfl
      (by decide) (scanNeutral_of_safe _ (by decide))
  · exact scanNeutral_decomp _ ",\n      ".data "done".data ": ".data rfl
      (by decide) (scanNeutral_of_safe _ (by decide))
  · exact scanNeutral_of_safe _ (by decide)

theorem scanNeutral_stepsJoin (steps : List PlanStep) : ScanNeutral (stepsJoin steps) := by
  induction steps with
  | nil => exact scanNeutral_nil
  | cons s ss ih =>
    cases ss with
    | nil => exact scanNeutral_stepChars s
    | cons s2 ss2 =>
      rw [show stepsJoin (s :: s2 :: ss2) =
            stepChars s ++ ",\n    ".data ++ stepsJoin (s2 :: ss2) from rfl]
      exact scanNeutral_append (scanNeutral_append (scanNeutral_stepChars s)
        (scanNeutral_of_safe _ (by decide))) ih

theorem scanNeutral_stepsArrayChars (steps : List PlanStep) :
    ScanNeutral (stepsArrayChars steps) := by
  cases steps with
  | nil => exact scanNeutral_of_safe _ (by decide)
  | cons s ss =>
    rw [show stepsArrayChars (s :: ss) =
          "[\n    ".data ++ stepsJoin (s :: ss) ++ "\n  ]".data from rfl]
    exact scanNeutral_append (scanNeutral_append (scanNeutral_of_safe _ (by decide))
      (scanNeutral_stepsJoin _)) (scanNeutral_of_safe _ (by decide))

/-- Everything of `stringifyPlan` strictly between the outer braces. -/
def stringifyInner (p : PlanRecord) : List Char :=
  "\n  \"id\": ".data ++ qstr p.id.data ++
  ",\n  \"title\": ".data ++ qstr p.title.data ++
  ",\n  \"status\": ".data ++ qstr p.status.data ++
  ",\n  \"created_at\": ".data ++ qstr p.created_at.data ++
  (match p.assigned_to_session with
   | some a => if a = "" then [] else ",\n  \"assigned_to_session\": ".data ++ qstr a.data
   | none => []) ++
  ",\n  \"steps\": ".data ++ stepsArrayChars p.steps ++ "\n".data

theorem stringifyPlan_shape (p : PlanRecord) :
    stringifyPlan p = '\x7b' :: (stringifyInner p ++ ['\x7d']) := by
  unfold stringifyPlan stringifyInner
  rw [show "\x7b\n  \"id\": ".data = '\x7b' :: "\n  \"id\": ".data from rfl,
      show "\n\x7d".data = "\n".data ++ ['\x7d'] from rfl]
  simp [List.append_assoc]

theorem scanNeutral_assigned (o : Option String) :
    ScanNeutral (match o with
      | some a => if a = "" then [] else ",\n  \"assigned_to_session\": ".data ++ qstr a.data
      | none => []) := by
  cases o with
  | none => exact scanNeutral_nil
  | some a =>
    dsimp only
    by_cases ha : a = ""
    · rw [if_pos ha]
      exact scanNeutral_nil
    · rw [if_neg ha]
      exact scanNeutral_decomp _ ",\n  ".data "assigned_to_session".data
        (": ".data ++ qstr a.data) rfl (by decide)
        (scanNeutral_append (scanNeutral_of_safe _ (by decide)) (scanNeutral_qstr a.data))

theorem scanNeutral_stringifyInner (p : PlanRecord) : ScanNeutral (stringifyInner p) := by
  unfold stringifyInner
  refine scanNeutral_append (scanNeutral_append (scanNeutral_append (scanNeutral_append
    (scanNeutral_append (scanNeutral_append (scanNeutral_append (scanNeutral_append
    (scanNeutral_append (scanNeutral_append (scanNeutral_append
      ?_ (scanNeutral_qstr p.id.data)) ?_) (scanNeutral_qstr p.title.data)) ?_)
      (scanNeutral_qstr p.status.data)) ?_) (scanNeutral_qstr p.created_at.data))
      (scanNeutral_assigned p.assigned_to_session)) ?_)
      (scanNeutral_stepsArrayChars p.steps)) ?_
  · exact scanNeutral_decomp _ "\n  ".data "id".data ": ".data rfl
      (by decide) (scanNeutral_of_safe _ (by decide))
  · exact scanNeutral_decomp _ ",\n  ".data "title".data ": ".data rfl
      (by decide) (scanNeutral_of_safe _ (by decide))
  · exact scanNeutral_decomp _ ",\n  ".data "status".data ": ".data rfl
      (by decide) (scanNeutral_of_safe _ (by decide))
  · exact scanNeutral_decomp _ ",\n  ".data "created_at".data ": ".data rfl
      (by decide) (scanNeutral_of_safe _ (by decide))
  · exact scanNeutral_decomp _ ",\n  ".data "steps".data ": ".data rfl
      (by decide) (scanNeutral_of_safe _ (by decide))
  · exact scanNeutral_of_safe _ (by decide)

theorem findJsonObjectEnd_stringify (p : PlanRecord) (rest : List Char) :
    findJsonObjectEndAux (stringifyPlan p ++ rest) 0 0 false false =
      ((stringifyPlan p).length : Int) - 1 := by
  rw [stringifyPlan_shape]
  have hsplit : ('\x7b' :: (stringifyInner p ++ ['\x7d'])) ++ rest =
      '\x7b' :: (stringifyInner p ++ ('\x7d' :: rest)) := by simp
  rw [hsplit]
  have h1 : findJsonObjectEndAux ('\x7b' :: (stringifyInner p ++ '\x7d' :: rest))
        0 0 false false =
      findJsonObjectEndAux (stringifyInner p ++ '\x7d' :: rest) 1 1 false false := by
    simp [findJsonObjectEndAux]
  rw [h1, scanNeutral_stringifyInner p ('\x7d' :: rest) 1 1 (by omega)]
  have h2 : findJsonObjectEndAux ('\x7d' :: rest) (1 + (stringifyInner p).length)
        1 false false =
      ((1 + (stringifyInner p).length : Nat) : Int) := by
    simp [findJsonObjectEndAux]
  rw [h2]
  simp only [List.length_cons, List.length_append, List.length_nil]
  push_cast
  omega

/-! Phase two: `splitFrontMatter` recovers the stringified object and the
trimmed body from `serializePlan`'s output. -/

theorem dropWhile_head_false {α : Type} (p : α → Bool) (l : List α) (c : α)
    (h : (l.dropWhile p).head? = some c) : p c = false := by
  induction l with
  | nil => simp [List.dropWhile] at h
  | cons a t ih =>
    rw [List.dropWhile_cons] at h
    by_cases hp : p a = true
    · exact ih (by simpa [hp] using h)
    · rw [if_neg hp] at h
      rw [List.head?_cons, Option.some_inj] at h
      subst h
      exact Bool.not_eq_true _ |>.mp hp

theorem isPrefix_head? {α : Type} {a b : List α} (h : a <+: b) (c : α)
    (hc : a.head? = some c) : b.head? = some c := by
  obtain ⟨t, rfl⟩ := h
  cases a with
  | nil => simp at hc
  | cons x xs => simpa using hc

theorem stripTrailingWs_prefix (l : List Char) : stripTrailingWs l <+: l := by
  have h : (l.reverse.dropWhile isJsSpace).reverse <+: l.reverse.reverse :=
    List.reverse_prefix.mpr (List.dropWhile_suffix isJsSpace)
  simpa using h

theorem bodyTrim_head (l : List Char) (c : Char)
    (h : (bodyTrim l).head? = some c) : (c = '\n') = False := by
  have hpre : stripTrailingWs (l.dropWhile (fun x => x = '\n')) <+:
      l.dropWhile (fun x => x = '\n') := stripTrailingWs_prefix _
  have h2 : (l.dropWhile (fun x => x = '\n')).head? = some c :=
    isPrefix_head? hpre c h
  have h3 := dropWhile_head_false (fun x => x = '\n') l c h2
  simpa using h3

theorem bodyTrim_reverse (l : List Char) :
    (bodyTrim l).reverse.dropWhile isJsSpace = (bodyTrim l).reverse := by
  unfold bodyTrim stripTrailingWs
  rw [List.reverse_reverse]
  cases hh : ((l.dropWhile (fun x => x = '\n')).reverse.dropWhile isJsSpace).head? with
  | none =>
    rw [List.head?_eq_none_iff] at hh
    rw [hh]
    rfl
  | some c =>
    have hc := dropWhile_head_false isJsSpace _ c hh
    cases he : (l.dropWhile (fun x => x = '\n')).reverse.dropWhile isJsSpace with
    | nil => rfl
    | cons x xs =>
      rw [he] at hh
      rw [List.head?_cons, Option.some_inj] at hh
      subst hh
      rw [List.dropWhile_cons, if_neg (by simp [hc])]

theorem bodyTrim_append_newline (l : List Char) (hne : bodyTrim l ≠ []) :
    bodyTrim (bodyTrim l ++ ['\n']) = bodyTrim l := by
  obtain ⟨c, t, hct⟩ : ∃ c t, bodyTrim l = c :: t := by
    cases h : bodyTrim l with
    | nil => exact absurd h hne
    | cons c t => exact ⟨c, t, rfl⟩
  have hcn : (c = '\n') = False := bodyTrim_head l c (by rw [hct]; rfl)
  have hdw : (bodyTrim l ++ ['\n']).dropWhile (fun x => x = '\n') =
      bodyTrim l ++ ['\n'] := by
    rw [hct, List.cons_append, List.dropWhile_cons, if_neg (by simp [hcn]),
        ← List.cons_append, ← hct]
  show stripTrailingWs ((bodyTrim l ++ ['\n']).dropWhile (fun x => x = '\n')) = bodyTrim l
  rw [hdw]
  unfold stripTrailingWs
  rw [List.reverse_append,
      show (['\n'] : List Char).reverse = ['\n'] from rfl,
      show (['\n'] : List Char) ++ (bodyTrim l).reverse = '\n' :: (bodyTrim l).reverse from rfl,
      List.dropWhile_cons, if_pos (by decide), bodyTrim_reverse l, List.reverse_reverse]

theorem serializePlan_split (p : PlanRecord) :
    splitFrontMatter (serializePlan p).data =
      (stringifyPlan p,
       if bodyTrim p.body.data = [] then [] else bodyTrim p.body.data ++ ['\n']) := by
  have hlen2 : 2 ≤ (stringifyPlan p).length := by
    rw [stringifyPlan_shape]
    simp
  by_cases htb : bodyTrim p.body.data = []
  · have hser : (serializePlan p).data = stringifyPlan p ++ ['\n'] := by
      simp only [serializePlan]
      rw [if_pos htb]
    rw [hser, if_pos htb]
    simp only [splitFrontMatter]
    rw [if_pos (show (stringifyPlan p ++ ['\n']).head? = some '\x7b' by
      rw [stringifyPlan_shape]; rfl)]
    unfold findJsonObjectEnd
    rw [findJsonObjectEnd_stringify p ['\n']]
    rw [if_neg (by omega)]
    have htn2 : (((stringifyPlan p).length : Int) - 1).toNat + 1 =
        (stringifyPlan p).length := by omega
    rw [htn2, List.take_left' rfl, List.drop_left' rfl]
    rfl
  · have hser : (serializePlan p).data =
        stringifyPlan p ++ '\n' :: '\n' :: (bodyTrim p.body.data ++ ['\n']) := by
      simp only [serializePlan]
      rw [if_neg htb]
    rw [hser, if_neg htb]
    simp only [splitFrontMatter]
    rw [if_pos (show (stringifyPlan p ++
        '\n' :: '\n' :: (bodyTrim p.body.data ++ ['\n'])).head? = some '\x7b' by
      rw [stringifyPlan_shape]; rfl)]
    unfold findJsonObjectEnd
    rw [findJsonObjectEnd_stringify p _]
    rw [if_neg (by omega)]
    have htn2 : (((stringifyPlan p).length : Int) - 1).toNat + 1 =
        (stringifyPlan p).length := by omega
    rw [htn2, List.take_left' rfl, List.drop_left' rfl]
    obtain ⟨c, t, hct⟩ : ∃ c t, bodyTrim p.body.data = c :: t := by
      cases h : bodyTrim p.body.data with
      | nil => exact absurd h htb
      | cons c t => exact ⟨c, t, rfl⟩
    have hcn : (c = '\n') = False := bodyTrim_head p.body.data c (by rw [hct]; rfl)
    show (stringifyPlan p,
        List.dropWhile (fun x => x = '\n')
          ('\n' :: (bodyTrim p.body.data ++ ['\n']))) = _
    rw [List.dropWhile_cons, if_pos (by decide), hct, List.cons_append,
        List.dropWhile_cons, if_neg (by simp [hcn]), ← List.cons_append, ← hct]

/-! Phase three: the parser evaluated on serializer output.  Component
lemmas for string bodies and numerals first. -/

theorem skipWs_cons_not (c : Char) (cs : List Char) (h : isJsonWs c = false) :
    skipWs (c :: cs) = c :: cs := by
  simp [skipWs, h]

theorem skipWs_append_ws (a : List Char) (h : ∀ c ∈ a, isJsonWs c = true)
    (r : List Char) : skipWs (a ++ r) = skipWs r := by
  induction a with
  | nil => rfl
  | cons c t ih =>
    rw [List.cons_append]
    show skipWs (c :: (t ++ r)) = skipWs r
    rw [show skipWs (c :: (t ++ r)) = if isJsonWs c then skipWs (t ++ r)
          else c :: (t ++ r) from rfl,
        if_pos (h c (by simp)), ih (fun x hx => h x (by simp [hx]))]

theorem parseHexDigit_hexDigitChar : ∀ n < 16, parseHexDigit (hexDigitChar n) = some n := by
  decide

theorem parseStrBody_esc_quote (t : List Char) :
    parseStrBody ('\\' :: '"' :: t) = mapCons '"' (parseStrBody t) := by
  rw [parseStrBody.eq_def]
  simp

theorem parseStrBody_esc_backslash (t : List Char) :
    parseStrBody ('\\' :: '\\' :: t) = mapCons '\\' (parseStrBody t) := by
  rw [parseStrBody.eq_def]
  simp

theorem parseStrBody_esc_b (t : List Char) :
    parseStrBody ('\\' :: 'b' :: t) = mapCons '\x08' (parseStrBody t) := by
  rw [parseStrBody.eq_def]
  simp

theorem parseStrBody_esc_f (t : List Char) :
    parseStrBody ('\\' :: 'f' :: t) = mapCons '\x0c' (parseStrBody t) := by
  rw [parseStrBody.eq_def]
  simp

theorem parseStrBody_esc_n (t : List Char) :
    parseStrBody ('\\' :: 'n' :: t) = mapCons '\n' (parseStrBody t) := by
  rw [parseStrBody.eq_def]
  simp

theorem parseStrBody_esc_r (t : List Char) :
    parseStrBody ('\\' :: 'r' :: t) = mapCons '\r' (parseStrBody t) := by
  rw [parseStrBody.eq_def]
  simp

theorem parseStrBody_esc_t (t : List Char) :
    parseStrBody ('\\' :: 't' :: t) = mapCons '\t' (parseStrBody t) := by
  rw [parseStrBody.eq_def]
  simp

theorem parseStrBody_escU (g1 g2 g3 g4 : Char) (t : List Char) :
    parseStrBody ('\\' :: 'u' :: g1 :: g2 :: g3 :: g4 :: t) =
      (match parseHexDigit g1, parseHexDigit g2, parseHexDigit g3, parseHexDigit g4 with
       | some d1, some d2, some d3, some d4 =>
         let code := ((d1 * 16 + d2) * 16 + d3) * 16 + d4
         if code < 0xD800 || 0xDFFF < code then
           mapCons (Char.ofNat code) (parseStrBody t)
         else none
       | _, _, _, _ => none) := by
  rw [parseStrBody.eq_def]
  simp

theorem parseStrBody_plain (c : Char) (t : List Char) (h1 : c ≠ '"') (h2 : c ≠ '\\')
    (h8 : ¬c.toNat < 0x20) :
    parseStrBody (c :: t) = mapCons c (parseStrBody t) := by
  rw [parseStrBody.eq_def]
  dsimp only
  rw [if_neg h1, if_neg h2, if_neg h8]

theorem parseStrBody_escStr (s : List Char) : ∀ (rest : List Char),
    parseStrBody (escStr s ++ '"' :: rest) = some (s, rest) := by
  induction s with
  | nil =>
    intro rest
    rw [show escStr [] ++ '"' :: rest = '"' :: rest from rfl, parseStrBody.eq_def]
    simp
  | cons c cs ih =>
    intro rest
    have hsplit : escStr (c :: cs) ++ '"' :: rest =
        escChar c ++ (escStr cs ++ '"' :: rest) := by
      simp [escStr]
    rw [hsplit]
    by_cases h1 : c = '"'
    · rw [show escChar c = ['\\', '"'] from by rw [h1]; rfl]
      rw [show (['\\', '"'] ++ (escStr cs ++ '"' :: rest)) =
            '\\' :: '"' :: (escStr cs ++ '"' :: rest) from rfl]
      rw [parseStrBody_esc_quote, ih rest, h1]
      rfl
    by_cases h2 : c = '\\'
    · rw [show escChar c = ['\\', '\\'] from by rw [h2]; rfl]
      rw [show (['\\', '\\'] ++ (escStr cs ++ '"' :: rest)) =
            '\\' :: '\\' :: (escStr cs ++ '"' :: rest) from rfl]
      rw [parseStrBody_esc_backslash, ih rest, h2]
      rfl
    by_cases h3 : c = '\x08'
    · rw [show escChar c = ['\\', 'b'] from by rw [h3]; rfl]
      rw [show (['\\', 'b'] ++ (escStr cs ++ '"' :: rest)) =
            '\\' :: 'b' :: (escStr cs ++ '"' :: rest) from rfl]
      rw [parseStrBody_esc_b, ih rest, h3]
      rfl
    by_cases h4 : c = '\x0c'
    · rw [show escChar c = ['\\', 'f'] from by rw [h4]; rfl]
      rw [show (['\\', 'f'] ++ (escStr cs ++ '"' :: rest)) =
            '\\' :: 'f' :: (escStr cs ++ '"' :: rest) from rfl]
      rw [parseStrBody_esc_f, ih rest, h4]
      rfl
    by_cases h5 : c = '\n'
    · rw [show escChar c = ['\\', 'n'] from by rw [h5]; rfl]
      rw [show (['\\', 'n'] ++ (escStr cs ++ '"' :: rest)) =
            '\\' :: 'n' :: (escStr cs ++ '"' :: rest) from rfl]
      rw [parseStrBody_esc_n, ih rest, h5]
      rfl
    by_cases h6 : c = '\r'
    · rw [show escChar c = ['\\', 'r'] from by rw [h6]; rfl]
      rw [show (['\\', 'r'] ++ (escStr cs ++ '"' :: rest)) =
            '\\' :: 'r' :: (escStr cs ++ '"' :: rest) from rfl]
      rw [parseStrBody_esc_r, ih rest, h6]
      rfl
    by_cases h7 : c = '\t'
    · rw [show escChar c = ['\\', 't'] from by rw [h7]; rfl]
      rw [show (['\\', 't'] ++ (escStr cs ++ '"' :: rest)) =
            '\\' :: 't' :: (escStr cs ++ '"' :: rest) from rfl]
      rw [parseStrBody_esc_t, ih rest, h7]
      rfl
    by_cases h8 : c.toNat < 0x20
    · rw [show escChar c = ['\\', 'u', '0', '0', hexDigitChar (c.toNat / 16),
            hexDigitChar (c.toNat % 16)] from by
          simp [escChar, h1, h2, h3, h4, h5, h6, h7, h8]]
      rw [show (['\\', 'u', '0', '0', hexDigitChar (c.toNat / 16),
            hexDigitChar (c.toNat % 16)] ++ (escStr cs ++ '"' :: rest)) =
            '\\' :: 'u' :: '0' :: '0' :: hexDigitChar (c.toNat / 16) ::
              hexDigitChar (c.toNat % 16) :: (escStr cs ++ '"' :: rest) from rfl]
      rw [parseStrBody_escU, parseHexDigit_hexDigitChar (c.toNat / 16) (by omega),
          parseHexDigit_hexDigitChar (c.toNat % 16) (by omega),
          show parseHexDigit '0' = some 0 from by rw [parseHexDigit]; simp]
      have hcode : ((0 * 16 + 0) * 16 + c.toNat / 16) * 16 + c.toNat % 16 = c.toNat := by
        omega
      dsimp only
      rw [hcode]
      rw [if_pos (show (decide (c.toNat < 0xD800) || decide (0xDFFF < c.toNat)) = true by
            simp only [Bool.or_eq_true, decide_eq_true_eq]
            left
            omega),
          Char.ofNat_toNat, ih rest]
      rfl
    · rw [show escChar c = [c] from by simp [escChar, h1, h2, h3, h4, h5, h6, h7, h8]]
      rw [show ([c] ++ (escStr cs ++ '"' :: rest)) = c :: (escStr cs ++ '"' :: rest) from rfl]
      rw [parseStrBody_plain c _ h1 h2 h8, ih rest]
      rfl

theorem takeDigits_all (ds : List Char) (hds : ∀ c ∈ ds, isAsciiDigit c = true) :
    ∀ (r : List Char), (∀ c, r.head? = some c → isAsciiDigit c = false) →
      takeDigits (ds ++ r) = (ds, r) := by
  induction ds with
  | nil =>
    intro r hr
    cases r with
    | nil => rfl
    | cons c t =>
      show takeDigits (c :: t) = ([], c :: t)
      rw [takeDigits, if_neg (by simp [hr c rfl])]
  | cons d ds' ih =>
    intro r hr
    rw [List.cons_append, takeDigits, if_pos (hds d (by simp)),
        ih (fun x hx => hds x (by simp [hx])) r hr]

theorem digitsVal_append_digit (ds : List Char) (c : Char) :
    digitsVal (ds ++ [c]) = 10 * digitsVal ds + (c.toNat - '0'.toNat) := by
  simp [digitsVal, List.foldl_append]

theorem digitsVal_natChars (n : Nat) : digitsVal (natChars n) = n := by
  induction n using Nat.strong_induction_on with
  | _ n ih =>
    by_cases h : n < 10
    · rw [natChars, dif_pos h, show ('0'.toNat : Nat) = 48 from rfl]
      have h0 : (Char.ofNat (48 + n)).toNat = 48 + n := by
        have hm : n < 10 := h
        generalize hg : n = m at hm ⊢
        interval_cases m <;> decide
      simp only [digitsVal, List.foldl_cons, List.foldl_nil]
      rw [show ('0'.toNat : Nat) = 48 from rfl, h0]
      omega
    · rw [natChars, dif_neg h, digitsVal_append_digit,
          ih (n / 10) (Nat.div_lt_self (by omega) (by omega)),
          show ('0'.toNat : Nat) = 48 from rfl]
      have h0 : (Char.ofNat (48 + n % 10)).toNat = 48 + n % 10 := by
        have hm : n % 10 < 10 := Nat.mod_lt _ (by omega)
        generalize hg : n % 10 = m at hm ⊢
        interval_cases m <;> decide
      rw [h0]
      omega

theorem natChars_ne_nil (n : Nat) : natChars n ≠ [] := by
  rw [natChars]
  split
  · simp
  · simp

theorem natChars_head_zero (n : Nat) (h : (natChars n).head? = some '0') : n = 0 := by
  induction n using Nat.strong_induction_on with
  | _ n ih =>
    by_cases hn : n < 10
    · rw [natChars, dif_pos hn] at h
      rw [List.head?_cons, Option.some_inj] at h
      have hm : n < 10 := hn
      generalize hg : n = m at hm h ⊢
      interval_cases m <;> first
        | rfl
        | (exfalso; revert h; decide)
    · rw [natChars, dif_neg hn] at h
      exfalso
      cases he : natChars (n / 10) with
      | nil => exact natChars_ne_nil _ he
      | cons a t =>
        rw [he, List.cons_append, List.head?_cons, Option.some_inj] at h
        have : (natChars (n / 10)).head? = some '0' := by
          rw [he, List.head?_cons, h]
        have h0 := ih (n / 10) (Nat.div_lt_self (by omega) (by omega)) this
        omega

theorem natChars_long_head (n : Nat) (hlen : 1 < (natChars n).length) :
    ¬(natChars n).head? = some '0' := by
  intro h
  have h0 := natChars_head_zero n h
  subst h0
  rw [show natChars 0 = ['0'] from by rw [natChars]; rfl] at hlen
  simp at hlen

theorem parseFrac_not_dot (l : List Char) (h : ∀ c, l.head? = some c → ¬c = '.') :
    parseFrac l = some ([], l) := by
  cases l with
  | nil => rfl
  | cons c t =>
    rw [parseFrac.eq_def]
    split
    · rename_i r heq
      exact absurd (List.cons.inj heq).1 (h c rfl)
    · rfl

theorem parseExp_not_e (l : List Char) (h : ∀ c, l.head? = some c → ¬c = 'e' ∧ ¬c = 'E') :
    parseExp l = some (0, l) := by
  cases l with
  | nil => rfl
  | cons c t =>
    have hc := h c rfl
    rw [parseExp.eq_def]
    dsimp only
    rw [if_neg (by simp [hc.1, hc.2])]

/-- The body of `parseNumber` after the sign has been split off. -/
def parseNumberCore (neg : Bool) (cs1 : List Char) : Option (Rat × List Char) :=
  match takeDigits cs1 with
  | ([], _) => none
  | (ds, r1) =>
    if 1 < ds.length && ds.head? = some '0' then none
    else
      match parseFrac r1 with
      | none => none
      | some (fds, r2) =>
        match parseExp r2 with
        | none => none
        | some (e, r3) =>
          let mant : Int := ((digitsVal ds * 10 ^ fds.length + digitsVal fds : Nat) : Int)
          let mant : Int := if neg then -mant else mant
          let e2 : Int := e - (fds.length : Int)
          if e2 = 0 then some ((mant : Rat), r3)
          else if 0 ≤ e2 then some (((mant * 10 ^ e2.toNat : Int) : Rat), r3)
          else some (mkRat mant (10 ^ (-e2).toNat), r3)

theorem parseNumber_core_neg (r : List Char) :
    parseNumber ('-' :: r) = parseNumberCore true r := rfl

theorem parseNumber_core_nosign (c : Char) (t : List Char) (h : ¬c = '-') :
    parseNumber (c :: t) = parseNumberCore false (c :: t) := by
  rw [parseNumber.eq_def]
  split
  rename_i x neg cs1 heq
  split at heq
  · rename_i r heq2
    exact absurd (List.cons.inj heq2).1 h
  · rw [(Prod.mk.inj heq).1.symm, (Prod.mk.inj heq).2.symm]
    rfl

theorem parseNumberCore_natChars (neg : Bool) (m : Nat) (rest : List Char)
    (hr : ∀ c, rest.head? = some c → isAsciiDigit c = false ∧ ¬c = '.' ∧
      ¬c = 'e' ∧ ¬c = 'E') :
    parseNumberCore neg (natChars m ++ rest) =
      some (((if neg then -(m : Int) else (m : Int)) : Rat), rest) := by
  obtain ⟨c, t, hct⟩ : ∃ c t, natChars m = c :: t := by
    cases h : natChars m with
    | nil => exact absurd h (natChars_ne_nil m)
    | cons c t => exact ⟨c, t, rfl⟩
  have htd : takeDigits (c :: t ++ rest) = (c :: t, rest) := by
    rw [← hct]
    exact takeDigits_all (natChars m) (natChars_digits m) rest (fun x hx => (hr x hx).1)
  have hdv : digitsVal (c :: t) = m := by
    rw [← hct]
    exact digitsVal_natChars m
  have hfrac : parseFrac rest = some ([], rest) :=
    parseFrac_not_dot rest (fun x hx => (hr x hx).2.1)
  have hexp : parseExp rest = some (0, rest) :=
    parseExp_not_e rest (fun x hx => ⟨(hr x hx).2.2.1, (hr x hx).2.2.2⟩)
  rw [parseNumberCore.eq_def, hct, htd]
  dsimp only
  rw [if_neg (show ¬((decide (1 < (c :: t).length) &&
        decide ((c :: t).head? = some '0')) = true) by
    rw [Bool.and_eq_true, decide_eq_true_eq, decide_eq_true_eq]
    intro hco
    rw [← hct] at hco
    exact natChars_long_head m hco.1 hco.2)]
  rw [hfrac]
  dsimp only
  rw [hexp]
  dsimp only
  rw [hdv]
  norm_num [digitsVal]

theorem parseNumber_intChars (n : Int) (rest : List Char)
    (hr : ∀ c, rest.head? = some c → isAsciiDigit c = false ∧ ¬c = '.' ∧
      ¬c = 'e' ∧ ¬c = 'E') :
    parseNumber (intChars n ++ rest) = some ((n : Rat), rest) := by
  by_cases hn : n < 0
  · rw [show intChars n = '-' :: natChars n.natAbs from by rw [intChars, if_pos hn],
        List.cons_append, parseNumber_core_neg,
        parseNumberCore_natChars true n.natAbs rest hr]
    rw [if_pos rfl, show (-(((n.natAbs : Int)) : Rat)) = ((n : Rat)) from by
      exact_mod_cast (show (-(n.natAbs : Int)) = n by omega)]
  · rw [show intChars n = natChars n.toNat from by rw [intChars, if_neg hn]]
    obtain ⟨c, t, hct⟩ : ∃ c t, natChars n.toNat = c :: t := by
      cases h : natChars n.toNat with
      | nil => exact absurd h (natChars_ne_nil _)
      | cons c t => exact ⟨c, t, rfl⟩
    have hcd : isAsciiDigit c = true := natChars_digits n.toNat c (by rw [hct]; simp)
    have hcm : ¬c = '-' := by
      rintro rfl
      revert hcd
      decide
    rw [hct, List.cons_append, parseNumber_core_nosign c (t ++ rest) hcm,
        show c :: (t ++ rest) = (c :: t) ++ rest from rfl, ← hct,
        parseNumberCore_natChars false n.toNat rest hr]
    rw [if_neg (by simp), show ((((n.toNat : Int)) : Rat)) = ((n : Rat)) from by
      exact_mod_cast (show (((n.toNat : Int))) = n by omega)]

theorem skipWs_cons_ws (c : Char) (cs : List Char) (h : isJsonWs c = true) :
    skipWs (c :: cs) = skipWs cs := by
  rw [skipWs, if_pos h]

theorem numStart_safe (c : Char) (h : c = '-' ∨ isAsciiDigit c = true) :
    isJsonWs c = false ∧ ¬c = 'n' ∧ ¬c = 't' ∧ ¬c = 'f' ∧ ¬c = '"' ∧
      ¬c = '\x7b' ∧ ¬c = '[' := by
  rcases h with rfl | h
  · decide
  · refine ⟨?_, ?_, ?_, ?_, ?_, ?_, ?_⟩
    · cases hw : isJsonWs c
      · rfl
      · exfalso
        simp only [isJsonWs, Bool.or_eq_true, decide_eq_true_eq] at hw
        rcases hw with ((rfl | rfl) | rfl) | rfl <;> revert h <;> decide
    · rintro rfl; revert h; decide
    · rintro rfl; revert h; decide
    · rintro rfl; revert h; decide
    · rintro rfl; revert h; decide
    · rintro rfl; revert h; decide
    · rintro rfl; revert h; decide

theorem intChars_ne_nil (n : Int) : intChars n ≠ [] := by
  rw [intChars]
  split
  · simp
  · exact natChars_ne_nil _

theorem skipWs_intChars (n : Int) (r : List Char) :
    skipWs (intChars n ++ r) = intChars n ++ r := by
  obtain ⟨c, t, hct⟩ : ∃ c t, intChars n = c :: t := by
    cases he : intChars n with
    | nil => exact absurd he (intChars_ne_nil n)
    | cons c t => exact ⟨c, t, rfl⟩
  have hsafe := numStart_safe c (intChars_chars n c (by rw [hct]; simp))
  rw [hct, List.cons_append, skipWs_cons_not c _ hsafe.1]

theorem numStop_of_head (r : List Char) (c0 : Char) (t0 : List Char) (hr : r = c0 :: t0)
    (hc : isAsciiDigit c0 = false ∧ ¬c0 = '.' ∧ ¬c0 = 'e' ∧ ¬c0 = 'E') :
    ∀ c, r.head? = some c → isAsciiDigit c = false ∧ ¬c = '.' ∧ ¬c = 'e' ∧ ¬c = 'E' := by
  intro c hcc
  rw [hr, List.head?_cons, Option.some_inj] at hcc
  subst hcc
  exact hc

theorem parseValue_str_of (f : Nat) (cs : List Char) (s rest : List Char)
    (h : skipWs cs = '"' :: (escStr s ++ '"' :: rest)) :
    parseValue (f + 1) cs = some (.str (String.mk s), rest) := by
  rw [parseValue, h]
  simp only []
  rw [parseStrBody_escStr s rest]

theorem parseValue_true_of (f : Nat) (cs rest : List Char)
    (h : skipWs cs = 't' :: 'r' :: 'u' :: 'e' :: rest) :
    parseValue (f + 1) cs = some (.bool true, rest) := by
  rw [parseValue, h]
  simp only []

theorem parseValue_false_of (f : Nat) (cs rest : List Char)
    (h : skipWs cs = 'f' :: 'a' :: 'l' :: 's' :: 'e' :: rest) :
    parseValue (f + 1) cs = some (.bool false, rest) := by
  rw [parseValue, h]
  simp only []

theorem parseValue_num_of (f : Nat) (cs : List Char) (n : Int) (rest : List Char)
    (h : skipWs cs = intChars n ++ rest)
    (hr : ∀ c, rest.head? = some c → isAsciiDigit c = false ∧ ¬c = '.' ∧
      ¬c = 'e' ∧ ¬c = 'E') :
    parseValue (f + 1) cs = some (.num (n : Rat), rest) := by
  have hnum : parseNumber (intChars n ++ rest) = some ((n : Rat), rest) :=
    parseNumber_intChars n rest hr
  obtain ⟨c, t, hct⟩ : ∃ c t, intChars n = c :: t := by
    cases he : intChars n with
    | nil => exact absurd he (intChars_ne_nil n)
    | cons c t => exact ⟨c, t, rfl⟩
  have hsafe := numStart_safe c (intChars_chars n c (by rw [hct]; simp))
  rw [hct, List.cons_append] at hnum
  rw [parseValue, show skipWs cs = c :: (t ++ rest) from by rw [h, hct, List.cons_append]]
  split
  · rename_i heq
    exact absurd (List.cons.inj heq).1 hsafe.2.1
  · rename_i heq
    exact absurd (List.cons.inj heq).1 hsafe.2.2.1
  · rename_i heq
    exact absurd (List.cons.inj heq).1 hsafe.2.2.2.1
  · rename_i heq
    exact absurd (List.cons.inj heq).1 hsafe.2.2.2.2.1
  · rename_i heq
    exact absurd (List.cons.inj heq).1 hsafe.2.2.2.2.2.1
  · rename_i heq
    exact absurd (List.cons.inj heq).1 hsafe.2.2.2.2.2.2
  · rw [hnum]

theorem parseValue_obj_of (f : Nat) (cs rest : List Char) (c : Char) (t : List Char)
    (ms : List (String × Json)) (rest2 : List Char)
    (h : skipWs cs = '\x7b' :: rest) (h2 : skipWs rest = c :: t) (hc : ¬c = '\x7d')
    (hms : parseMembers f (c :: t) = some (ms, rest2)) :
    parseValue (f + 1) cs = some (.obj ms, rest2) := by
  rw [parseValue, h]
  simp only []
  rw [h2]
  split
  · rename_i heq
    exact absurd (List.cons.inj heq).1 hc
  · rw [hms]

theorem parseValue_arrEmpty_of (f : Nat) (cs rest rest2 : List Char)
    (h : skipWs cs = '[' :: rest) (h2 : skipWs rest = ']' :: rest2) :
    parseValue (f + 1) cs = some (.arr [], rest2) := by
  rw [parseValue, h]
  simp only []
  rw [h2]
  simp only []

theorem parseValue_arr_of (f : Nat) (cs rest : List Char) (c : Char) (t : List Char)
    (es : List Json) (rest2 : List Char)
    (h : skipWs cs = '[' :: rest) (h2 : skipWs rest = c :: t) (hc : ¬c = ']')
    (hes : parseElems f (c :: t) = some (es, rest2)) :
    parseValue (f + 1) cs = some (.arr es, rest2) := by
  rw [parseValue, h]
  simp only []
  rw [h2]
  split
  · rename_i heq
    exact absurd (List.cons.inj heq).1 hc
  · rw [hes]

theorem parseMembers_last (f : Nat) (key : List Char) (r2 r3 rest : List Char) (v : Json)
    (hval : parseValue f r2 = some (v, r3))
    (hend : skipWs r3 = '\x7d' :: rest) :
    parseMembers (f + 1) (qstr key ++ (':' :: r2)) = some ([(String.mk key, v)], rest) := by
  rw [show qstr key ++ (':' :: r2) = '"' :: (escStr key ++ '"' :: (':' :: r2)) from by
    simp [qstr]]
  rw [parseMembers, parseStrBody_escStr key (':' :: r2)]
  simp only []
  rw [skipWs_cons_not ':' r2 (by decide)]
  simp only []
  rw [hval]
  simp only []
  rw [hend]
  simp only []

theorem parseMembers_more (f : Nat) (key : List Char) (r2 r3 r4 rest : List Char)
    (v : Json) (ms : List (String × Json))
    (hval : parseValue f r2 = some (v, r3))
    (hsep : skipWs r3 = ',' :: r4)
    (hnext : parseMembers f (skipWs r4) = some (ms, rest)) :
    parseMembers (f + 1) (qstr key ++ (':' :: r2)) =
      some ((String.mk key, v) :: ms, rest) := by
  rw [show qstr key ++ (':' :: r2) = '"' :: (escStr key ++ '"' :: (':' :: r2)) from by
    simp [qstr]]
  rw [parseMembers, parseStrBody_escStr key (':' :: r2)]
  simp only []
  rw [skipWs_cons_not ':' r2 (by decide)]
  simp only []
  rw [hval]
  simp only []
  rw [hsep]
  simp only []
  rw [hnext]

theorem parseElems_last (f : Nat) (cs r1 rest : List Char) (v : Json)
    (hval : parseValue f cs = some (v, r1))
    (hend : skipWs r1 = ']' :: rest) :
    parseElems (f + 1) cs = some ([v], rest) := by
  rw [parseElems, hval]
  simp only []
  rw [hend]
  simp only []

theorem parseElems_more (f : Nat) (cs r1 r2 rest : List Char) (v : Json) (es : List Json)
    (hval : parseValue f cs = some (v, r1))
    (hsep : skipWs r1 = ',' :: r2)
    (hnext : parseElems f r2 = some (es, rest)) :
    parseElems (f + 1) cs = some (v :: es, rest) := by
  rw [parseElems, hval]
  simp only []
  rw [hsep]
  simp only []
  rw [hnext]

/-- The JSON value `parseFrontMatter` reads back for one serialized step. -/
def stepJson (s : PlanStep) : Json :=
  .obj [("id", .num ((s.id : Rat))), ("text", .str s.text), ("done", .bool s.done)]

theorem skipWs_qstr (s r : List Char) :
    skipWs (qstr s ++ r) = '"' :: (escStr s ++ '"' :: r) := by
  rw [show qstr s ++ r = '"' :: (escStr s ++ '"' :: r) from by simp [qstr],
      skipWs_cons_not '"' _ (by decide)]

theorem parseValue_stepChars (f : Nat) (s : PlanStep) (cs rest : List Char)
    (h : skipWs cs = stepChars s ++ rest) :
    parseValue (f + 5) cs = some (stepJson s, rest) := by
  have hdoneVal : parseValue (f + 1) (' ' :: ((if s.done then "true".data else "false".data) ++ ("\n    ".data ++ ('\x7d' :: rest)))) = some (Json.bool s.done, ("\n    ".data ++ ('\x7d' :: rest))) := by
    cases hb : s.done
    · exact parseValue_false_of f _ _ (by
        show skipWs (' ' :: ("false".data ++ ("\n    ".data ++ ('\x7d' :: rest)))) = 'f' :: 'a' :: 'l' :: 's' :: 'e' :: ("\n    ".data ++ ('\x7d' :: rest))
        rw [skipWs_cons_ws ' ' _ (by decide),
            show ("false".data ++ ("\n    ".data ++ ('\x7d' :: rest))) = 'f' :: ("alse".data ++ ("\n    ".data ++ ('\x7d' :: rest))) from rfl,
            skipWs_cons_not 'f' _ (by decide)]
        rfl)
    · exact parseValue_true_of f _ _ (by
        show skipWs (' ' :: ("true".data ++ ("\n    ".data ++ ('\x7d' :: rest)))) = 't' :: 'r' :: 'u' :: 'e' :: ("\n    ".data ++ ('\x7d' :: rest))
        rw [skipWs_cons_ws ' ' _ (by decide),
            show ("true".data ++ ("\n    ".data ++ ('\x7d' :: rest))) = 't' :: ("rue".data ++ ("\n    ".data ++ ('\x7d' :: rest))) from rfl,
            skipWs_cons_not 't' _ (by decide)]
        rfl)
  have hdoneMem : parseMembers (f + 2) (qstr "done".data ++ (':' :: (' ' :: ((if s.done then "true".data else "false".data) ++ ("\n    ".data ++ ('\x7d' :: rest)))))) =
      some ([(String.mk "done".data, Json.bool s.done)], rest) :=
    parseMembers_last (f + 1) "done".data _ _ rest (Json.bool s.done) hdoneVal (by
      rw [skipWs_append_ws "\n    ".data (by decide) _,
          skipWs_cons_not '\x7d' rest (by decide)])
  have htextVal : parseValue (f + 2) (' ' :: (qstr s.text.data ++ (",\n      \"done\": ".data ++ ((if s.done then "true".data else "false".data) ++ ("\n    ".data ++ ('\x7d' :: rest)))))) =
      some (Json.str (String.mk s.text.data), ",\n      \"done\": ".data ++ ((if s.done then "true".data else "false".data) ++ ("\n    ".data ++ ('\x7d' :: rest)))) :=
    parseValue_str_of (f + 1) _ s.text.data _ (by
      rw [skipWs_cons_ws ' ' _ (by decide), skipWs_qstr s.text.data _])
  have htextMem : parseMembers (f + 3) (qstr "text".data ++ (':' :: (' ' :: (qstr s.text.data ++ (",\n      \"done\": ".data ++ ((if s.done then "true".data else "false".data) ++ ("\n    ".data ++ ('\x7d' :: rest)))))))) =
      some ([(String.mk "text".data, Json.str (String.mk s.text.data)),
             (String.mk "done".data, Json.bool s.done)], rest) :=
    parseMembers_more (f + 2) "text".data _ _ _ rest
      (Json.str (String.mk s.text.data))
      [(String.mk "done".data, Json.bool s.done)] htextVal
      (by
        rw [show (",\n      \"done\": ".data ++ ((if s.done then "true".data else "false".data) ++ ("\n    ".data ++ ('\x7d' :: rest)))) = ',' :: ("\n      \"done\": ".data ++ ((if s.done then "true".data else "false".data) ++ ("\n    ".data ++ ('\x7d' :: rest)))) from rfl,
            skipWs_cons_not ',' _ (by decide)])
      (by
        rw [show ("\n      \"done\": ".data ++ ((if s.done then "true".data else "false".data) ++ ("\n    ".data ++ ('\x7d' :: rest)))) =
              "\n      ".data ++ (qstr "done".data ++ (':' :: (' ' :: ((if s.done then "true".data else "false".data) ++ ("\n    ".data ++ ('\x7d' :: rest)))))) from rfl,
            skipWs_append_ws "\n      ".data (by decide) _, skipWs_qstr "done".data _]
        exact hdoneMem)
  have hidVal : parseValue (f + 3) (' ' :: (intChars s.id ++ (",\n      \"text\": ".data ++ (qstr s.text.data ++ (",\n      \"done\": ".data ++ ((if s.done then "true".data else "false".data) ++ ("\n    ".data ++ ('\x7d' :: rest)))))))) = some (Json.num ((s.id : Rat)), (",\n      \"text\": ".data ++ (qstr s.text.data ++ (",\n      \"done\": ".data ++ ((if s.done then "true".data else "false".data) ++ ("\n    ".data ++ ('\x7d' :: rest))))))) :=
    parseValue_num_of (f + 2) _ s.id _ (by
      rw [skipWs_cons_ws ' ' _ (by decide), skipWs_intChars s.id _])
      (numStop_of_head (",\n      \"text\": ".data ++ (qstr s.text.data ++ (",\n      \"done\": ".data ++ ((if s.done then "true".data else "false".data) ++ ("\n    ".data ++ ('\x7d' :: rest)))))) ',' ("\n      \"text\": ".data ++ (qstr s.text.data ++ (",\n      \"done\": ".data ++ ((if s.done then "true".data else "false".data) ++ ("\n    ".data ++ ('\x7d' :: rest)))))) rfl (by decide))
  have hidMem : parseMembers (f + 4) (qstr "id".data ++ (':' :: (' ' :: (intChars s.id ++ (",\n      \"text\": ".data ++ (qstr s.text.data ++ (",\n      \"done\": ".data ++ ((if s.done then "true".data else "false".data) ++ ("\n    ".data ++ ('\x7d' :: rest)))))))))) =
      some ([(String.mk "id".data, Json.num ((s.id : Rat))),
             (String.mk "text".data, Json.str (String.mk s.text.data)),
             (String.mk "done".data, Json.bool s.done)], rest) :=
    parseMembers_more (f + 3) "id".data _ _ _ rest (Json.num ((s.id : Rat)))
      [(String.mk "text".data, Json.str (String.mk s.text.data)),
       (String.mk "done".data, Json.bool s.done)] hidVal
      (by
        rw [show (",\n      \"text\": ".data ++ (qstr s.text.data ++ (",\n      \"done\": ".data ++ ((if s.done then "true".data else "false".data) ++ ("\n    ".data ++ ('\x7d' :: rest)))))) = ',' :: ("\n      \"text\": ".data ++ (qstr s.text.data ++ (",\n      \"done\": ".data ++ ((if s.done then "true".data else "false".data) ++ ("\n    ".data ++ ('\x7d' :: rest)))))) from rfl,
            skipWs_cons_not ',' _ (by decide)])
      (by
        rw [show ("\n      \"text\": ".data ++ (qstr s.text.data ++ (",\n      \"done\": ".data ++ ((if s.done then "true".data else "false".data) ++ ("\n    ".data ++ ('\x7d' :: rest)))))) =
              "\n      ".data ++ (qstr "text".data ++ (':' :: (' ' :: (qstr s.text.data ++ (",\n      \"done\": ".data ++ ((if s.done then "true".data else "false".data) ++ ("\n    ".data ++ ('\x7d' :: rest)))))))) from rfl,
            skipWs_append_ws "\n      ".data (by decide) _, skipWs_qstr "text".data _]
        exact htextMem)
  have hsh : stepChars s ++ rest = '\x7b' :: ("\n      \"id\": ".data ++ (intChars s.id ++ (",\n      \"text\": ".data ++ (qstr s.text.data ++ (",\n      \"done\": ".data ++ ((if s.done then "true".data else "false".data) ++ ("\n    ".data ++ ('\x7d' :: rest)))))))) := by
    rw [stepChars_shape]
    simp [List.append_assoc]
  have hsk : skipWs ("\n      \"id\": ".data ++ (intChars s.id ++ (",\n      \"text\": ".data ++ (qstr s.text.data ++ (",\n      \"done\": ".data ++ ((if s.done then "true".data else "false".data) ++ ("\n    ".data ++ ('\x7d' :: rest)))))))) =
      '"' :: (escStr "id".data ++ '"' :: (':' :: (' ' :: (intChars s.id ++ (",\n      \"text\": ".data ++ (qstr s.text.data ++ (",\n      \"done\": ".data ++ ((if s.done then "true".data else "false".data) ++ ("\n    ".data ++ ('\x7d' :: rest)))))))))) := by
    rw [show ("\n      \"id\": ".data ++ (intChars s.id ++ (",\n      \"text\": ".data ++ (qstr s.text.data ++ (",\n      \"done\": ".data ++ ((if s.done then "true".data else "false".data) ++ ("\n    ".data ++ ('\x7d' :: rest)))))))) =
          "\n      ".data ++ (qstr "id".data ++ (':' :: (' ' :: (intChars s.id ++ (",\n      \"text\": ".data ++ (qstr s.text.data ++ (",\n      \"done\": ".data ++ ((if s.done then "true".data else "false".data) ++ ("\n    ".data ++ ('\x7d' :: rest)))))))))) from rfl,
        skipWs_append_ws "\n      ".data (by decide) _, skipWs_qstr "id".data _]
  exact parseValue_obj_of (f + 4) cs _ '"' _ _ rest (by rw [h, hsh]) hsk (by decide) hidMem

theorem skipWs_stepChars (s : PlanStep) (r : List Char) :
    skipWs (stepChars s ++ r) = stepChars s ++ r := by
  rw [stepChars_shape, List.cons_append, skipWs_cons_not '\x7b' _ (by decide)]

theorem stepsJoin_cons_shape (s : PlanStep) (ss : List PlanStep) :
    ∃ t0, stepsJoin (s :: ss) = '\x7b' :: t0 := by
  cases ss with
  | nil => exact ⟨_, stepChars_shape s⟩
  | cons s2 ss2 =>
    obtain ⟨y, hy⟩ : ∃ y, stepChars s = '\x7b' :: y := ⟨_, stepChars_shape s⟩
    refine ⟨y ++ (",\n    ".data ++ stepsJoin (s2 :: ss2)), ?_⟩
    rw [show stepsJoin (s :: s2 :: ss2) =
          stepChars s ++ ",\n    ".data ++ stepsJoin (s2 :: ss2) from rfl, hy]
    simp [List.append_assoc]

theorem skipWs_stepsJoin (s : PlanStep) (ss : List PlanStep) (r : List Char) :
    skipWs (stepsJoin (s :: ss) ++ r) = stepsJoin (s :: ss) ++ r := by
  obtain ⟨t0, ht0⟩ := stepsJoin_cons_shape s ss
  rw [ht0, List.cons_append, skipWs_cons_not '\x7b' _ (by decide)]

theorem parseElems_stepsJoin : ∀ (steps : List PlanStep), steps ≠ [] →
    ∀ (f : Nat) (pre after : List Char), (∀ c ∈ pre, isJsonWs c = true) →
      parseElems (f + (steps.length + 5))
        (pre ++ (stepsJoin steps ++ ('\n' :: ' ' :: ' ' :: ']' :: after))) =
      some (steps.map stepJson, after) := by
  intro steps
  induction steps with
  | nil =>
    intro hne
    exact absurd rfl hne
  | cons s ss ih =>
    intro _ f pre after hpre
    cases ss with
    | nil =>
      exact parseElems_last (f + 5) _ _ after (stepJson s)
        (parseValue_stepChars f s _ _ (by
          rw [skipWs_append_ws pre hpre _, show stepsJoin [s] = stepChars s from rfl,
              skipWs_stepChars s _]))
        (by
          rw [skipWs_cons_ws '\n' _ (by decide), skipWs_cons_ws ' ' _ (by decide),
              skipWs_cons_ws ' ' _ (by decide), skipWs_cons_not ']' _ (by decide)])
    | cons s2 ss2 =>
      have hsj : stepsJoin (s :: s2 :: ss2) ++ ('\n' :: ' ' :: ' ' :: ']' :: after) =
          stepChars s ++ (",\n    ".data ++ (stepsJoin (s2 :: ss2) ++ ('\n' :: ' ' :: ' ' :: ']' :: after))) := by
        rw [show stepsJoin (s :: s2 :: ss2) =
              stepChars s ++ ",\n    ".data ++ stepsJoin (s2 :: ss2) from rfl]
        simp [List.append_assoc]
      refine parseElems_more (f + ((s2 :: ss2).length + 5)) _ _ _ after (stepJson s)
        ((s2 :: ss2).map stepJson)
        (parseValue_stepChars (f + (s2 :: ss2).length) s _ _ (by
          rw [skipWs_append_ws pre hpre _, hsj, skipWs_stepChars s _]))
        (by
          rw [show (",\n    ".data ++ (stepsJoin (s2 :: ss2) ++ ('\n' :: ' ' :: ' ' :: ']' :: after))) =
                ',' :: ("\n    ".data ++ (stepsJoin (s2 :: ss2) ++ ('\n' :: ' ' :: ' ' :: ']' :: after))) from rfl,
              skipWs_cons_not ',' _ (by decide)])
        (ih (by simp) f "\n    ".data after (by decide))

theorem skipWs_stepsArray (steps : List PlanStep) (r : List Char) :
    skipWs (stepsArrayChars steps ++ r) = stepsArrayChars steps ++ r := by
  cases steps with
  | nil => rfl
  | cons s ss =>
    rw [show stepsArrayChars (s :: ss) ++ r =
          '[' :: ("\n    ".data ++ (stepsJoin (s :: ss) ++ ("\n  ]".data ++ r))) from by
        rw [show stepsArrayChars (s :: ss) =
              "[\n    ".data ++ stepsJoin (s :: ss) ++ "\n  ]".data from rfl,
            show "[\n    ".data = '[' :: "\n    ".data from rfl]
        simp [List.append_assoc]]
    rw [skipWs_cons_not '[' _ (by decide)]

theorem parseValue_arrNE_of (f : Nat) (cs rest0 : List Char) (es : List Json)
    (rest2 : List Char)
    (h : skipWs cs = '[' :: rest0)
    (h2 : ∀ r', ¬skipWs rest0 = ']' :: r')
    (hes : parseElems f (skipWs rest0) = some (es, rest2)) :
    parseValue (f + 1) cs = some (.arr es, rest2) := by
  rw [parseValue, h]
  simp only []
  split <;> rename_i heq
  all_goals first
    | exact absurd heq (h2 _)
    | (rw [hes] at heq
       first
         | exact Option.noConfusion heq
         | (have h3 := Option.some.inj heq
            rw [← (Prod.mk.inj h3).1, ← (Prod.mk.inj h3).2]))

theorem parseValue_stepsArray (f : Nat) (steps : List PlanStep) (cs rest : List Char)
    (h : skipWs cs = stepsArrayChars steps ++ rest) :
    parseValue (f + (steps.length + 6)) cs = some (.arr (steps.map stepJson), rest) := by
  cases steps with
  | nil =>
    exact parseValue_arrEmpty_of (f + 5) cs (']' :: rest) rest
      (by rw [h]; rfl) (by rw [skipWs_cons_not ']' rest (by decide)])
  | cons s ss =>
    obtain ⟨t0, ht0⟩ := stepsJoin_cons_shape s ss
    have hsh : stepsArrayChars (s :: ss) ++ rest =
        '[' :: ("\n    ".data ++ (stepsJoin (s :: ss) ++ ("\n  ]".data ++ rest))) := by
      rw [show stepsArrayChars (s :: ss) =
            "[\n    ".data ++ stepsJoin (s :: ss) ++ "\n  ]".data from rfl,
          show "[\n    ".data = '[' :: "\n    ".data from rfl]
      simp [List.append_assoc]
    have hskip : skipWs ("\n    ".data ++ (stepsJoin (s :: ss) ++ ("\n  ]".data ++ rest))) =
        stepsJoin (s :: ss) ++ ("\n  ]".data ++ rest) := by
      rw [skipWs_append_ws "\n    ".data (by decide) _, skipWs_stepsJoin s ss _]
    refine parseValue_arrNE_of (f + ((s :: ss).length + 5)) cs _
      ((s :: ss).map stepJson) rest (by rw [h, hsh]) ?_ ?_
    · intro r' hcontra
      rw [hskip, ht0, List.cons_append] at hcontra
      exact absurd (List.cons.inj hcontra).1 (by decide)
    · rw [hskip]
      exact parseElems_stepsJoin (s :: ss) (by simp) f [] rest (by simp)

theorem parseMembers_stepsMember (g : Nat) (steps : List PlanStep) (rest : List Char) :
    parseMembers (g + (steps.length + 7))
      (qstr "steps".data ++ (':' :: (' ' :: (stepsArrayChars steps ++
        ('\n' :: '\x7d' :: rest))))) =
      some ([(String.mk "steps".data, Json.arr (steps.map stepJson))], rest) :=
  parseMembers_last (g + (steps.length + 6)) "steps".data _ _ rest
    (Json.arr (steps.map stepJson))
    (parseValue_stepsArray g steps _ _ (by
      rw [skipWs_cons_ws ' ' _ (by decide), skipWs_stepsArray steps _]))
    (by
      rw [skipWs_cons_ws '\n' _ (by decide), skipWs_cons_not '\x7d' rest (by decide)])

/-- The JSON object members `JSON.parse` reads back from `stringifyPlan`. -/
def planMembers (p : PlanRecord) : List (String × Json) :=
  ("id", Json.str p.id) :: ("title", Json.str p.title) :: ("status", Json.str p.status) ::
  ("created_at", Json.str p.created_at) ::
  ((match p.assigned_to_session with
    | some a => if a = "" then [] else [("assigned_to_session", Json.str a)]
    | none => []) ++ [("steps", Json.arr (p.steps.map stepJson))])

/-- The JSON value `JSON.parse` produces on `stringifyPlan`'s output. -/
def planToJson (p : PlanRecord) : Json := .obj (planMembers p)

theorem parseMembers_planPrefix (g : Nat) (wid wtitle wstatus wcreated : String) (C C2 : List Char)
    (ms2 : List (String × Json)) (rest : List Char)
    (hsepC : skipWs C = ',' :: C2)
    (hnextC : parseMembers (g + 1) (skipWs C2) = some (ms2, rest)) :
    parseMembers (g + 5) (qstr "id".data ++ (':' :: (' ' :: (qstr wid.data ++ (",\n  \"title\": ".data ++ (qstr wtitle.data ++ (",\n  \"status\": ".data ++ (qstr wstatus.data ++ (",\n  \"created_at\": ".data ++ (qstr wcreated.data ++ C)))))))))) =
      some ((String.mk "id".data, Json.str (String.mk wid.data)) :: (String.mk "title".data, Json.str (String.mk wtitle.data)) :: (String.mk "status".data, Json.str (String.mk wstatus.data)) :: (String.mk "created_at".data, Json.str (String.mk wcreated.data)) :: ms2, rest) := by
  have hcreatedVal : parseValue (g + 1) (' ' :: (qstr wcreated.data ++ C)) =
      some (Json.str (String.mk wcreated.data), C) :=
    parseValue_str_of g _ wcreated.data _ (by
      rw [skipWs_cons_ws ' ' _ (by decide), skipWs_qstr wcreated.data _])
  have hcreatedMem : parseMembers (g + 2) (qstr "created_at".data ++ (':' :: (' ' :: (qstr wcreated.data ++ C)))) =
      some ((String.mk "created_at".data, Json.str (String.mk wcreated.data)) :: ms2, rest) :=
    parseMembers_more (g + 1) "created_at".data _ _ _ rest
      (Json.str (String.mk wcreated.data)) ms2 hcreatedVal hsepC hnextC
  have hstatusVal : parseValue (g + 2) (' ' :: (qstr wstatus.data ++ (",\n  \"created_at\": ".data ++ (qstr wcreated.data ++ C)))) =
      some (Json.str (String.mk wstatus.data), ",\n  \"created_at\": ".data ++ (qstr wcreated.data ++ C)) :=
    parseValue_str_of (g + 1) _ wstatus.data _ (by
      rw [skipWs_cons_ws ' ' _ (by decide), skipWs_qstr wstatus.data _])
  have hstatusMem : parseMembers (g + 3) (qstr "status".data ++ (':' :: (' ' :: (qstr wstatus.data ++ (",\n  \"created_at\": ".data ++ (qstr wcreated.data ++ C)))))) =
      some ((String.mk "status".data, Json.str (String.mk wstatus.data)) :: (String.mk "created_at".data, Json.str (String.mk wcreated.data)) :: ms2, rest) :=
    parseMembers_more (g + 2) "status".data _ _ _ rest
      (Json.str (String.mk wstatus.data)) ((String.mk "created_at".data, Json.str (String.mk wcreated.data)) :: ms2) hstatusVal
      (by
        rw [show (",\n  \"created_at\": ".data ++ (qstr wcreated.data ++ C)) =
              ',' :: ("\n  \"created_at\": ".data ++ (qstr wcreated.data ++ C)) from rfl,
            skipWs_cons_not ',' _ (by decide)])
      (by
        rw [show ("\n  \"created_at\": ".data ++ (qstr wcreated.data ++ C)) =
              "\n  ".data ++ (qstr "created_at".data ++ (':' :: (' ' :: (qstr wcreated.data ++ C)))) from rfl,
            skipWs_append_ws "\n  ".data (by decide) _, skipWs_qstr "created_at".data _]
        exact hcreatedMem)
  have htitleVal : parseValue (g + 3) (' ' :: (qstr wtitle.data ++ (",\n  \"status\": ".data ++ (qstr wstatus.data ++ (",\n  \"created_at\": ".data ++ (qstr wcreated.data ++ C)))))) =
      some (Json.str (String.mk wtitle.data), ",\n  \"status\": ".data ++ (qstr wstatus.data ++ (",\n  \"created_at\": ".data ++ (qstr wcreated.data ++ C)))) :=
    parseValue_str_of (g + 2) _ wtitle.data _ (by
      rw [skipWs_cons_ws ' ' _ (by decide), skipWs_qstr wtitle.data _])
  have htitleMem : parseMembers (g + 4) (qstr "title".data ++ (':' :: (' ' :: (qstr wtitle.data ++ (",\n  \"status\": ".data ++ (qstr wstatus.data ++ (",\n  \"created_at\": ".data ++ (qstr wcreated.data ++ C)))))))) =
      some ((String.mk "title".data, Json.str (String.mk wtitle.data)) :: (String.mk "status".data, Json.str (String.mk wstatus.data)) :: (String.mk "created_at".data, Json.str (String.mk wcreated.data)) :: ms2, rest) :=
    parseMembers_more (g + 3) "title".data _ _ _ rest
      (Json.str (String.mk wtitle.data)) ((String.mk "status".data, Json.str (String.mk wstatus.data)) :: (String.mk "created_at".data, Json.str (String.mk wcreated.data)) :: ms2) htitleVal
      (by
        rw [show (",\n  \"status\": ".data ++ (qstr wstatus.data ++ (",\n  \"created_at\": ".data ++ (qstr wcreated.data ++ C)))) =
              ',' :: ("\n  \"status\": ".data ++ (qstr wstatus.data ++ (",\n  \"created_at\": ".data ++ (qstr wcreated.data ++ C)))) from rfl,
            skipWs_cons_not ',' _ (by decide)])
      (by
        rw [show ("\n  \"status\": ".data ++ (qstr wstatus.data ++ (",\n  \"created_at\": ".data ++ (qstr wcreated.data ++ C)))) =
              "\n  ".data ++ (qstr "status".data ++ (':' :: (' ' :: (qstr wstatus.data ++ (",\n  \"created_at\": ".data ++ (qstr wcreated.data ++ C)))))) from rfl,
            skipWs_append_ws "\n  ".data (by decide) _, skipWs_qstr "status".data _]
        exact hstatusMem)
  have hidVal : parseValue (g + 4) (' ' :: (qstr wid.data ++ (",\n  \"title\": ".data ++ (qstr wtitle.data ++ (",\n  \"status\": ".data ++ (qstr wstatus.data ++ (",\n  \"created_at\": ".data ++ (qstr wcreated.data ++ C)))))))) =
      some (Json.str (String.mk wid.data), ",\n  \"title\": ".data ++ (qstr wtitle.data ++ (",\n  \"status\": ".data ++ (qstr wstatus.data ++ (",\n  \"created_at\": ".data ++ (qstr wcreated.data ++ C)))))) :=
    parseValue_str_of (g + 3) _ wid.data _ (by
      rw [skipWs_cons_ws ' ' _ (by decide), skipWs_qstr wid.data _])
  exact parseMembers_more (g + 4) "id".data _ _ _ rest
    (Json.str (String.mk wid.data)) ((String.mk "title".data, Json.str (String.mk wtitle.data)) :: (String.mk "status".data, Json.str (String.mk wstatus.data)) :: (String.mk "created_at".data, Json.str (String.mk wcreated.data)) :: ms2) hidVal
    (by
      rw [show (",\n  \"title\": ".data ++ (qstr wtitle.data ++ (",\n  \"status\": ".data ++ (qstr wstatus.data ++ (",\n  \"created_at\": ".data ++ (qstr wcreated.data ++ C)))))) =
            ',' :: ("\n  \"title\": ".data ++ (qstr wtitle.data ++ (",\n  \"status\": ".data ++ (qstr wstatus.data ++ (",\n  \"created_at\": ".data ++ (qstr wcreated.data ++ C)))))) from rfl,
          skipWs_cons_not ',' _ (by decide)])
    (by
      rw [show ("\n  \"title\": ".data ++ (qstr wtitle.data ++ (",\n  \"status\": ".data ++ (qstr wstatus.data ++ (",\n  \"created_at\": ".data ++ (qstr wcreated.data ++ C)))))) =
            "\n  ".data ++ (qstr "title".data ++ (':' :: (' ' :: (qstr wtitle.data ++ (",\n  \"status\": ".data ++ (qstr wstatus.data ++ (",\n  \"created_at\": ".data ++ (qstr wcreated.data ++ C)))))))) from rfl,
          skipWs_append_ws "\n  ".data (by decide) _, skipWs_qstr "title".data _]
      exact htitleMem)

set_option maxHeartbeats 1000000 in
theorem parseValue_stringifyPlan (f : Nat) (p : PlanRecord) (rest : List Char) :
    parseValue (f + (p.steps.length + 13)) (stringifyPlan p ++ rest) =
      some (planToJson p, rest) := by
  obtain ⟨⟨pid, ptitle, pstatus, pcreated, passigned, psteps⟩, pbody⟩ := p
  dsimp only
  cases passigned with
  | none =>
    have hpj : planToJson (⟨⟨pid, ptitle, pstatus, pcreated, none, psteps⟩, pbody⟩ : PlanRecord) = Json.obj [("id", Json.str pid), ("title", Json.str ptitle), ("status", Json.str pstatus), ("created_at", Json.str pcreated), ("steps", Json.arr (psteps.map stepJson))] := by
      simp [planToJson, planMembers]
    have hsh : stringifyPlan (⟨⟨pid, ptitle, pstatus, pcreated, none, psteps⟩, pbody⟩ : PlanRecord) ++ rest = '\x7b' :: ("\n  \"id\": ".data ++ (qstr pid.data ++ (",\n  \"title\": ".data ++ (qstr ptitle.data ++ (",\n  \"status\": ".data ++ (qstr pstatus.data ++ (",\n  \"created_at\": ".data ++ (qstr pcreated.data ++ (",\n  \"steps\": ".data ++ (stepsArrayChars psteps ++ ("\n".data ++ ('\x7d' :: rest)))))))))))) := by
      rw [stringifyPlan_shape]
      simp [stringifyInner, List.append_assoc]
    rw [hpj]
    exact parseValue_obj_of (f + psteps.length + 12) (stringifyPlan (⟨⟨pid, ptitle, pstatus, pcreated, none, psteps⟩, pbody⟩ : PlanRecord) ++ rest)
      ("\n  \"id\": ".data ++ (qstr pid.data ++ (",\n  \"title\": ".data ++ (qstr ptitle.data ++ (",\n  \"status\": ".data ++ (qstr pstatus.data ++ (",\n  \"created_at\": ".data ++ (qstr pcreated.data ++ (",\n  \"steps\": ".data ++ (stepsArrayChars psteps ++ ("\n".data ++ ('\x7d' :: rest)))))))))))) '"'
      (escStr "id".data ++ '"' :: (':' :: (' ' :: (qstr pid.data ++ (",\n  \"title\": ".data ++ (qstr ptitle.data ++ (",\n  \"status\": ".data ++ (qstr pstatus.data ++ (",\n  \"created_at\": ".data ++ (qstr pcreated.data ++ (",\n  \"steps\": ".data ++ (stepsArrayChars psteps ++ ("\n".data ++ ('\x7d' :: rest)))))))))))))) _ rest
      (by rw [show skipWs (stringifyPlan (⟨⟨pid, ptitle, pstatus, pcreated, none, psteps⟩, pbody⟩ : PlanRecord) ++ rest) = stringifyPlan (⟨⟨pid, ptitle, pstatus, pcreated, none, psteps⟩, pbody⟩ : PlanRecord) ++ rest from by
            rw [stringifyPlan_shape, List.cons_append, skipWs_cons_not '\x7b' _ (by decide)],
          hsh])
      (by rw [show ("\n  \"id\": ".data ++ (qstr pid.data ++ (",\n  \"title\": ".data ++ (qstr ptitle.data ++ (",\n  \"status\": ".data ++ (qstr pstatus.data ++ (",\n  \"created_at\": ".data ++ (qstr pcreated.data ++ (",\n  \"steps\": ".data ++ (stepsArrayChars psteps ++ ("\n".data ++ ('\x7d' :: rest)))))))))))) = "\n  ".data ++ (qstr "id".data ++ (':' :: (' ' :: (qstr pid.data ++ (",\n  \"title\": ".data ++ (qstr ptitle.data ++ (",\n  \"status\": ".data ++ (qstr pstatus.data ++ (",\n  \"created_at\": ".data ++ (qstr pcreated.data ++ (",\n  \"steps\": ".data ++ (stepsArrayChars psteps ++ ("\n".data ++ ('\x7d' :: rest)))))))))))))) from rfl,
          skipWs_append_ws "\n  ".data (by decide) _, skipWs_qstr "id".data _])
      (by decide)
      (parseMembers_planPrefix (f + psteps.length + 7) pid ptitle pstatus pcreated (",\n  \"steps\": ".data ++ (stepsArrayChars psteps ++ ("\n".data ++ ('\x7d' :: rest)))) ("\n  \"steps\": ".data ++ (stepsArrayChars psteps ++ ("\n".data ++ ('\x7d' :: rest))))
        [(String.mk "steps".data, Json.arr (psteps.map stepJson))] rest
        (by rw [show (",\n  \"steps\": ".data ++ (stepsArrayChars psteps ++ ("\n".data ++ ('\x7d' :: rest)))) = ',' :: ("\n  \"steps\": ".data ++ (stepsArrayChars psteps ++ ("\n".data ++ ('\x7d' :: rest)))) from rfl, skipWs_cons_not ',' _ (by decide)])
        (by
          rw [show ("\n  \"steps\": ".data ++ (stepsArrayChars psteps ++ ("\n".data ++ ('\x7d' :: rest)))) = "\n  ".data ++ (qstr "steps".data ++ (':' :: (' ' :: (stepsArrayChars psteps ++ ("\n".data ++ ('\x7d' :: rest)))))) from rfl,
              skipWs_append_ws "\n  ".data (by decide) _, skipWs_qstr "steps".data _,
              show f + psteps.length + 7 + 1 = f + 1 + (psteps.length + 7) from by omega]
          exact parseMembers_stepsMember (f + 1) psteps rest))
  | some a =>
    by_cases ha : a = ""
    · subst ha
      have hpj : planToJson (⟨⟨pid, ptitle, pstatus, pcreated, some "", psteps⟩, pbody⟩ : PlanRecord) = Json.obj [("id", Json.str pid), ("title", Json.str ptitle), ("status", Json.str pstatus), ("created_at", Json.str pcreated), ("steps", Json.arr (psteps.map stepJson))] := by
        simp [planToJson, planMembers]
      have hsh : stringifyPlan (⟨⟨pid, ptitle, pstatus, pcreated, some "", psteps⟩, pbody⟩ : PlanRecord) ++ rest = '\x7b' :: ("\n  \"id\": ".data ++ (qstr pid.data ++ (",\n  \"title\": ".data ++ (qstr ptitle.data ++ (",\n  \"status\": ".data ++ (qstr pstatus.data ++ (",\n  \"created_at\": ".data ++ (qstr pcreated.data ++ (",\n  \"steps\": ".data ++ (stepsArrayChars psteps ++ ("\n".data ++ ('\x7d' :: rest)))))))))))) := by
        rw [stringifyPlan_shape]
        simp [stringifyInner, List.append_assoc]
      rw [hpj]
      exact parseValue_obj_of (f + psteps.length + 12) (stringifyPlan (⟨⟨pid, ptitle, pstatus, pcreated, some "", psteps⟩, pbody⟩ : PlanRecord) ++ rest)
        ("\n  \"id\": ".data ++ (qstr pid.data ++ (",\n  \"title\": ".data ++ (qstr ptitle.data ++ (",\n  \"status\": ".data ++ (qstr pstatus.data ++ (",\n  \"created_at\": ".data ++ (qstr pcreated.data ++ (",\n  \"steps\": ".data ++ (stepsArrayChars psteps ++ ("\n".data ++ ('\x7d' :: rest)))))))))))) '"'
        (escStr "id".data ++ '"' :: (':' :: (' ' :: (qstr pid.data ++ (",\n  \"title\": ".data ++ (qstr ptitle.data ++ (",\n  \"status\": ".data ++ (qstr pstatus.data ++ (",\n  \"created_at\": ".data ++ (qstr pcreated.data ++ (",\n  \"steps\": ".data ++ (stepsArrayChars psteps ++ ("\n".data ++ ('\x7d' :: rest)))))))))))))) _ rest
        (by rw [show skipWs (stringifyPlan (⟨⟨pid, ptitle, pstatus, pcreated, some "", psteps⟩, pbody⟩ : PlanRecord) ++ rest) = stringifyPlan (⟨⟨pid, ptitle, pstatus, pcreated, some "", psteps⟩, pbody⟩ : PlanRecord) ++ rest from by
              rw [stringifyPlan_shape, List.cons_append, skipWs_cons_not '\x7b' _ (by decide)],
            hsh])
        (by rw [show ("\n  \"id\": ".data ++ (qstr pid.data ++ (",\n  \"title\": ".data ++ (qstr ptitle.data ++ (",\n  \"status\": ".data ++ (qstr pstatus.data ++ (",\n  \"created_at\": ".data ++ (qstr pcreated.data ++ (",\n  \"steps\": ".data ++ (stepsArrayChars psteps ++ ("\n".data ++ ('\x7d' :: rest)))))))))))) = "\n  ".data ++ (qstr "id".data ++ (':' :: (' ' :: (qstr pid.data ++ (",\n  \"title\": ".data ++ (qstr ptitle.data ++ (",\n  \"status\": ".data ++ (qstr pstatus.data ++ (",\n  \"created_at\": ".data ++ (qstr pcreated.data ++ (",\n  \"steps\": ".data ++ (stepsArrayChars psteps ++ ("\n".data ++ ('\x7d' :: rest)))))))))))))) from rfl,
            skipWs_append_ws "\n  ".data (by decide) _, skipWs_qstr "id".data _])
        (by decide)
        (parseMembers_planPrefix (f + psteps.length + 7) pid ptitle pstatus pcreated (",\n  \"steps\": ".data ++ (stepsArrayChars psteps ++ ("\n".data ++ ('\x7d' :: rest)))) ("\n  \"steps\": ".data ++ (stepsArrayChars psteps ++ ("\n".data ++ ('\x7d' :: rest))))
          [(String.mk "steps".data, Json.arr (psteps.map stepJson))] rest
          (by rw [show (",\n  \"steps\": ".data ++ (stepsArrayChars psteps ++ ("\n".data ++ ('\x7d' :: rest)))) = ',' :: ("\n  \"steps\": ".data ++ (stepsArrayChars psteps ++ ("\n".data ++ ('\x7d' :: rest)))) from rfl, skipWs_cons_not ',' _ (by decide)])
          (by
            rw [show ("\n  \"steps\": ".data ++ (stepsArrayChars psteps ++ ("\n".data ++ ('\x7d' :: rest)))) = "\n  ".data ++ (qstr "steps".data ++ (':' :: (' ' :: (stepsArrayChars psteps ++ ("\n".data ++ ('\x7d' :: rest)))))) from rfl,
                skipWs_append_ws "\n  ".data (by decide) _, skipWs_qstr "steps".data _,
                show f + psteps.length + 7 + 1 = f + 1 + (psteps.length + 7) from by omega]
            exact parseMembers_stepsMember (f + 1) psteps rest))
    ·
      have hpj : planToJson (⟨⟨pid, ptitle, pstatus, pcreated, some a, psteps⟩, pbody⟩ : PlanRecord) = Json.obj [("id", Json.str pid), ("title", Json.str ptitle), ("status", Json.str pstatus), ("created_at", Json.str pcreated), ("assigned_to_session", Json.str a), ("steps", Json.arr (psteps.map stepJson))] := by
        simp [planToJson, planMembers, ha]
      have hsh : stringifyPlan (⟨⟨pid, ptitle, pstatus, pcreated, some a, psteps⟩, pbody⟩ : PlanRecord) ++ rest = '\x7b' :: ("\n  \"id\": ".data ++ (qstr pid.data ++ (",\n  \"title\": ".data ++ (qstr ptitle.data ++ (",\n  \"status\": ".data ++ (qstr pstatus.data ++ (",\n  \"created_at\": ".data ++ (qstr pcreated.data ++ (",\n  \"assigned_to_session\": ".data ++ (qstr a.data ++ (",\n  \"steps\": ".data ++ (stepsArrayChars psteps ++ ("\n".data ++ ('\x7d' :: rest)))))))))))))) := by
        rw [stringifyPlan_shape]
        simp [stringifyInner, ha, List.append_assoc]
      have hassignVal : parseValue (f + psteps.length + 7) (' ' :: (qstr a.data ++ (",\n  \"steps\": ".data ++ (stepsArrayChars psteps ++ ("\n".data ++ ('\x7d' :: rest)))))) =
          some (Json.str (String.mk a.data), (",\n  \"steps\": ".data ++ (stepsArrayChars psteps ++ ("\n".data ++ ('\x7d' :: rest))))) :=
        parseValue_str_of (f + psteps.length + 6) _ a.data _ (by
          rw [skipWs_cons_ws ' ' _ (by decide), skipWs_qstr a.data _])
      have hassignMem : parseMembers (f + psteps.length + 8)
          (qstr "assigned_to_session".data ++ (':' :: (' ' :: (qstr a.data ++ (",\n  \"steps\": ".data ++ (stepsArrayChars psteps ++ ("\n".data ++ ('\x7d' :: rest)))))))) =
          some ((String.mk "assigned_to_session".data, Json.str (String.mk a.data)) :: [(String.mk "steps".data, Json.arr (psteps.map stepJson))], rest) :=
        parseMembers_more (f + psteps.length + 7) "assigned_to_session".data _ _ _ rest
          (Json.str (String.mk a.data)) [(String.mk "steps".data, Json.arr (psteps.map stepJson))] hassignVal
          (by rw [show (",\n  \"steps\": ".data ++ (stepsArrayChars psteps ++ ("\n".data ++ ('\x7d' :: rest)))) = ',' :: ("\n  \"steps\": ".data ++ (stepsArrayChars psteps ++ ("\n".data ++ ('\x7d' :: rest)))) from rfl, skipWs_cons_not ',' _ (by decide)])
          (by
            rw [show ("\n  \"steps\": ".data ++ (stepsArrayChars psteps ++ ("\n".data ++ ('\x7d' :: rest)))) = "\n  ".data ++ (qstr "steps".data ++ (':' :: (' ' :: (stepsArrayChars psteps ++ ("\n".data ++ ('\x7d' :: rest)))))) from rfl,
                skipWs_append_ws "\n  ".data (by decide) _, skipWs_qstr "steps".data _]
            exact parseMembers_stepsMember f psteps rest)
      rw [hpj]
      exact parseValue_obj_of (f + psteps.length + 12) (stringifyPlan (⟨⟨pid, ptitle, pstatus, pcreated, some a, psteps⟩, pbody⟩ : PlanRecord) ++ rest)
        ("\n  \"id\": ".data ++ (qstr pid.data ++ (",\n  \"title\": ".data ++ (qstr ptitle.data ++ (",\n  \"status\": ".data ++ (qstr pstatus.data ++ (",\n  \"created_at\": ".data ++ (qstr pcreated.data ++ (",\n  \"assigned_to_session\": ".data ++ (qstr a.data ++ (",\n  \"steps\": ".data ++ (stepsArrayChars psteps ++ ("\n".data ++ ('\x7d' :: rest)))))))))))))) '"'
        (escStr "id".data ++ '"' :: (':' :: (' ' :: (qstr pid.data ++ (",\n  \"title\": ".data ++ (qstr ptitle.data ++ (",\n  \"status\": ".data ++ (qstr pstatus.data ++ (",\n  \"created_at\": ".data ++ (qstr pcreated.data ++ (",\n  \"assigned_to_session\": ".data ++ (qstr a.data ++ (",\n  \"steps\": ".data ++ (stepsArrayChars psteps ++ ("\n".data ++ ('\x7d' :: rest)))))))))))))))) _ rest
        (by rw [show skipWs (stringifyPlan (⟨⟨pid, ptitle, pstatus, pcreated, some a, psteps⟩, pbody⟩ : PlanRecord) ++ rest) = stringifyPlan (⟨⟨pid, ptitle, pstatus, pcreated, some a, psteps⟩, pbody⟩ : PlanRecord) ++ rest from by
              rw [stringifyPlan_shape, List.cons_append, skipWs_cons_not '\x7b' _ (by decide)],
            hsh])
        (by rw [show ("\n  \"id\": ".data ++ (qstr pid.data ++ (",\n  \"title\": ".data ++ (qstr ptitle.data ++ (",\n  \"status\": ".data ++ (qstr pstatus.data ++ (",\n  \"created_at\": ".data ++ (qstr pcreated.data ++ (",\n  \"assigned_to_session\": ".data ++ (qstr a.data ++ (",\n  \"steps\": ".data ++ (stepsArrayChars psteps ++ ("\n".data ++ ('\x7d' :: rest)))))))))))))) = "\n  ".data ++ (qstr "id".data ++ (':' :: (' ' :: (qstr pid.data ++ (",\n  \"title\": ".data ++ (qstr ptitle.data ++ (",\n  \"status\": ".data ++ (qstr pstatus.data ++ (",\n  \"created_at\": ".data ++ (qstr pcreated.data ++ (",\n  \"assigned_to_session\": ".data ++ (qstr a.data ++ (",\n  \"steps\": ".data ++ (stepsArrayChars psteps ++ ("\n".data ++ ('\x7d' :: rest)))))))))))))))) from rfl,
            skipWs_append_ws "\n  ".data (by decide) _, skipWs_qstr "id".data _])
        (by decide)
        (parseMembers_planPrefix (f + psteps.length + 7) pid ptitle pstatus pcreated (",\n  \"assigned_to_session\": ".data ++ (qstr a.data ++ (",\n  \"steps\": ".data ++ (stepsArrayChars psteps ++ ("\n".data ++ ('\x7d' :: rest)))))) ("\n  \"assigned_to_session\": ".data ++ (qstr a.data ++ (",\n  \"steps\": ".data ++ (stepsArrayChars psteps ++ ("\n".data ++ ('\x7d' :: rest))))))
          ((String.mk "assigned_to_session".data, Json.str (String.mk a.data)) :: [(String.mk "steps".data, Json.arr (psteps.map stepJson))]) rest
          (by rw [show (",\n  \"assigned_to_session\": ".data ++ (qstr a.data ++ (",\n  \"steps\": ".data ++ (stepsArrayChars psteps ++ ("\n".data ++ ('\x7d' :: rest)))))) = ',' :: ("\n  \"assigned_to_session\": ".data ++ (qstr a.data ++ (",\n  \"steps\": ".data ++ (stepsArrayChars psteps ++ ("\n".data ++ ('\x7d' :: rest)))))) from rfl, skipWs_cons_not ',' _ (by decide)])
          (by
            rw [show ("\n  \"assigned_to_session\": ".data ++ (qstr a.data ++ (",\n  \"steps\": ".data ++ (stepsArrayChars psteps ++ ("\n".data ++ ('\x7d' :: rest)))))) = "\n  ".data ++ (qstr "assigned_to_session".data ++ (':' :: (' ' :: (qstr a.data ++ (",\n  \"steps\": ".data ++ (stepsArrayChars psteps ++ ("\n".data ++ ('\x7d' :: rest)))))))) from rfl,
                skipWs_append_ws "\n  ".data (by decide) _,
                skipWs_qstr "assigned_to_session".data _]
            exact hassignMem))

theorem stepChars_length_pos (s : PlanStep) : 1 ≤ (stepChars s).length := by
  rw [stepChars_shape]
  simp

theorem stepsJoin_length_ge (steps : List PlanStep) :
    steps.length ≤ (stepsJoin steps).length := by
  induction steps with
  | nil => simp [stepsJoin]
  | cons s ss ih =>
    cases ss with
    | nil => simpa [stepsJoin] using stepChars_length_pos s
    | cons s2 ss2 =>
      rw [show stepsJoin (s :: s2 :: ss2) =
            stepChars s ++ ",\n    ".data ++ stepsJoin (s2 :: ss2) from rfl]
      have h1 := stepChars_length_pos s
      simp only [List.length_append, List.length_cons] at ih ⊢
      omega

theorem stepsArray_length_ge (steps : List PlanStep) :
    steps.length ≤ (stepsArrayChars steps).length := by
  cases steps with
  | nil => exact Nat.zero_le _
  | cons s ss =>
    rw [show stepsArrayChars (s :: ss) =
          "[\n    ".data ++ stepsJoin (s :: ss) ++ "\n  ]".data from rfl]
    have h1 := stepsJoin_length_ge (s :: ss)
    simp only [List.length_append, List.length_cons] at h1 ⊢
    omega

theorem stringifyPlan_length (p : PlanRecord) :
    p.steps.length + 12 ≤ (stringifyPlan p).length := by
  rw [stringifyPlan_shape]
  have h1 := stepsArray_length_ge p.steps
  have e1 : ("\n  \"id\": ".data).length = 9 := rfl
  have e2 : (",\n  \"title\": ".data).length = 13 := rfl
  have e3 : (",\n  \"status\": ".data).length = 14 := rfl
  have e4 : (",\n  \"created_at\": ".data).length = 18 := rfl
  have e5 : (",\n  \"steps\": ".data).length = 13 := rfl
  have e6 : ("\n".data).length = 1 := rfl
  simp only [List.length_cons, List.length_append, stringifyInner]
  omega

theorem jsonParse_stringifyPlan (p : PlanRecord) :
    jsonParse (String.mk (stringifyPlan p)) = some (planToJson p) := by
  have hlen := stringifyPlan_length p
  obtain ⟨g, hg⟩ : ∃ g, (stringifyPlan p).length + 1 = g + (p.steps.length + 13) :=
    ⟨(stringifyPlan p).length + 1 - (p.steps.length + 13), by omega⟩
  unfold jsonParse
  rw [show (String.mk (stringifyPlan p)).data = stringifyPlan p from rfl, hg,
      show stringifyPlan p = stringifyPlan p ++ ([] : List Char) from by simp,
      parseValue_stringifyPlan g p []]
  simp [skipWs]

theorem stepOfJson_stepJson (s : PlanStep) : stepOfJson (stepJson s) = some s := by
  have h : stepOfJson (stepJson s) =
      if ((s.id : Rat)).den = 1 then
        some (⟨((s.id : Rat)).num, s.text, s.done⟩ : PlanStep)
      else none := rfl
  rw [h, if_pos (Rat.den_intCast s.id), Rat.num_intCast]

theorem filterMap_stepJson (steps : List PlanStep) :
    (steps.map stepJson).filterMap stepOfJson = steps := by
  induction steps with
  | nil => rfl
  | cons s ss ih => simp [List.filterMap_cons, stepOfJson_stepJson, ih]

theorem filterMap_comp_stepJson (steps : List PlanStep) :
    List.filterMap (stepOfJson ∘ stepJson) steps = steps := by
  induction steps with
  | nil => rfl
  | cons s ss ih => simp [List.filterMap_cons, Function.comp, stepOfJson_stepJson, ih]

theorem jsTrim_stringifyPlan (p : PlanRecord) :
    jsTrim (stringifyPlan p) = stringifyPlan p := by
  rw [stringifyPlan_shape]
  have h1 : List.dropWhile isJsSpace ('\x7b' :: (stringifyInner p ++ ['\x7d'])) =
      '\x7b' :: (stringifyInner p ++ ['\x7d']) := by
    rw [List.dropWhile_cons, if_neg (by decide)]
  have h2 : ('\x7b' :: (stringifyInner p ++ ['\x7d'])).reverse =
      '\x7d' :: ((stringifyInner p).reverse ++ ['\x7b']) := by
    simp
  have h3 : List.dropWhile isJsSpace ('\x7d' :: ((stringifyInner p).reverse ++ ['\x7b'])) =
      '\x7d' :: ((stringifyInner p).reverse ++ ['\x7b']) := by
    rw [List.dropWhile_cons, if_neg (by decide)]
  show ((('\x7b' :: (stringifyInner p ++ ['\x7d'])).dropWhile
      isJsSpace).reverse.dropWhile isJsSpace).reverse = _
  rw [h1, h2, h3, ← h2, List.reverse_reverse]

set_option maxHeartbeats 2000000 in
theorem parseFrontMatter_stringifyPlan (p : PlanRecord)
    (hid : ¬p.id = "")
    (hass : ∀ a, p.assigned_to_session = some a → ¬jsTrim a.data = []) :
    parseFrontMatter (stringifyPlan p) p.id =
      p.toPlanFrontMatter := by
  obtain ⟨⟨pid, ptitle, pstatus, pcreated, passigned, psteps⟩, pbody⟩ := p
  dsimp only at hid hass ⊢
  have h0 : ¬stringifyPlan
      (⟨⟨pid, ptitle, pstatus, pcreated, passigned, psteps⟩, pbody⟩ : PlanRecord) =
      ([] : List Char) := by
    rw [stringifyPlan_shape]
    simp
  simp only [parseFrontMatter]
  rw [jsTrim_stringifyPlan, if_neg h0, jsonParse_stringifyPlan]
  cases passigned with
  | none =>
    rw [show planToJson
        (⟨⟨pid, ptitle, pstatus, pcreated, none, psteps⟩, pbody⟩ : PlanRecord) =
        Json.obj [("id", Json.str pid), ("title", Json.str ptitle), ("status", Json.str pstatus), ("created_at", Json.str pcreated), ("steps", Json.arr (psteps.map stepJson))] from by simp [planToJson, planMembers]]
    have l1 : jLookup [("id", Json.str pid), ("title", Json.str ptitle), ("status", Json.str pstatus), ("created_at", Json.str pcreated), ("steps", Json.arr (psteps.map stepJson))] "id" = some (Json.str pid) := rfl
    have l2 : jLookup [("id", Json.str pid), ("title", Json.str ptitle), ("status", Json.str pstatus), ("created_at", Json.str pcreated), ("steps", Json.arr (psteps.map stepJson))] "title" = some (Json.str ptitle) := rfl
    have l3 : jLookup [("id", Json.str pid), ("title", Json.str ptitle), ("status", Json.str pstatus), ("created_at", Json.str pcreated), ("steps", Json.arr (psteps.map stepJson))] "status" = some (Json.str pstatus) := rfl
    have l4 : jLookup [("id", Json.str pid), ("title", Json.str ptitle), ("status", Json.str pstatus), ("created_at", Json.str pcreated), ("steps", Json.arr (psteps.map stepJson))] "created_at" = some (Json.str pcreated) := rfl
    have l5 : jLookup [("id", Json.str pid), ("title", Json.str ptitle), ("status", Json.str pstatus), ("created_at", Json.str pcreated), ("steps", Json.arr (psteps.map stepJson))] "assigned_to_session" = none := rfl
    have l6 : jLookup [("id", Json.str pid), ("title", Json.str ptitle), ("status", Json.str pstatus), ("created_at", Json.str pcreated), ("steps", Json.arr (psteps.map stepJson))] "steps" = some (Json.arr (psteps.map stepJson)) := rfl
    simp [l1, l2, l3, l4, l5, l6, hid, filterMap_stepJson, filterMap_comp_stepJson, defaultFrontMatter]
  | some a =>
    have ha2 : ¬jsTrim a.data = [] := hass a rfl
    have ha : ¬a = "" := by
      rintro rfl
      exact ha2 rfl
    rw [show planToJson
        (⟨⟨pid, ptitle, pstatus, pcreated, some a, psteps⟩, pbody⟩ : PlanRecord) =
        Json.obj [("id", Json.str pid), ("title", Json.str ptitle), ("status", Json.str pstatus), ("created_at", Json.str pcreated), ("assigned_to_session", Json.str a), ("steps", Json.arr (psteps.map stepJson))] from by simp [planToJson, planMembers, ha]]
    have l1 : jLookup [("id", Json.str pid), ("title", Json.str ptitle), ("status", Json.str pstatus), ("created_at", Json.str pcreated), ("assigned_to_session", Json.str a), ("steps", Json.arr (psteps.map stepJson))] "id" = some (Json.str pid) := rfl
    have l2 : jLookup [("id", Json.str pid), ("title", Json.str ptitle), ("status", Json.str pstatus), ("created_at", Json.str pcreated), ("assigned_to_session", Json.str a), ("steps", Json.arr (psteps.map stepJson))] "title" = some (Json.str ptitle) := rfl
    have l3 : jLookup [("id", Json.str pid), ("title", Json.str ptitle), ("status", Json.str pstatus), ("created_at", Json.str pcreated), ("assigned_to_session", Json.str a), ("steps", Json.arr (psteps.map stepJson))] "status" = some (Json.str pstatus) := rfl
    have l4 : jLookup [("id", Json.str pid), ("title", Json.str ptitle), ("status", Json.str pstatus), ("created_at", Json.str pcreated), ("assigned_to_session", Json.str a), ("steps", Json.arr (psteps.map stepJson))] "created_at" = some (Json.str pcreated) := rfl
    have l5 : jLookup [("id", Json.str pid), ("title", Json.str ptitle), ("status", Json.str pstatus), ("created_at", Json.str pcreated), ("assigned_to_session", Json.str a), ("steps", Json.arr (psteps.map stepJson))] "assigned_to_session" = some (Json.str a) := rfl
    have l6 : jLookup [("id", Json.str pid), ("title", Json.str ptitle), ("status", Json.str pstatus), ("created_at", Json.str pcreated), ("assigned_to_session", Json.str a), ("steps", Json.arr (psteps.map stepJson))] "steps" = some (Json.arr (psteps.map stepJson)) := rfl
    simp [l1, l2, l3, l4, l5, l6, hid, ha2, filterMap_stepJson, filterMap_comp_stepJson, defaultFrontMatter]

/-- The claim's well-formedness conditions on a plan record: non-empty id,
one of the four known statuses, and `assigned_to_session` absent or
non-blank.  (Step shape is enforced by the `PlanStep` type itself.) -/
def wellFormedPlan (p : PlanRecord) : Prop :=
  ¬p.id = "" ∧
  (p.status = "draft" ∨ p.status = "active" ∨ p.status = "completed" ∨
    p.status = "archived") ∧
  (match p.assigned_to_session with
   | none => True
   | some a => ¬jsTrim a.data = [])

/-- C1: for every well-formed plan record, `parsePlanContent` applied to
`serializePlan`'s output (with the record's own id as fallback) restores
every front-matter field exactly, and restores the body up to the
incidental whitespace the serializer strips — leading newlines and
trailing whitespace. -/
theorem parse_serialize_roundtrip (p : PlanRecord) (h : wellFormedPlan p) :
    (parsePlanContent (serializePlan p) p.id).toPlanFrontMatter = p.toPlanFrontMatter ∧
    bodyTrim (parsePlanContent (serializePlan p) p.id).body.data =
      bodyTrim p.body.data := by
  obtain ⟨hid, hstatus, hassign⟩ := h
  have hass : ∀ a, p.assigned_to_session = some a → ¬jsTrim a.data = [] := by
    intro a ha
    rw [ha] at hassign
    exact hassign
  simp only [parsePlanContent]
  rw [serializePlan_split p]
  constructor
  · exact parseFrontMatter_stringifyPlan p hid hass
  · by_cases htb : bodyTrim p.body.data = []
    · rw [if_pos htb, htb]
      rfl
    · rw [if_neg htb]
      exact bodyTrim_append_newline p.body.data htb

/-- A concrete plan exercising escapes, newlines in step text, an assigned
session and body whitespace. -/
def roundTripPlan : PlanRecord :=
  { id := "abc123XY", title := "My \"plan\"", status := "draft",
    created_at := "2024-01-01T00:00:00.000Z",
    assigned_to_session := some "sess-1",
    steps := [{ id := 1, text := "do \"thing\"", done := false },
              { id := 2, text := "b\nc", done := true }],
    body := "\n\nhello  \n  " }

theorem parse_serialize_roundtrip_witness :
    wellFormedPlan roundTripPlan ∧
    ((parsePlanContent (serializePlan roundTripPlan) roundTripPlan.id).toPlanFrontMatter =
        roundTripPlan.toPlanFrontMatter ∧
      bodyTrim (parsePlanContent (serializePlan roundTripPlan) roundTripPlan.id).body.data =
        bodyTrim roundTripPlan.body.data) :=
  ⟨⟨by decide, Or.inl rfl, show ¬jsTrim "sess-1".data = [] by decide⟩,
   parse_serialize_roundtrip roundTripPlan
     ⟨by decide, Or.inl rfl, show ¬jsTrim "sess-1".data = [] by decide⟩⟩

end PlanMode